import Mathlib

/-!
# TessellationDemo: the `BinTree` controller of `ComputeTess_demo/bintree.h`

A shallow embedding of the CPU side of the adaptive binary-tree LOD engine:
the triple-buffer role rotation (`pingpong`, `Draw`), the leaf tessellation
table (`getLeafVertices`, `getLeafIndices`, `loadLeafBuffers`) and the node-store
initialisation (`loadNodesBuffers`), followed by the properties proved about
them.

Conventions of the embedding.

* C++ `int` values are `Int`; `uint` values are `Nat`, reduced modulo `2 ^ 32`
  after every arithmetic operation (`u32`).  An operation without a defined value
  (a shift by 32 or more, a signed overflow, a write past an allocation) yields
  `none`.
* The `float` values that occur in `getLeafVertices` are whole numbers and their
  quotients by a power of two; they are carried as `ℚ`.  The one operation that
  rounds on the values the loops reach, `x++` at `2 ^ 24`, is modelled by
  `floatSucc`.
* `while` loops take a fuel argument and return `none` when it runs out; the
  theorems give a fuel from which the result is reached.
* Definitions come first, theorems after them.
-/

namespace BinTree

/-! ## Ping-pong rotation -/

/-- The role indices `ssbo_idx_` into `nodes_bo_[3]`. -/
structure ssbo_indices where
  read : Int
  write_full : Int
  write_culled : Int
  deriving DecidableEq, Repr

/-- The default member initialisers of `struct ssbo_indices`. -/
def ssbo_indices.initial : ssbo_indices :=
  { read := 0, write_full := 1, write_culled := 2 }

/-- `BinTree::pingpong`.  C++ `%` on `int` truncates towards zero (`Int.tmod`). -/
def pingpong (s : ssbo_indices) : ssbo_indices :=
  let read := s.write_full
  let write_full := Int.tmod (read + 1) 3
  let write_culled := Int.tmod (read + 2) 3
  { read := read, write_full := write_full, write_culled := write_culled }

/-- The passes a `Draw` call runs, each with the node slots (indices into
`nodes_bo_`) it binds: the compute pass binds `NODES_IN_B`, `NODES_OUT_FULL_B`
and `NODES_OUT_CULLED_B`; the render pass binds `NODES_IN_B`. -/
inductive Pass where
  | compute (nodes_in nodes_out_full nodes_out_culled : Int)
  | copy
  | render (nodes_in : Int)
  deriving DecidableEq, Repr

/-- The part of the controller state that `Draw` reads and writes as far as the
node slots are concerned: `settings.freeze` and `ssbo_idx_`. -/
structure State where
  freeze : Bool
  ssbo_idx_ : ssbo_indices
  deriving DecidableEq, Repr

/-- The state of a freshly constructed `BinTree` once `Init` has copied the
settings: `Init` does not assign `ssbo_idx_`, which keeps its default
initialisers. -/
def State.afterInit (freeze : Bool) : State :=
  { freeze := freeze, ssbo_idx_ := ssbo_indices.initial }

/-- `BinTree::Draw`: with `settings.freeze` the call jumps to `RENDER_PASS`;
otherwise it calls `pingpong()` first and then runs the compute pass, the copy
pass and the render pass.  Returns the new state and the passes run, in order. -/
def Draw (s : State) : State × List Pass :=
  if s.freeze then
    (s, [Pass.render s.ssbo_idx_.write_culled])
  else
    let s1 : State := { s with ssbo_idx_ := pingpong s.ssbo_idx_ }
    (s1, [Pass.compute s1.ssbo_idx_.read s1.ssbo_idx_.write_full s1.ssbo_idx_.write_culled,
          Pass.copy,
          Pass.render s1.ssbo_idx_.write_culled])

/-- The role assignment after `n` calls of `pingpong()` on the initial one. -/
def rolesAfter (n : Nat) : ssbo_indices :=
  pingpong^[n] ssbo_indices.initial

/-- A sequence of `Draw` calls; the list gives the value of `settings.freeze`
at each call.  Returns the passes of every call. -/
def drawFrames (s : State) : List Bool → List (List Pass)
  | [] => []
  | f :: fs =>
    let r := Draw { s with freeze := f }
    r.2 :: drawFrames r.1 fs

/-- Number of non-frozen `Draw` calls before call `k`: the frame number of call `k`. -/
def frameIndex (fs : List Bool) (k : Nat) : Nat :=
  (fs.take k).count false

/-- The slot bound at `NODES_IN_B` by the compute pass of a call, if it ran. -/
def computeRead : List Pass → Option Int
  | [] => none
  | Pass.compute r _ _ :: _ => some r
  | _ :: ps => computeRead ps

/-- The slot bound at `NODES_IN_B` by the render pass of a call. -/
def renderSlot : List Pass → Option Int
  | [] => none
  | Pass.render r :: _ => some r
  | _ :: ps => renderSlot ps

/-! ## Machine arithmetic and the leaf tessellation table -/

/-- Reduction of a natural number to the range of a C++ `uint` (32 bits). -/
def u32 (n : Nat) : Nat := n % 2 ^ 32

/-- The expression `1 << level` on a 32-bit `int`: `2 ^ level` up to level 30;
at level 31 the value `2 ^ 31` converted to `int`, that is `INT_MIN`; for a shift
count of 32 or more the expression has no defined value (`none`). -/
def shl1 (level : Nat) : Option Int :=
  if level < 31 then some (2 ^ level)
  else if level = 31 then some (-(2 ^ 31))
  else none

/-- Conversion of an `int` to `uint`: reduction modulo `2 ^ 32`. -/
def intToUint (i : Int) : Nat := (i % 2 ^ 32).toNat

/-- The `float` increment `x++` on the values the loop counters of
`getLeafVertices` take (whole numbers counted up from 0): exact below `2 ^ 24`;
at `2 ^ 24` the sum `2 ^ 24 + 1` is not a binary32 value and rounds back to
`2 ^ 24` (ties to even), so the counter stays where it is. -/
def floatSucc (x : ℚ) : ℚ := if x < 2 ^ 24 then x + 1 else x

/-- A `glm::vec2`.  In every run of `getLeafVertices` that returns, the coordinates
stored are quotients of whole numbers up to `2 ^ 24` by a power of two, which
binary32 holds exactly; they are carried as `ℚ`. -/
structure vec2 where
  x : ℚ
  y : ℚ
  deriving DecidableEq, Repr

/-- A `glm::uvec3`: the three vertex indices of a triangle. -/
structure uvec3 where
  x : Nat
  y : Nat
  z : Nat
  deriving DecidableEq, Repr

/-- The inner loop of `getLeafVertices`: `while (col <= row) { push_back(vec2(col *
d, 1.0 - row * d)); col++; }`.  Returns the final `col` and the vertices. -/
def leafVerticesCols (d row : ℚ) : Nat → ℚ → List vec2 → Option (ℚ × List vec2)
  | 0, _, _ => none
  | fuel + 1, col, vertices =>
    if col ≤ row then
      leafVerticesCols d row fuel (floatSucc col) (vertices ++ [vec2.mk (col * d) (1 - row * d)])
    else some (col, vertices)

/-- The outer loop of `getLeafVertices`: `while (row <= num_row) { inner loop;
row++; col = 0; }`. -/
def leafVerticesRows (num_row d : ℚ) : Nat → ℚ → ℚ → List vec2 → Option (List vec2)
  | 0, _, _, _ => none
  | fuel + 1, row, col, vertices =>
    if row ≤ num_row then
      match leafVerticesCols d row fuel col vertices with
      | none => none
      | some (_, vertices1) => leafVerticesRows num_row d fuel (floatSucc row) 0 vertices1
    else some vertices

/-- `BinTree::getLeafVertices`: `float num_row = 1 << level`, `col = row = 0`,
`d = 1.0 / float(num_row)`, then the two loops. -/
def getLeafVertices (fuel level : Nat) : Option (List vec2) :=
  match shl1 level with
  | none => none
  | some n => leafVerticesRows (n : ℚ) (1 / (n : ℚ)) fuel 0 0 []

/-- The lambda `new_triangle` of `getLeafIndices`, on the captured `elem`,
`num_col` and `orientation`; every sum and difference is taken on `uint`. -/
def new_triangle (elem num_col orientation : Nat) : Except String uvec3 :=
  if orientation = 0 then
    .ok (uvec3.mk elem (u32 (elem + num_col)) (u32 (u32 (elem + num_col) + 1)))
  else if orientation = 1 then
    .ok (uvec3.mk elem (u32 (elem + 2 ^ 32 - 1)) (u32 (elem + num_col)))
  else if orientation = 2 then
    .ok (uvec3.mk elem (u32 (elem + num_col)) (u32 (elem + 1)))
  else if orientation = 3 then
    .ok (uvec3.mk elem (u32 (u32 (elem + num_col) + 2 ^ 32 - 1)) (u32 (elem + num_col)))
  else
    .error "Bad orientation error"

/-- The local variables of `getLeafIndices`. -/
structure IndexState where
  indices : List uvec3
  col : Nat
  row : Nat
  elem : Nat
  num_col : Nat
  orientation : Nat
  deriving DecidableEq, Repr

/-- The statement pair `indices.push_back(new_triangle()); orientation =
(orientation + 1) % 4;`, on a vector that has room for the element;
`Bounded.pushTriangle` adds the case of a vector that is full. -/
def pushTriangle (s : IndexState) : Except String IndexState :=
  match new_triangle s.elem s.num_col s.orientation with
  | .error e => .error e
  | .ok t => .ok { s with indices := s.indices ++ [t], orientation := u32 (s.orientation + 1) % 4 }

/-- The body of the inner loop of `getLeafIndices`: one push, a second push when
`col > 0`, then `col++; elem++`. -/
def colBody (s : IndexState) : Except String IndexState :=
  match pushTriangle s with
  | .error e => .error e
  | .ok s1 =>
    match (if s1.col > 0 then pushTriangle s1 else .ok s1) with
    | .error e => .error e
    | .ok s2 => .ok { s2 with col := u32 (s2.col + 1), elem := u32 (s2.elem + 1) }

/-- The inner loop of `getLeafIndices`: `while (col < num_col) { body }`. -/
def colLoop : Nat → IndexState → Option (Except String IndexState)
  | 0, _ => none
  | fuel + 1, s =>
    if s.col < s.num_col then
      match colBody s with
      | .error e => some (.error e)
      | .ok s1 => colLoop fuel s1
    else some (.ok s)

/-- The outer loop of `getLeafIndices`: `while (row < num_row) { orientation =
(row % 2 == 0) ? 0 : 2; inner loop; col = 0; num_col++; row++; }`. -/
def rowLoop (num_row : Nat) : Nat → IndexState → Option (Except String IndexState)
  | 0, _ => none
  | fuel + 1, s =>
    if s.row < num_row then
      match colLoop fuel { s with orientation := if s.row % 2 = 0 then 0 else 2 } with
      | none => none
      | some (.error e) => some (.error e)
      | some (.ok s1) =>
        rowLoop num_row fuel
          { s1 with col := 0, num_col := u32 (s1.num_col + 1), row := u32 (s1.row + 1) }
    else some (.ok s)

/-- `BinTree::getLeafIndices`: `col = row = elem = 0`, `num_col = 1`, `uint num_row
= 1 << level`, then the two loops.  `orientation` is declared without a value and
assigned before its first use; it starts as 0 here.  The result is `none` when
the shift is undefined or the fuel runs out, `error` when `new_triangle` throws. -/
def getLeafIndices (fuel level : Nat) : Option (Except String (List uvec3)) :=
  match shl1 level with
  | none => none
  | some n =>
    match rowLoop (intToUint n) fuel (IndexState.mk [] 0 0 0 1 0) with
    | none => none
    | some (.error e) => some (.error e)
    | some (.ok s) => some (.ok s.indices)

/-- Triangular number: the index of the first vertex of row `r`. -/
def triNum (r : Nat) : Nat := r * (r + 1) / 2

/-- The vertex table of level `L` in closed form: rows `r = 0 .. 2 ^ L`, row `r`
holding the points `(c / 2 ^ L, 1 - r / 2 ^ L)` for `c = 0 .. r`. -/
def leafVertexTable (L : Nat) : List vec2 :=
  (List.range (2 ^ L + 1)).flatMap (fun (r : Nat) =>
    (List.range (r + 1)).map (fun (c : Nat) => vec2.mk ((c : ℚ) / 2 ^ L) (1 - (r : ℚ) / 2 ^ L)))

/-- The triangle of `new_triangle` computed without wrap-around. -/
def triangleAt (elem num_col orientation : Nat) : uvec3 :=
  if orientation = 0 then uvec3.mk elem (elem + num_col) (elem + num_col + 1)
  else if orientation = 1 then uvec3.mk elem (elem - 1) (elem + num_col)
  else if orientation = 2 then uvec3.mk elem (elem + num_col) (elem + 1)
  else uvec3.mk elem (elem + num_col - 1) (elem + num_col)

/-- The orientation a row starts with. -/
def startOrientation (row : Nat) : Nat := if row % 2 = 0 then 0 else 2

/-- The orientation on entry of column `c` of row `r`: the start orientation
advanced once for column 0 and twice for every later column. -/
def orientationAt (r c : Nat) : Nat :=
  if c = 0 then startOrientation r else (startOrientation r + 2 * c + 3) % 4

/-- The triangles pushed at column `c` of row `r`. -/
def columnTriangles (r c : Nat) : List uvec3 :=
  if c = 0 then [triangleAt (triNum r + c) (r + 1) (orientationAt r c)]
  else [triangleAt (triNum r + c) (r + 1) (orientationAt r c),
        triangleAt (triNum r + c) (r + 1) ((orientationAt r c + 1) % 4)]

/-- The triangles pushed during row `r`. -/
def rowTriangles (r : Nat) : List uvec3 :=
  (List.range (r + 1)).flatMap (columnTriangles r)

/-- The index table of level `L` in closed form. -/
def leafIndexTable (L : Nat) : List uvec3 :=
  (List.range (2 ^ L)).flatMap rowTriangles

/-- The element counts stored by `loadLeafBuffers`. -/
structure LeafCounts where
  v_count : Nat
  idx_count : Nat
  deriving DecidableEq, Repr

/-- `BinTree::loadLeafBuffers`, as far as the counts go: `leaf_.v.count =
vertices.size()` and `leaf_.idx.count = indices.size() * 3`.  The `count` fields
belong to `BufferCombo`, declared outside the sources at hand; they are taken to
hold the products exactly. -/
def loadLeafBuffers (fuel level : Nat) : Option (Except String LeafCounts) :=
  match getLeafVertices fuel level with
  | none => none
  | some vertices =>
    match getLeafIndices fuel level with
    | none => none
    | some (.error e) => some (.error e)
    | some (.ok indices) =>
      some (.ok (LeafCounts.mk vertices.length (indices.length * 3)))

/-- `RenderImgui`: `int leaf_tri = (1 << (settings_ref.cpu_lod * 2))`. -/
def leaf_tri (cpu_lod : Nat) : Option Int := shl1 (cpu_lod * 2)

/-! ## The leaf table as a grid of cells -/

/-- Index of the vertex in column `c` of row `r` of the vertex table. -/
def vid (r c : Nat) : Nat := triNum r + c

/-- The point of the vertex table in column `c` of row `r` at level `L`. -/
def vtx (L r c : Nat) : vec2 :=
  vec2.mk ((c : ℚ) / 2 ^ L) (1 - (r : ℚ) / 2 ^ L)

/-- A triangle of the index table, named by the row and the column at which it is
pushed and by the side of the column's vertical edge it lies on: at column 0 only
the right one is pushed, at a later column the left one and then the right one. -/
structure Cell where
  r : Nat
  c : Nat
  right : Bool
  deriving DecidableEq, Repr

/-- The index triple of a cell: both triangles of a column hold the vertical edge
from `(r, c)` to `(r + 1, c)`; the third vertex lies in the next column (right) or
the previous one (left), in row `r + 1` or `r` according to the parity of `r + c`. -/
def cellTriangle (d : Cell) : uvec3 :=
  if d.right then
    if (d.r + d.c) % 2 = 0 then uvec3.mk (vid d.r d.c) (vid (d.r + 1) d.c) (vid (d.r + 1) (d.c + 1))
    else uvec3.mk (vid d.r d.c) (vid (d.r + 1) d.c) (vid d.r (d.c + 1))
  else
    if (d.r + d.c) % 2 = 0 then uvec3.mk (vid d.r d.c) (vid (d.r + 1) (d.c - 1)) (vid (d.r + 1) d.c)
    else uvec3.mk (vid d.r d.c) (vid d.r (d.c - 1)) (vid (d.r + 1) d.c)

/-- The cells pushed at column `c` of row `r`. -/
def colCells (r c : Nat) : List Cell :=
  if c = 0 then [Cell.mk r 0 true] else [Cell.mk r c false, Cell.mk r c true]

/-- The cells of the first `n` rows, in the order they are pushed. -/
def allCells (n : Nat) : List Cell :=
  (List.range n).flatMap (fun r => (List.range (r + 1)).flatMap (colCells r))

/-- Three points form a right triangle with the right angle at `a`, a vertical leg
`a b` and a horizontal leg `a c`, both of length `len`. -/
def legsAt (len : ℚ) (a b c : vec2) : Prop :=
  a.x = b.x ∧ |a.y - b.y| = len ∧ a.y = c.y ∧ |a.x - c.x| = len

/-- The triangle `p0 p1 p2` is a right triangle whose two legs are parallel to the
axes and have length `len`. -/
def isAxisRightTriangle (len : ℚ) (p0 p1 p2 : vec2) : Prop :=
  legsAt len p0 p1 p2 ∨ legsAt len p0 p2 p1 ∨ legsAt len p1 p0 p2 ∨
  legsAt len p1 p2 p0 ∨ legsAt len p2 p0 p1 ∨ legsAt len p2 p1 p0

/-- Area of the triangle `p0 p1 p2`. -/
def triangleArea (p0 p1 p2 : vec2) : ℚ :=
  |(p1.x - p0.x) * (p2.y - p0.y) - (p2.x - p0.x) * (p1.y - p0.y)| / 2

/-- Area of an index triple read against a vertex list; 0 when an index is out of range. -/
def areaOf (vs : List vec2) (t : uvec3) : ℚ :=
  match vs[t.x]?, vs[t.y]?, vs[t.z]? with
  | some p0, some p1, some p2 => triangleArea p0 p1 p2
  | _, _, _ => 0

/-! ## Edges of the leaf mesh -/

/-- Both `a` and `b` are vertex indices of the triangle `t`. -/
def hasEdge (a b : Nat) (t : uvec3) : Bool :=
  (a == t.x || a == t.y || a == t.z) && (b == t.x || b == t.y || b == t.z)

/-- Number of triangles of `tris` that hold the edge between vertices `a` and `b`. -/
def edgeCount (tris : List uvec3) (a b : Nat) : Nat :=
  tris.countP (hasEdge a b)

/-- The edge between vertices `a` and `b` lies on the boundary of the unit right
triangle with corners (0,1), (0,0), (1,0): both end points lie on the side `x = 0`,
or both on the side `y = 0`, or both on the hypotenuse `x + y = 1`. -/
def onBoundary (vs : List vec2) (a b : Nat) : Prop :=
  ∃ p q, vs[a]? = some p ∧ vs[b]? = some q ∧
    ((p.x = 0 ∧ q.x = 0) ∨ (p.y = 0 ∧ q.y = 0) ∨ (p.x + p.y = 1 ∧ q.x + q.y = 1))

/-- The third vertex of a cell, as (row, column): the vertex that is not on the
vertical edge from `(r, c)` to `(r + 1, c)`. -/
def cellThird (d : Cell) : Nat × Nat :=
  if d.right then
    if (d.r + d.c) % 2 = 0 then (d.r + 1, d.c + 1) else (d.r, d.c + 1)
  else
    if (d.r + d.c) % 2 = 0 then (d.r + 1, d.c - 1) else (d.r, d.c - 1)

/-- The grid point `(pr, pc)` is a vertex of the cell `d`. -/
def cellHas (d : Cell) (pr pc : Nat) : Prop :=
  (pr = d.r ∧ pc = d.c) ∨ (pr = d.r + 1 ∧ pc = d.c) ∨ (pr, pc) = cellThird d

/-- The edge between the vertices `a` and `b` is shared as a conforming mesh of the
unit right triangle requires: by exactly one triangle when it lies on the boundary,
by exactly two otherwise. -/
def edgeConforms (vs : List vec2) (tris : List uvec3) (a b : Nat) : Prop :=
  (onBoundary vs a b → edgeCount tris a b = 1) ∧
  (¬ onBoundary vs a b → edgeCount tris a b = 2)

/-! ## Node store initialisation -/

/-- A `glm::uvec4`: one node (depth, flag word, base-primitive index, selector). -/
structure uvec4 where
  x : Nat
  y : Nat
  z : Nat
  w : Nat
  deriving DecidableEq, Repr

/-- The enumerator `TRIANGLES` of `common.h`, which is not among the sources at
hand; its value is the index the `Polygon type` combo of `main.cpp`
(`"Triangle\0Quad\0\0"`) writes into `settings.polygon_type`. -/
def TRIANGLES : Int := 0

/-- The enumerator `QUADS` of `common.h`; see `TRIANGLES`. -/
def QUADS : Int := 1

/-- The assignment `nodes_array[i] = v` on an array allocated with `arr.length`
elements; a write past the allocation has no defined behaviour (`none`). -/
def writeNode (arr : List uvec4) (i : Nat) (v : uvec4) : Option (List uvec4) :=
  if i < arr.length then some (arr.set i v) else none

/-- The conversion `uint(ctr * k)` of an `int` product; the product has no defined
value (`none`) when it overflows `int`. -/
def uintOfProduct (ctr k : Nat) : Option Nat :=
  if ctr * k < 2 ^ 31 then some (u32 (ctr * k)) else none

/-- The number of iterations of `for (int ctr = 0; ctr < (int)init_node_count_;
++ctr)`: the cast turns a count of `2 ^ 31` or more into a negative bound. -/
def loopBound (init_node_count_ : Nat) : Nat :=
  if init_node_count_ < 2 ^ 31 then init_node_count_ else 0

/-- The loop body of the `TRIANGLES` branch. -/
def triangleNode (arr : List uvec4) (ctr : Nat) : Option (List uvec4) :=
  match uintOfProduct ctr 3 with
  | none => none
  | some z => writeNode arr ctr (uvec4.mk 0 1 z 0)

/-- The loop body of the `QUADS` branch. -/
def quadNodes (arr : List uvec4) (ctr : Nat) : Option (List uvec4) :=
  match uintOfProduct ctr 4 with
  | none => none
  | some z =>
    match writeNode arr (2 * ctr + 0) (uvec4.mk 0 1 z 0) with
    | none => none
    | some arr1 => writeNode arr1 (2 * ctr + 1) (uvec4.mk 0 1 z 1)

/-- What `loadNodesBuffers` leaves behind: the two counts, the host array and the
contents of the three device buffers `nodes_bo_[0..2]`. -/
structure NodeBuffers where
  max_node_count_ : Nat
  init_node_count_ : Nat
  nodes_array : List uvec4
  nodes_bo_ : List (List uvec4)
  deriving DecidableEq, Repr

/-- `BinTree::loadNodesBuffers`.  `max_ssbo_size` is the value the device reports
for `GL_MAX_SHADER_STORAGE_BLOCK_SIZE`, `fresh` the content of the newly allocated
array, `init_prev` the value `init_node_count_` had before the call (kept when the
polygon type is neither `TRIANGLES` nor `QUADS`).  `sizeof(uvec4)` is 16.  The
three calls of `glNamedBufferStorage` fill each of the three buffers from
`nodes_array`. -/
def loadNodesBuffers (max_ssbo_size : Nat) (polygon_type : Int)
    (triangle_count quad_count init_prev : Nat) (fresh : Nat → uvec4) : Option NodeBuffers :=
  let max_ssbo_size1 := max_ssbo_size / 8
  let max_node_count_ := max_ssbo_size1 / 16
  let nodes_array := (List.range max_node_count_).map fresh
  let filled : Option (Nat × List uvec4) :=
    if polygon_type = TRIANGLES then
      let init_node_count_ := u32 triangle_count
      ((List.range (loopBound init_node_count_)).foldlM triangleNode nodes_array).map
        (fun arr => (init_node_count_, arr))
    else if polygon_type = QUADS then
      let init_node_count_ := u32 (2 * quad_count)
      ((List.range (loopBound init_node_count_)).foldlM quadNodes nodes_array).map
        (fun arr => (init_node_count_, arr))
    else some (init_prev, nodes_array)
  filled.map (fun p =>
    NodeBuffers.mk max_node_count_ p.1 p.2 [p.2, p.2, p.2])

/-! ## The controller: `Init`, `Reinitialize`, `ReloadShaders` -/

/-- The three GLSL programs of the controller. -/
inductive Program where
  | compute
  | copy
  | render
  deriving DecidableEq, Repr

/-- How a call ends: it returns, or it throws `std::runtime_error(msg)`. -/
inductive Outcome where
  | returned
  | thrown (msg : String)
  deriving DecidableEq, Repr

/-- What a call meets outside the controller: the value the device reports for
`GL_MAX_SHADER_STORAGE_BLOCK_SIZE`, the content of a newly allocated node array,
and the values `loadComputeProgram`, `loadCopyProgram` and `loadRenderProgram`
return (they depend on the shader files and on the GL driver). -/
structure Device where
  max_ssbo_size : Nat
  fresh : Nat → uvec4
  compute_ok : Bool
  copy_ok : Bool
  render_ok : Bool

/-- The members of `BinTree` that `Init`, `Reinitialize` and `ReloadShaders` read
and write: the settings `polygon_type`, `cpu_lod` and `freeze`, the counts of
`mesh_data_`, the role indices, the contents of the three node buffers, the leaf
counts, the workgroup numbers, and two logs: the program loads attempted so far
and the calls `commands_->Init(num_idx, num_workgroup)` the current
`CommandManager` has received. -/
structure Controller where
  polygon_type : Int
  cpu_lod : Nat
  freeze : Bool
  triangle_count : Nat
  quad_count : Nat
  ssbo_idx_ : ssbo_indices
  nodes_bo_ : List (List uvec4)
  leaf_ : LeafCounts
  max_node_count_ : Nat
  init_node_count_ : Nat
  wg_local_size_ : uvec3
  wg_local_count_ : Nat
  wg_init_global_count_ : Nat
  loads : List Program
  commands_ : List (Nat × Nat)

/-- The conversion of a `uint` to `float` (binary32, round to nearest, ties to
even); the result is again a whole number. -/
def floatOfUint (n : Nat) : Nat :=
  if n < 2 ^ 24 then n
  else
    let e := Nat.log2 n - 23
    let q := n / 2 ^ e
    let r := n % 2 ^ e
    let q1 := if 2 * r < 2 ^ e then q else if 2 ^ e < 2 * r then q + 1
              else if q % 2 = 0 then q else q + 1
    q1 * 2 ^ e

/-- The expression `ceil(init_node_count_ / float(wg_local_count_))` assigned to a
`uint`.  `Init` evaluates it with `wg_local_count_` = 512, a power of two, for
which the `float` quotient is exact. -/
def workgroupCount (init_node_count_ wg_local_count_ : Nat) : Nat :=
  u32 ⌈(floatOfUint init_node_count_ : ℚ) / (floatOfUint wg_local_count_ : ℚ)⌉₊

/-- `BinTree::loadPrograms`: `v = true; v &= loadComputeProgram(); v &=
loadCopyProgram(); v &= loadRenderProgram(); return v;`.  The operator `&=`
evaluates its right operand in every case, so the three loads are attempted in
order whatever the earlier ones returned. -/
def loadPrograms (c : Controller) (dev : Device) : Controller × Bool :=
  let v := true
  let c1 := { c with loads := c.loads ++ [Program.compute] }
  let v1 := v && dev.compute_ok
  let c2 := { c1 with loads := c1.loads ++ [Program.copy] }
  let v2 := v1 && dev.copy_ok
  let c3 := { c2 with loads := c2.loads ++ [Program.render] }
  let v3 := v2 && dev.render_ok
  (c3, v3)

/-- The two buffer steps shared by `Init` and `Reinitialize`:
`loadLeafBuffers(settings.cpu_lod); loadLeafVao(); loadNodesBuffers();`.  The result
is `none` when a step has no defined result, `error` when `getLeafIndices` throws. -/
def loadBuffers (c : Controller) (dev : Device) (fuel : Nat) :
    Option (Except String Controller) :=
  match loadLeafBuffers fuel c.cpu_lod with
  | none => none
  | some (.error e) => some (.error e)
  | some (.ok counts) =>
    match loadNodesBuffers dev.max_ssbo_size c.polygon_type c.triangle_count c.quad_count
        c.init_node_count_ dev.fresh with
    | none => none
    | some b =>
      some (.ok { c with leaf_ := counts, nodes_bo_ := b.nodes_bo_,
                         max_node_count_ := b.max_node_count_,
                         init_node_count_ := b.init_node_count_ })

/-- `BinTree::Init(m_data, transfo_bo, init_settings)` on the object `c`: stores the
mesh data and the settings, creates a new `CommandManager`, sets the workgroup
size to (512, 1, 1), loads the leaf and node buffers, computes
`wg_init_global_count_`, loads the programs and throws `"shader creation error"`
when `loadPrograms` returns false, and only then calls `commands_->Init`. -/
def Init (c : Controller) (triangle_count quad_count : Nat) (polygon_type : Int)
    (cpu_lod : Nat) (freeze : Bool) (dev : Device) (fuel : Nat) :
    Option (Controller × Outcome) :=
  let c1 : Controller :=
    { c with triangle_count := triangle_count, quad_count := quad_count,
             polygon_type := polygon_type, cpu_lod := cpu_lod, freeze := freeze,
             commands_ := [],
             wg_local_size_ := uvec3.mk 512 1 1,
             wg_local_count_ := u32 (u32 (512 * 1) * 1) }
  match loadBuffers c1 dev fuel with
  | none => none
  | some (.error e) => some (c1, Outcome.thrown e)
  | some (.ok c2) =>
    let c3 := { c2 with
      wg_init_global_count_ := workgroupCount c2.init_node_count_ c2.wg_local_count_ }
    let r := loadPrograms c3 dev
    if !r.2 then some (r.1, Outcome.thrown "shader creation error")
    else
      some ({ r.1 with
        commands_ := r.1.commands_ ++ [(r.1.leaf_.idx_count, r.1.wg_init_global_count_)] },
        Outcome.returned)

/-- `BinTree::Reinitialize`: `loadLeafBuffers(settings.cpu_lod); loadLeafVao();
loadNodesBuffers(); loadPrograms(); commands_->Init(leaf_.idx.count,
wg_init_global_count_);`.  The value of `loadPrograms()` is not used and
`wg_init_global_count_` is not assigned. -/
def Reinitialize (c : Controller) (dev : Device) (fuel : Nat) :
    Option (Controller × Outcome) :=
  match loadBuffers c dev fuel with
  | none => none
  | some (.error e) => some (c, Outcome.thrown e)
  | some (.ok c2) =>
    let r := loadPrograms c2 dev
    some ({ r.1 with
      commands_ := r.1.commands_ ++ [(r.1.leaf_.idx_count, r.1.wg_init_global_count_)] },
      Outcome.returned)

/-- `BinTree::ReloadShaders`: `bool v = loadPrograms();`; `v` is not used. -/
def ReloadShaders (c : Controller) (dev : Device) : Controller × Outcome :=
  let r := loadPrograms c dev
  (r.1, Outcome.returned)

/-- A `BinTree` object as its constructor leaves it, as far as the members above
have initialisers: `ssbo_idx_` is (0, 1, 2); the other members are given the
value 0 or empty here and are assigned by `Init` before they are read. -/
def Controller.constructed : Controller :=
  { polygon_type := 0, cpu_lod := 0, freeze := false, triangle_count := 0, quad_count := 0,
    ssbo_idx_ := ssbo_indices.initial, nodes_bo_ := [], leaf_ := LeafCounts.mk 0 0,
    max_node_count_ := 0, init_node_count_ := 0, wg_local_size_ := uvec3.mk 0 0 0,
    wg_local_count_ := 0, wg_init_global_count_ := 0, loads := [], commands_ := [] }

/-- The number of nodes `loadNodesBuffers` is to set up: one per triangle, two per
quad. -/
def initialCount (polygon_type : Int) (triangle_count quad_count : Nat) : Nat :=
  if polygon_type = TRIANGLES then triangle_count else 2 * quad_count

/-- Entry `i` of the initial node population: for triangles the node of triangle
`i`; for quads the half `i % 2` of quad `i / 2`. -/
def initialNode (polygon_type : Int) (i : Nat) : uvec4 :=
  if polygon_type = TRIANGLES then uvec4.mk 0 1 (3 * i) 0
  else uvec4.mk 0 1 (4 * (i / 2)) (i % 2)

/-- The highest entry the initialisation loop writes stays inside the node array
of `max_ssbo_size / 8 / 16` entries: entry `t - 1` for `t` triangles, entry
`4 * q - 1` for `q` quads. -/
def writesFit (max_ssbo_size : Nat) (polygon_type : Int) (triangle_count quad_count : Nat) :
    Prop :=
  if polygon_type = TRIANGLES then triangle_count ≤ max_ssbo_size / 8 / 16
  else 4 * quad_count ≤ max_ssbo_size / 8 / 16

/-- The write `settings.polygon_type = polygon_type` made by the `Polygon type`
combo before it calls `Reinitialize`. -/
def Controller.setPolygonType (c : Controller) (polygon_type : Int) : Controller :=
  { c with polygon_type := polygon_type }

/-- A device that reports a block size of 2^27 bytes and hands out zeroed memory;
the three arguments are the values the three program loads return. -/
def Device.typical (compute_ok copy_ok render_ok : Bool) : Device :=
  { max_ssbo_size := 134217728, fresh := fun _ => uvec4.mk 0 0 0 0,
    compute_ok := compute_ok, copy_ok := copy_ok, render_ok := render_ok }

/-! ## Settings and their upload -/

/-- A `float` that is stored and passed on but never computed with, given by
its 32-bit pattern. -/
structure FloatBits where
  bits : Nat
  deriving DecidableEq, Repr

/-- `BinTree::Settings`. -/
structure Settings where
  uniform_on : Bool
  uniform_lvl : Int
  lod_factor : FloatBits
  target_length : FloatBits
  map_nodecount : Bool
  rotateMesh : Bool
  displace_on : Bool
  displace_factor : FloatBits
  color_mode : Int
  MVP_on : Bool
  flat_normal : Bool
  wireframe_on : Bool
  polygon_type : Int
  freeze : Bool
  cpu_lod : Int
  cull_on : Bool
  itpl_type : Int
  itpl_alpha : FloatBits
  deriving DecidableEq, Repr

/-- The value of a uniform variable. -/
inductive UniformValue where
  | bool (b : Bool)
  | int (i : Int)
  | float (f : FloatBits)
  deriving DecidableEq, Repr

/-- The uniform state of the programs: for a program name (a `GLuint`) and a
uniform name, the value last set, if any. -/
abbrev Uniforms := Nat → String → Option UniformValue

/-- Modelled from the spec: the helper `utility::SetUniformBool(pid, name, value)`
is declared in `common.h`, which is not under `src/`.  The spec calls the upload
a uniform-only update of the programs, so the helper is taken to store the value
under `name` in program `pid` and to leave every other uniform alone. -/
def SetUniformBool (u : Uniforms) (pid : Nat) (name : String) (value : Bool) : Uniforms :=
  fun p n => if p = pid ∧ n = name then some (UniformValue.bool value) else u p n

/-- Modelled from the spec: the helper `utility::SetUniformInt(pid, name, value)`
of `common.h`; see `SetUniformBool`. -/
def SetUniformInt (u : Uniforms) (pid : Nat) (name : String) (value : Int) : Uniforms :=
  fun p n => if p = pid ∧ n = name then some (UniformValue.int value) else u p n

/-- Modelled from the spec: the helper `utility::SetUniformFloat(pid, name, value)`
of `common.h`; see `SetUniformBool`. -/
def SetUniformFloat (u : Uniforms) (pid : Nat) (name : String) (value : FloatBits) : Uniforms :=
  fun p n => if p = pid ∧ n = name then some (UniformValue.float value) else u p n

/-- `Settings::Upload(pid)`: nine uniforms of program `pid` are set from the fields.
Returns the settings object after the call and the new uniform state. -/
def Settings.Upload (s : Settings) (pid : Nat) (u : Uniforms) : Settings × Uniforms :=
  let u1 := SetUniformBool u pid "u_uniform_subdiv" s.uniform_on
  let u2 := SetUniformInt u1 pid "u_uniform_level" s.uniform_lvl
  let u3 := SetUniformFloat u2 pid "u_lod_factor" s.lod_factor
  let u4 := SetUniformFloat u3 pid "u_target_edge_length" s.target_length
  let u5 := SetUniformFloat u4 pid "u_displace_factor" s.displace_factor
  let u6 := SetUniformInt u5 pid "u_color_mode" s.color_mode
  let u7 := SetUniformBool u6 pid "u_render_MVP" s.MVP_on
  let u8 := SetUniformInt u7 pid "u_cpu_lod" s.cpu_lod
  let u9 := SetUniformFloat u8 pid "u_itpl_alpha" s.itpl_alpha
  (s, u9)

/-- `BinTree::UploadSettings`: `settings.Upload(compute_program_);
settings.Upload(render_program_);`. -/
def UploadSettings (settings : Settings) (compute_program_ render_program_ : Nat)
    (u : Uniforms) : Settings × Uniforms :=
  let r1 := settings.Upload compute_program_ u
  r1.1.Upload render_program_ r1.2

/-! ## The call sites of `main.cpp` -/

/-- The members of `CameraManager` that `main.cpp` reads when it calls the
controller. -/
structure CameraManager where
  render_width : Int
  render_height : Int
  fov : FloatBits
  deriving DecidableEq, Repr

/-- The members of `OpenGLApp` that matter for the calls made to the controller. -/
structure OpenGLApp where
  gui_width : Int
  gui_height : Int
  mode : Nat
  auto_lod : Bool
  cam : CameraManager
  deriving DecidableEq, Repr

/-- A call made by `main.cpp` on `app.mesh.quadtree`. -/
inductive QuadtreeCall where
  | UpdateLightPos
  | UpdateMode (mode : Nat)
  | UpdateScreenRes (s : Int)
  | UpdateLodFactor (res : Int) (fov : FloatBits)
  | UploadSettings
  | Reinitialize
  | ReloadShaders
  | ReloadRenderProgram
  | ReloadComputeProgram
  | ReconfigureShaders
  deriving DecidableEq, Repr

/-- The widget of `RenderImgui` that reports a change in the current frame. -/
inductive GuiEvent where
  | mode
  | renderProjection
  | fov
  | reinitCamera
  | wireframe
  | flatNormals
  | colorMode
  | lightPos
  | displacement
  | heightFactor
  | rotateMesh
  | uniform
  | uniformLevel
  | edgeLength
  | readbackNodeCount
  | polygonType
  | cpuLod
  | cull
  | freeze
  | reinitialize
  | interpolationType
  | alpha
  deriving DecidableEq, Repr

/-- `updateRenderParams()`. -/
def Main.updateRenderParams (app : OpenGLApp) : List QuadtreeCall :=
  [QuadtreeCall.UpdateLightPos, QuadtreeCall.UpdateMode app.mode,
   QuadtreeCall.UpdateScreenRes (max app.cam.render_height app.cam.render_width)]

/-- `resizeCallback(window, new_width, new_height)`.  Returns the application state
and the calls made on the controller, in order. -/
def Main.resizeCallback (app : OpenGLApp) (new_width new_height : Int) :
    OpenGLApp × List QuadtreeCall :=
  let app1 : OpenGLApp :=
    { app with cam := { app.cam with render_width := new_width - app.gui_width,
                                     render_height := new_height },
               gui_height := new_height }
  (app1,
   [QuadtreeCall.UpdateScreenRes (max app1.cam.render_height app1.cam.render_width),
    QuadtreeCall.UpdateLodFactor app1.cam.render_width app1.cam.fov,
    QuadtreeCall.UploadSettings])

/-- `Init()` of `main.cpp`.  `cam1` is the camera as `app.cam.Init(app.mode)`
leaves it, `mode` the mode chosen from the file path. -/
def Main.Init (app : OpenGLApp) (mode : Nat) (cam1 : CameraManager) :
    OpenGLApp × List QuadtreeCall :=
  let app1 : OpenGLApp := { app with auto_lod := false, mode := mode, cam := cam1 }
  (app1,
   Main.updateRenderParams app1 ++
     [QuadtreeCall.UpdateLodFactor app1.cam.render_width app1.cam.fov,
      QuadtreeCall.UploadSettings])

/-- The widgets of `RenderImgui()` that call the controller, for the widget `ev`
that reports a change.  `cam1` is the camera as the widget leaves it (the FOV
slider writes `app.cam.fov`, the mode combo and the camera button call
`app.cam.Init`); the other widgets do not touch the camera. -/
def Main.RenderImgui (app : OpenGLApp) (ev : GuiEvent) (cam1 : CameraManager) :
    OpenGLApp × List QuadtreeCall :=
  match ev with
  | GuiEvent.mode =>
    let app1 := { app with cam := cam1 }
    (app1, Main.updateRenderParams app1 ++
      [QuadtreeCall.UpdateLodFactor app1.cam.render_width app1.cam.fov,
       QuadtreeCall.UploadSettings])
  | GuiEvent.renderProjection => (app, [QuadtreeCall.UploadSettings])
  | GuiEvent.fov =>
    let app1 := { app with cam := cam1 }
    (app1, [QuadtreeCall.UpdateLodFactor app1.cam.render_width app1.cam.fov,
            QuadtreeCall.UploadSettings])
  | GuiEvent.reinitCamera =>
    let app1 := { app with cam := cam1 }
    (app1, [QuadtreeCall.UpdateLodFactor app1.cam.render_width app1.cam.fov,
            QuadtreeCall.UploadSettings])
  | GuiEvent.wireframe =>
    (app, QuadtreeCall.ReloadRenderProgram :: Main.updateRenderParams app)
  | GuiEvent.flatNormals =>
    (app, QuadtreeCall.ReloadRenderProgram :: Main.updateRenderParams app)
  | GuiEvent.colorMode => (app, [QuadtreeCall.UploadSettings])
  | GuiEvent.lightPos => (app, [QuadtreeCall.UpdateLightPos])
  | GuiEvent.displacement =>
    (app, [QuadtreeCall.ReloadShaders, QuadtreeCall.UploadSettings] ++
      Main.updateRenderParams app)
  | GuiEvent.heightFactor => (app, [QuadtreeCall.UploadSettings])
  | GuiEvent.rotateMesh => (app, [QuadtreeCall.UploadSettings])
  | GuiEvent.uniform => (app, [QuadtreeCall.UploadSettings])
  | GuiEvent.uniformLevel => (app, [QuadtreeCall.UploadSettings])
  | GuiEvent.edgeLength =>
    (app, [QuadtreeCall.UpdateLodFactor app.cam.render_width app.cam.fov,
           QuadtreeCall.UploadSettings])
  | GuiEvent.readbackNodeCount => (app, [QuadtreeCall.UploadSettings])
  | GuiEvent.polygonType =>
    (app, QuadtreeCall.Reinitialize :: Main.updateRenderParams app)
  | GuiEvent.cpuLod =>
    (app, [ QuadtreeCall.Reinitialize,
           QuadtreeCall.UpdateLodFactor app.cam.render_width app.cam.fov,
           QuadtreeCall.UploadSettings] ++ Main.updateRenderParams app)
  | GuiEvent.cull =>
    (app, [QuadtreeCall.ReloadComputeProgram, QuadtreeCall.UploadSettings] ++
      Main.updateRenderParams app)
  | GuiEvent.freeze => (app, [QuadtreeCall.ReconfigureShaders])
  | GuiEvent.reinitialize =>
    (app, QuadtreeCall.Reinitialize :: Main.updateRenderParams app)
  | GuiEvent.interpolationType =>
    (app, QuadtreeCall.ReloadRenderProgram :: Main.updateRenderParams app)
  | GuiEvent.alpha => (app, [QuadtreeCall.UploadSettings])

/-- The automatic LOD block at the end of `Draw()` of `main.cpp`: with
`app.auto_lod` set and `settings.uniform_on` clear, the target length is scaled
and the LOD factor recomputed when the frame time is below `1 / upperFPS`
(`fast`) or else above `1 / lowerFPS` (`slow`). -/
def Main.Draw (app : OpenGLApp) (uniform_on fast slow : Bool) :
    OpenGLApp × List QuadtreeCall :=
  if app.auto_lod && !uniform_on then
    if fast then
      (app, [QuadtreeCall.UpdateLodFactor app.cam.render_width app.cam.fov,
             QuadtreeCall.UploadSettings])
    else if slow then
      (app, [QuadtreeCall.UpdateLodFactor app.cam.render_width app.cam.fov,
             QuadtreeCall.UploadSettings])
    else (app, [])
  else (app, [])

/-- The resolution arguments of the `UpdateLodFactor` calls of a call list. -/
def lodResolutions : List QuadtreeCall → List Int
  | [] => []
  | QuadtreeCall.UpdateLodFactor res _ :: cs => res :: lodResolutions cs
  | _ :: cs => lodResolutions cs

/-! ## The calls of `new_triangle`, on machine integers -/

/-- The triangle `new_triangle` returns for an orientation below 4; every sum and
difference is taken on `uint`, as in `new_triangle`. -/
def uintTriangleAt (elem num_col orientation : Nat) : uvec3 :=
  if orientation = 0 then
    uvec3.mk elem (u32 (elem + num_col)) (u32 (u32 (elem + num_col) + 1))
  else if orientation = 1 then
    uvec3.mk elem (u32 (elem + 2 ^ 32 - 1)) (u32 (elem + num_col))
  else if orientation = 2 then
    uvec3.mk elem (u32 (elem + num_col)) (u32 (elem + 1))
  else
    uvec3.mk elem (u32 (u32 (elem + num_col) + 2 ^ 32 - 1)) (u32 (elem + num_col))

/-- One call of `new_triangle`: the column at which it is made and the values of
the captured variables `elem`, `num_col` and `orientation`. -/
structure Emission where
  col : Nat
  elem : Nat
  num_col : Nat
  orientation : Nat
  deriving DecidableEq, Repr

/-- The triangle pushed by a call of `new_triangle`. -/
def Emission.triangle (e : Emission) : uvec3 :=
  uintTriangleAt e.elem e.num_col e.orientation

/-- The calls made at column `c` of row `r`: `elem` is the count `triNum r + c` of
the `elem++` so far, held in a `uint`; one call at column 0, two at a later column. -/
def columnEmissions (r c : Nat) : List Emission :=
  if c = 0 then [Emission.mk c (u32 (triNum r + c)) (r + 1) (orientationAt r c)]
  else [Emission.mk c (u32 (triNum r + c)) (r + 1) (orientationAt r c),
        Emission.mk c (u32 (triNum r + c)) (r + 1) ((orientationAt r c + 1) % 4)]

/-- The calls made during row `r`. -/
def rowEmissions (r : Nat) : List Emission :=
  (List.range (r + 1)).flatMap (columnEmissions r)

/-- The calls made during the first `num_row` rows, in order. -/
def emissions (num_row : Nat) : List Emission :=
  (List.range num_row).flatMap rowEmissions

/-! ## `getLeafIndices` with the capacity of `std::vector` -/

/-- `std::vector<uvec3>::max_size()`, an implementation-defined value: a `uvec3`
takes 12 bytes and no object is larger than `PTRDIFF_MAX` bytes; the value is
taken for a 64-bit platform, `(2^63 - 1) / 12`.  Running out of memory before
that (`std::bad_alloc`) depends on the machine and is not modelled. -/
def vector_max_size : Nat := (2 ^ 63 - 1) / 12

/-- The statement pair `indices.push_back(new_triangle()); orientation =
(orientation + 1) % 4;` with the exception of `push_back`: on a vector that
already holds `max_size()` elements it throws `std::length_error`, whose message
text is the library's and is written `length_error` here. -/
def Bounded.pushTriangle (s : IndexState) : Except String IndexState :=
  match new_triangle s.elem s.num_col s.orientation with
  | .error e => .error e
  | .ok t =>
    if s.indices.length < vector_max_size then
      .ok { s with indices := s.indices ++ [t], orientation := u32 (s.orientation + 1) % 4 }
    else .error "length_error"

/-- The body of the inner loop of `getLeafIndices`, as `colBody`, over
`Bounded.pushTriangle`. -/
def Bounded.colBody (s : IndexState) : Except String IndexState :=
  match Bounded.pushTriangle s with
  | .error e => .error e
  | .ok s1 =>
    match (if s1.col > 0 then Bounded.pushTriangle s1 else .ok s1) with
    | .error e => .error e
    | .ok s2 => .ok { s2 with col := u32 (s2.col + 1), elem := u32 (s2.elem + 1) }

/-- The inner loop of `getLeafIndices`, as `colLoop`, over `Bounded.colBody`. -/
def Bounded.colLoop : Nat → IndexState → Option (Except String IndexState)
  | 0, _ => none
  | fuel + 1, s =>
    if s.col < s.num_col then
      match Bounded.colBody s with
      | .error e => some (.error e)
      | .ok s1 => Bounded.colLoop fuel s1
    else some (.ok s)

/-- The outer loop of `getLeafIndices`, as `rowLoop`, over `Bounded.colLoop`. -/
def Bounded.rowLoop (num_row : Nat) : Nat → IndexState → Option (Except String IndexState)
  | 0, _ => none
  | fuel + 1, s =>
    if s.row < num_row then
      match Bounded.colLoop fuel { s with orientation := if s.row % 2 = 0 then 0 else 2 } with
      | none => none
      | some (.error e) => some (.error e)
      | some (.ok s1) =>
        Bounded.rowLoop num_row fuel
          { s1 with col := 0, num_col := u32 (s1.num_col + 1), row := u32 (s1.row + 1) }
    else some (.ok s)

/-- `BinTree::getLeafIndices` as `getLeafIndices`, with the capacity of the vector
`indices` taken into account: the result is `error` when `new_triangle` or
`push_back` throws. -/
def Bounded.getLeafIndices (fuel level : Nat) : Option (Except String (List uvec3)) :=
  match shl1 level with
  | none => none
  | some n =>
    match Bounded.rowLoop (intToUint n) fuel (IndexState.mk [] 0 0 0 1 0) with
    | none => none
    | some (.error e) => some (.error e)
    | some (.ok s) => some (.ok s.indices)

/-! ## Properties of the rotation -/

theorem tmod_three (n k : Nat) : Int.tmod (((n % 3 : Nat) : Int) + (k : Int)) 3 =
    (((n + k) % 3 : Nat) : Int) := by
  rw [Int.tmod_eq_emod (by positivity) (by norm_num)]
  omega

theorem pingpong_iterate (n : Nat) : pingpong^[n] ssbo_indices.initial =
    { read := ((n % 3 : Nat) : Int), write_full := (((n + 1) % 3 : Nat) : Int),
      write_culled := (((n + 2) % 3 : Nat) : Int) } := by
  induction n with
  | zero => rfl
  | succ n ih =>
    rw [Function.iterate_succ_apply', ih]
    simp only [pingpong]
    have h1 := tmod_three (n + 1) 1
    have h2 := tmod_three (n + 1) 2
    simp only [Nat.cast_one, Nat.cast_ofNat] at h1 h2
    rw [h1, h2]

theorem pingpong_iterate_next (m : Nat) : pingpong (pingpong^[m] ssbo_indices.initial) =
    { read := (((m + 1) % 3 : Nat) : Int), write_full := (((m + 2) % 3 : Nat) : Int),
      write_culled := ((m % 3 : Nat) : Int) } := by
  rw [← Function.iterate_succ_apply' pingpong m, pingpong_iterate]
  have e : (m + 1 + 2) % 3 = m % 3 := by omega
  rw [e]

/-- C1: from the initial assignment (0, 1, 2), after any number of `pingpong()`
calls the three role indices are pairwise distinct and each lies in {0, 1, 2};
and a non-frozen `Draw` from such a state runs a compute pass whose read slot is
neither of its two write slots nor the slot the render pass reads. -/
theorem pingpong_roles_distinct (n : Nat) :
    ((rolesAfter n).read ≠ (rolesAfter n).write_full ∧
      (rolesAfter n).read ≠ (rolesAfter n).write_culled ∧
      (rolesAfter n).write_full ≠ (rolesAfter n).write_culled) ∧
    ((rolesAfter n).read ∈ ({0, 1, 2} : Set Int) ∧
      (rolesAfter n).write_full ∈ ({0, 1, 2} : Set Int) ∧
      (rolesAfter n).write_culled ∈ ({0, 1, 2} : Set Int)) ∧
    (∃ r wf wc rr, (Draw (State.mk false (rolesAfter n))).2 =
        [Pass.compute r wf wc, Pass.copy, Pass.render rr] ∧
        r ≠ wf ∧ r ≠ wc ∧ r ≠ rr) := by
  have hs : rolesAfter n = pingpong^[n] ssbo_indices.initial := rfl
  have hs1 := pingpong_iterate_next n
  rw [← hs] at hs1
  rw [pingpong_iterate] at hs
  refine ⟨?_, ?_, ?_⟩
  · rw [hs]; simp only [ne_eq, Nat.cast_inj]; omega
  · rw [hs]
    simp only [Set.mem_insert_iff, Set.mem_singleton_iff]
    omega
  · refine ⟨_, _, _, _, rfl, ?_⟩
    simp only [hs1, ne_eq, Nat.cast_inj]
    omega

theorem drawFrames_from (m : Nat) (fz : Bool) (fs : List Bool) (k : Nat)
    (hk : fs[k]? = some false) :
    (drawFrames { freeze := fz, ssbo_idx_ := pingpong^[m] ssbo_indices.initial } fs)[k]? =
      some [Pass.compute (((m + frameIndex fs k + 1) % 3 : Nat) : Int)
              (((m + frameIndex fs k + 2) % 3 : Nat) : Int)
              (((m + frameIndex fs k) % 3 : Nat) : Int),
            Pass.copy,
            Pass.render (((m + frameIndex fs k) % 3 : Nat) : Int)] := by
  induction fs generalizing m fz k with
  | nil => simp at hk
  | cons f fs ih =>
    cases k with
    | zero =>
      simp only [List.getElem?_cons_zero, Option.some.injEq] at hk
      subst hk
      simp only [drawFrames, Draw, Bool.false_eq_true, if_false, List.getElem?_cons_zero,
        frameIndex, List.take_zero, List.count_nil, pingpong_iterate_next, add_zero]
    | succ k =>
      simp only [List.getElem?_cons_succ] at hk
      cases f with
      | true =>
        have h := ih m true k hk
        simp only [drawFrames, Draw, if_true, List.getElem?_cons_succ, frameIndex,
          List.take_succ_cons] at h ⊢
        rw [h]
        simp [List.count_cons]
      | false =>
        have h1 : pingpong (pingpong^[m] ssbo_indices.initial) =
            pingpong^[m + 1] ssbo_indices.initial := by
          rw [Function.iterate_succ_apply']
        have h := ih (m + 1) false k hk
        simp only [drawFrames, Draw, Bool.false_eq_true, if_false, List.getElem?_cons_succ,
          frameIndex, List.take_succ_cons, h1] at h ⊢
        rw [h]
        have e : List.count false (false :: List.take k fs) = List.count false (List.take k fs) + 1 := by
          simp [List.count_cons]
        rw [e]
        have e2 : m + 1 + List.count false (List.take k fs) =
            m + (List.count false (List.take k fs) + 1) := by omega
        rw [e2]

/-- C2 (as stated, refuted): the first non-frozen `Draw` after `Init` is frame 0,
and its compute pass binds slot 1 as the read slot, not slot 0 = 0 mod 3. -/
theorem draw_frame_zero_reads_slot_one :
    frameIndex [false] 0 = 0 ∧
    ((drawFrames (State.afterInit false) [false])[0]?).bind computeRead = some 1 ∧
    ((drawFrames (State.afterInit false) [false])[0]?).bind computeRead ≠
      some (((frameIndex [false] 0 % 3 : Nat) : Int)) := by
  decide

/-- C2 (amended): numbering the non-frozen `Draw` calls after `Init` as frame
i = 0, 1, 2, ..., the compute pass of frame i binds slot (i + 1) mod 3 as its read
slot and the two other slots, (i + 2) mod 3 for all survivors and i mod 3 for the
culled survivors, as its write targets; the render pass reads slot i mod 3. -/
theorem draw_frame_slots (freeze0 : Bool) (fs : List Bool) (k : Nat)
    (hk : fs[k]? = some false) :
    (drawFrames (State.afterInit freeze0) fs)[k]? =
      some [Pass.compute ((((frameIndex fs k) + 1) % 3 : Nat) : Int)
              ((((frameIndex fs k) + 2) % 3 : Nat) : Int)
              (((frameIndex fs k) % 3 : Nat) : Int),
            Pass.copy,
            Pass.render (((frameIndex fs k) % 3 : Nat) : Int)] := by
  have h := drawFrames_from 0 freeze0 fs k hk
  simp only [Function.iterate_zero, id_eq, zero_add] at h
  exact h

theorem draw_frame_slots_witness :
    [false, true, false][2]? = some false ∧
    (drawFrames (State.afterInit false) [false, true, false])[2]? =
      some [Pass.compute ((((frameIndex [false, true, false] 2) + 1) % 3 : Nat) : Int)
              ((((frameIndex [false, true, false] 2) + 2) % 3 : Nat) : Int)
              (((frameIndex [false, true, false] 2) % 3 : Nat) : Int),
            Pass.copy,
            Pass.render (((frameIndex [false, true, false] 2) % 3 : Nat) : Int)] :=
  ⟨by decide, draw_frame_slots false [false, true, false] 2 (by decide)⟩

/-- C3: on a role assignment of the form (r, r+1 mod 3, r+2 mod 3), `pingpong()`
rotates the roles: new read = old write_full, new write_full = old write_culled,
new write_culled = old read; three successive calls restore the assignment. -/
theorem pingpong_rotates (r : Int) (h0 : 0 ≤ r) (h3 : r < 3) :
    pingpong (ssbo_indices.mk r ((r + 1) % 3) ((r + 2) % 3)) =
      ssbo_indices.mk ((r + 1) % 3) ((r + 2) % 3) r ∧
    pingpong (pingpong (pingpong (ssbo_indices.mk r ((r + 1) % 3) ((r + 2) % 3)))) =
      ssbo_indices.mk r ((r + 1) % 3) ((r + 2) % 3) := by
  interval_cases r <;> decide

theorem pingpong_rotates_witness :
    (0 : Int) ≤ 1 ∧ (1 : Int) < 3 ∧
    pingpong (ssbo_indices.mk 1 ((1 + 1) % 3) ((1 + 2) % 3)) =
      ssbo_indices.mk ((1 + 1) % 3) ((1 + 2) % 3) 1 ∧
    pingpong (pingpong (pingpong (ssbo_indices.mk 1 ((1 + 1) % 3) ((1 + 2) % 3)))) =
      ssbo_indices.mk 1 ((1 + 1) % 3) ((1 + 2) % 3) :=
  ⟨by decide, by decide, pingpong_rotates 1 (by decide) (by decide)⟩

/-- C4: a `Draw` call made while `settings.freeze` is true leaves the three role
indices unchanged, runs only the render pass (neither the compute pass nor the
copy pass), and binds for rendering the `write_culled` slot; whenever the state
comes out of a previous `Draw` (frozen or not), that is the slot the previous
`Draw` rendered from. -/
theorem draw_frozen (s : State) (hf : s.freeze = true) :
    (Draw s).1.ssbo_idx_ = s.ssbo_idx_ ∧
    (Draw s).2 = [Pass.render s.ssbo_idx_.write_culled] ∧
    (∀ a b c, Pass.compute a b c ∉ (Draw s).2) ∧
    Pass.copy ∉ (Draw s).2 ∧
    (∀ s0 : State, (Draw s0).1.ssbo_idx_ = s.ssbo_idx_ →
      renderSlot (Draw s).2 = renderSlot (Draw s0).2) := by
  have hd : Draw s = (s, [Pass.render s.ssbo_idx_.write_culled]) := by
    simp [Draw, hf]
  refine ⟨by rw [hd], by rw [hd], ?_, ?_, ?_⟩
  · intro a b c; rw [hd]; simp
  · rw [hd]; simp
  · intro s0 h0
    rw [hd]
    cases hz : s0.freeze with
    | true =>
      have e : Draw s0 = (s0, [Pass.render s0.ssbo_idx_.write_culled]) := by
        simp [Draw, hz]
      rw [e] at h0 ⊢
      simp only at h0
      simp [renderSlot, h0]
    | false =>
      simp only [Draw, hz, Bool.false_eq_true, if_false] at h0 ⊢
      simp [renderSlot, ← h0]

theorem draw_frozen_witness :
    (State.mk true (rolesAfter 1)).freeze = true ∧
    (Draw (State.mk true (rolesAfter 1))).1.ssbo_idx_ = (State.mk true (rolesAfter 1)).ssbo_idx_ ∧
    (Draw (State.mk true (rolesAfter 1))).2 =
      [Pass.render (State.mk true (rolesAfter 1)).ssbo_idx_.write_culled] ∧
    (∀ a b c, Pass.compute a b c ∉ (Draw (State.mk true (rolesAfter 1))).2) ∧
    Pass.copy ∉ (Draw (State.mk true (rolesAfter 1))).2 ∧
    (∀ s0 : State, (Draw s0).1.ssbo_idx_ = (State.mk true (rolesAfter 1)).ssbo_idx_ →
      renderSlot (Draw (State.mk true (rolesAfter 1))).2 = renderSlot (Draw s0).2) :=
  ⟨rfl, draw_frozen (State.mk true (rolesAfter 1)) rfl⟩

/-! ## Properties of the leaf tessellation table -/

theorem triNum_succ (r : Nat) : triNum (r + 1) = triNum r + (r + 1) := by
  unfold triNum
  have h : (r + 1) * (r + 1 + 1) = r * (r + 1) + 2 * (r + 1) := by ring
  rw [h, Nat.add_mul_div_left _ _ (by norm_num : 0 < 2)]

theorem triNum_mono {a b : Nat} (h : a ≤ b) : triNum a ≤ triNum b := by
  induction h with
  | refl => exact le_refl _
  | step _ ih => rw [triNum_succ]; omega

theorem floatSucc_natCast (k : Nat) (h : k < 2 ^ 24) : floatSucc (k : ℚ) = ((k + 1 : Nat) : ℚ) := by
  have h' : (k : ℚ) < 2 ^ 24 := by exact_mod_cast h
  simp [floatSucc, h']

theorem leafVerticesCols_spec (d : ℚ) (r : Nat) (hr : r < 2 ^ 24) :
    ∀ (m c fuel : Nat) (vs : List vec2), c + m = r + 1 → m + 1 ≤ fuel →
      leafVerticesCols d (r : ℚ) fuel (c : ℚ) vs =
        some (((r + 1 : Nat) : ℚ),
          vs ++ (List.range' c m).map (fun (k : Nat) => vec2.mk ((k : ℚ) * d) (1 - (r : ℚ) * d))) := by
  intro m
  induction m with
  | zero =>
    intro c fuel vs hc hf
    obtain ⟨f, rfl⟩ : ∃ f, fuel = f + 1 := ⟨fuel - 1, by omega⟩
    have hc' : ¬ ((c : ℚ) ≤ (r : ℚ)) := by
      have : r < c := by omega
      exact_mod_cast not_le.mpr this
    have e : c = r + 1 := by omega
    simp [leafVerticesCols, hc', e]
  | succ m ih =>
    intro c fuel vs hc hf
    obtain ⟨f, rfl⟩ : ∃ f, fuel = f + 1 := ⟨fuel - 1, by omega⟩
    have hc' : (c : ℚ) ≤ (r : ℚ) := by
      have : c ≤ r := by omega
      exact_mod_cast this
    rw [leafVerticesCols, if_pos hc', floatSucc_natCast c (by omega),
      ih (c + 1) f _ (by omega) (by omega)]
    simp [List.range'_succ]

theorem leafVerticesRows_spec (n : Nat) (hn : n < 2 ^ 23 + 1) (d : ℚ) :
    ∀ (m r fuel : Nat) (vs : List vec2), r + m = n + 1 → 2 * n + 3 ≤ fuel + r →
      leafVerticesRows (n : ℚ) d fuel (r : ℚ) 0 vs =
        some (vs ++ (List.range' r m).flatMap (fun (r : Nat) =>
          (List.range' 0 (r + 1)).map (fun (k : Nat) => vec2.mk ((k : ℚ) * d) (1 - (r : ℚ) * d)))) := by
  intro m
  induction m with
  | zero =>
    intro r fuel vs hr hf
    obtain ⟨f, rfl⟩ : ∃ f, fuel = f + 1 := ⟨fuel - 1, by omega⟩
    have hc' : ¬ ((r : ℚ) ≤ (n : ℚ)) := by
      have : n < r := by omega
      exact_mod_cast not_le.mpr this
    simp [leafVerticesRows, hc']
  | succ m ih =>
    intro r fuel vs hr hf
    obtain ⟨f, rfl⟩ : ∃ f, fuel = f + 1 := ⟨fuel - 1, by omega⟩
    have hc' : (r : ℚ) ≤ (n : ℚ) := by
      have : r ≤ n := by omega
      exact_mod_cast this
    have h0 := leafVerticesCols_spec d r (by omega) (r + 1) 0 f vs (by omega) (by omega)
    simp only [Nat.cast_zero] at h0
    rw [leafVerticesRows, if_pos hc', h0]
    simp only
    rw [floatSucc_natCast r (by omega), ih (r + 1) f _ (by omega) (by omega)]
    simp [List.range'_succ]

theorem rows_length {α : Type} (row : Nat → List α) (h : ∀ r, (row r).length = r + 1) (n : Nat) :
    ((List.range n).flatMap row).length = triNum n := by
  induction n with
  | zero => rfl
  | succ n ih =>
    rw [List.range_succ, List.flatMap_append, List.length_append, ih, triNum_succ]
    simp [h]

theorem rows_getElem? {α : Type} (row : Nat → List α) (h : ∀ r, (row r).length = r + 1)
    (n r c : Nat) (hr : r < n) (hc : c ≤ r) :
    ((List.range n).flatMap row)[triNum r + c]? = (row r)[c]? := by
  induction n with
  | zero => omega
  | succ n ih =>
    rw [List.range_succ, List.flatMap_append]
    by_cases hrn : r < n
    · rw [List.getElem?_append_left, ih hrn]
      rw [rows_length row h]
      have := triNum_mono (show r + 1 ≤ n by omega)
      rw [triNum_succ] at this
      omega
    · have e : r = n := by omega
      subst e
      rw [List.getElem?_append_right (by rw [rows_length row h]; omega), rows_length row h]
      simp

theorem shl1_of_lt {L : Nat} (h : L < 31) : shl1 L = some (2 ^ L) := by
  simp [shl1, h]

theorem getLeafVertices_eq_table (L : Nat) (hL : L ≤ 23) (fuel : Nat)
    (hf : 2 * 2 ^ L + 3 ≤ fuel) : getLeafVertices fuel L = some (leafVertexTable L) := by
  have hn : 2 ^ L < 2 ^ 23 + 1 := by
    have := Nat.pow_le_pow_right (show 0 < 2 by norm_num) hL
    omega
  have h := leafVerticesRows_spec (2 ^ L) hn (1 / ((2 ^ L : Int) : ℚ)) (2 ^ L + 1) 0 fuel []
    (by omega) (by omega)
  simp only [getLeafVertices, shl1_of_lt (show L < 31 by omega)]
  push_cast at h ⊢
  rw [h]
  simp only [leafVertexTable, List.nil_append, List.range_eq_range', Option.some.injEq]
  congr 1
  funext r
  congr 1
  funext c
  simp only [vec2.mk.injEq]
  constructor <;> ring

theorem leafVertexTable_length (L : Nat) :
    (leafVertexTable L).length = (2 ^ L + 1) * (2 ^ L + 2) / 2 := by
  unfold leafVertexTable
  rw [rows_length _ (by intro r; simp)]
  rfl

theorem leafVertexTable_getElem? (L r c : Nat) (hr : r ≤ 2 ^ L) (hc : c ≤ r) :
    (leafVertexTable L)[triNum r + c]? =
      some (vec2.mk ((c : ℚ) / 2 ^ L) (1 - (r : ℚ) / 2 ^ L)) := by
  unfold leafVertexTable
  rw [rows_getElem? _ (by intro r; simp) _ r c (by omega) hc]
  simp [List.getElem?_map, List.getElem?_range, Nat.lt_succ_of_le hc]

theorem floatSucc_natCast_le (k : Nat) (h : k ≤ 2 ^ 24) :
    ∃ k1 : Nat, k1 ≤ 2 ^ 24 ∧ floatSucc (k : ℚ) = (k1 : ℚ) := by
  by_cases hk : k < 2 ^ 24
  · exact ⟨k + 1, by omega, floatSucc_natCast k hk⟩
  · have h' : ¬ ((k : ℚ) < 2 ^ 24) := by
      have : 2 ^ 24 ≤ k := by omega
      exact_mod_cast not_lt.mpr this
    exact ⟨k, h, by simp [floatSucc, h']⟩

theorem leafVerticesRows_stuck (n : Nat) (hn : 2 ^ 24 ≤ n) (d : ℚ) :
    ∀ (fuel r : Nat) (col : ℚ) (vs : List vec2), r ≤ 2 ^ 24 →
      leafVerticesRows (n : ℚ) d fuel (r : ℚ) col vs = none := by
  intro fuel
  induction fuel with
  | zero => intro r col vs _; rfl
  | succ f ih =>
    intro r col vs hr
    have hc : (r : ℚ) ≤ (n : ℚ) := by
      have : r ≤ n := by omega
      exact_mod_cast this
    rw [leafVerticesRows, if_pos hc]
    cases leafVerticesCols d (r : ℚ) f col vs with
    | none => rfl
    | some p =>
      obtain ⟨k1, hk1, e⟩ := floatSucc_natCast_le r hr
      simp only [e]
      exact ih k1 0 p.2 hk1

/-- From level 24 to level 30 the `float` row counter cannot pass `2 ^ 24`, the
condition `row <= num_row` stays true and `getLeafVertices` never returns. -/
theorem getLeafVertices_no_result (L : Nat) (h1 : 24 ≤ L) (h2 : L ≤ 30) (fuel : Nat) :
    getLeafVertices fuel L = none := by
  have hn : 2 ^ 24 ≤ 2 ^ L := Nat.pow_le_pow_right (by norm_num) h1
  have h := leafVerticesRows_stuck (2 ^ L) hn (1 / ((2 ^ L : Int) : ℚ)) fuel 0 0 [] (by norm_num)
  simp only [getLeafVertices, shl1_of_lt (show L < 31 by omega)]
  push_cast at h ⊢
  exact h

/-- C5 (as stated, refuted): at level 31 the `int` shift `1 << level` yields
`INT_MIN`, `num_row` is negative, the row loop is never entered and the function
returns no vertex at all. -/
theorem getLeafVertices_level_31 :
    getLeafVertices 1 31 = some [] ∧
    ¬ ∃ fuel vs, getLeafVertices fuel 31 = some vs ∧
        vs.length = (2 ^ 31 + 1) * (2 ^ 31 + 2) / 2 := by
  have h : ∀ fuel, getLeafVertices fuel 31 = none ∨ getLeafVertices fuel 31 = some [] := by
    intro fuel
    cases fuel with
    | zero => left; rfl
    | succ f =>
      right
      simp only [getLeafVertices, shl1]
      norm_num [leafVerticesRows]
  refine ⟨?_, ?_⟩
  · simp only [getLeafVertices, shl1]
    norm_num [leafVerticesRows]
  · rintro ⟨fuel, vs, h1, h2⟩
    rcases h fuel with h3 | h3
    · rw [h3] at h1; cases h1
    · rw [h3] at h1
      cases h1
      simp at h2

/-- C5 (amended): for every level L with 0 ≤ L ≤ 23, `getLeafVertices(L)` returns
exactly (2^L+1)(2^L+2)/2 vertices, listed row by row for rows r = 0..2^L with row
r holding r+1 vertices: the vertex at position r(r+1)/2 + c (0 ≤ c ≤ r) is the
point (c/2^L, 1 - r/2^L). -/
theorem getLeafVertices_rows (L : Nat) (hL : L ≤ 23) (fuel : Nat)
    (hf : 2 * 2 ^ L + 3 ≤ fuel) :
    ∃ vs, getLeafVertices fuel L = some vs ∧
      vs.length = (2 ^ L + 1) * (2 ^ L + 2) / 2 ∧
      ∀ r c : Nat, r ≤ 2 ^ L → c ≤ r →
        vs[r * (r + 1) / 2 + c]? = some (vec2.mk ((c : ℚ) / 2 ^ L) (1 - (r : ℚ) / 2 ^ L)) :=
  ⟨leafVertexTable L, getLeafVertices_eq_table L hL fuel hf, leafVertexTable_length L,
    fun r c hr hc => leafVertexTable_getElem? L r c hr hc⟩

theorem getLeafVertices_rows_witness :
    (1 : Nat) ≤ 23 ∧ 2 * 2 ^ 1 + 3 ≤ 7 ∧
    ∃ vs, getLeafVertices 7 1 = some vs ∧
      vs.length = (2 ^ 1 + 1) * (2 ^ 1 + 2) / 2 ∧
      ∀ r c : Nat, r ≤ 2 ^ 1 → c ≤ r →
        vs[r * (r + 1) / 2 + c]? = some (vec2.mk ((c : ℚ) / 2 ^ 1) (1 - (r : ℚ) / 2 ^ 1)) :=
  ⟨by decide, by decide, getLeafVertices_rows 1 (by decide) 7 (by decide)⟩

theorem triNum_lt {r : Nat} (h : r < 2 ^ 16) : triNum r < 2 ^ 31 := by
  have h1 := triNum_mono (show r ≤ 65535 by omega)
  have h2 : triNum 65535 = 2147450880 := by decide
  omega

theorem new_triangle_eq (e nc o : Nat) (ho : o < 4) (h1 : o = 1 → 1 ≤ e) (hnc : 1 ≤ nc)
    (hb : e + nc + 1 < 2 ^ 32) : new_triangle e nc o = .ok (triangleAt e nc o) := by
  have e1 : (e + nc) % 4294967296 = e + nc := Nat.mod_eq_of_lt (by omega)
  have e2 : (e + nc + 1) % 4294967296 = e + nc + 1 := Nat.mod_eq_of_lt (by omega)
  have e3 : (e + 1) % 4294967296 = e + 1 := Nat.mod_eq_of_lt (by omega)
  interval_cases o
  · simp [new_triangle, triangleAt, u32, e1, e2]
  · have h := h1 rfl
    have e4 : (e + 4294967295) % 4294967296 = e - 1 := by omega
    simp [new_triangle, triangleAt, u32, e1, e4]
  · simp [new_triangle, triangleAt, u32, e1, e3]
  · have e4 : (e + nc + 4294967295) % 4294967296 = e + nc - 1 := by omega
    simp [new_triangle, triangleAt, u32, e1, e4]

theorem pushTriangle_eq (ind : List uvec3) (col row e nc o : Nat) (ho : o < 4)
    (h1 : o = 1 → 1 ≤ e) (hnc : 1 ≤ nc) (hb : e + nc + 1 < 2 ^ 32) :
    pushTriangle (IndexState.mk ind col row e nc o) =
      .ok (IndexState.mk (ind ++ [triangleAt e nc o]) col row e nc ((o + 1) % 4)) := by
  have e : (o + 1) % 4294967296 = o + 1 := Nat.mod_eq_of_lt (by omega)
  simp [pushTriangle, new_triangle_eq _ _ _ ho h1 hnc hb, u32, e]

theorem startOrientation_cases (r : Nat) : startOrientation r = 0 ∨ startOrientation r = 2 := by
  unfold startOrientation
  split_ifs
  · left; rfl
  · right; rfl

theorem orientationAt_lt (r c : Nat) : orientationAt r c < 4 := by
  unfold orientationAt
  rcases startOrientation_cases r with h | h <;> rw [h] <;> split_ifs <;> omega

theorem orientationAt_succ (r c : Nat) :
    orientationAt r (c + 1) =
      if c = 0 then (orientationAt r c + 1) % 4 else ((orientationAt r c + 1) % 4 + 1) % 4 := by
  unfold orientationAt
  have h1 : c + 1 ≠ 0 := by omega
  rw [if_neg h1]
  by_cases h0 : c = 0
  · subst h0
    rcases startOrientation_cases r with h | h <;> rw [h] <;> rfl
  · rw [if_neg h0, if_neg h0]
    omega

theorem orientationAt_odd (r c : Nat) (hc : 0 < c) :
    orientationAt r c = 1 ∨ orientationAt r c = 3 := by
  unfold orientationAt
  rcases startOrientation_cases r with h | h <;> rw [h] <;> split_ifs <;> omega

theorem orientationAt_zero (r : Nat) : orientationAt r 0 = startOrientation r := by
  simp [orientationAt]

theorem colBody_eq (ind : List uvec3) (row r c : Nat) (hr : r < 2 ^ 16) (hc : c ≤ r) :
    colBody (IndexState.mk ind c row (triNum r + c) (r + 1) (orientationAt r c)) =
      .ok (IndexState.mk (ind ++ columnTriangles r c) (c + 1) row (triNum r + (c + 1)) (r + 1)
        (orientationAt r (c + 1))) := by
  have ht := triNum_lt hr
  have ho := orientationAt_lt r c
  have e1 : (c + 1) % 4294967296 = c + 1 := Nat.mod_eq_of_lt (by omega)
  have e2 : (triNum r + c + 1) % 4294967296 = triNum r + c + 1 := Nat.mod_eq_of_lt (by omega)
  rcases Nat.eq_zero_or_pos c with h0 | h0
  · subst h0
    have hs : orientationAt r 0 = 1 → 1 ≤ triNum r + 0 := by
      intro h
      rcases startOrientation_cases r with h' | h' <;> rw [orientationAt_zero, h'] at h <;> omega
    rw [colBody, pushTriangle_eq _ _ _ _ _ _ ho hs (by omega) (by omega)]
    simp [columnTriangles, orientationAt_succ, u32, e2]
  · have hc0 : c ≠ 0 := by omega
    rw [colBody, pushTriangle_eq _ _ _ _ _ _ ho (by intro _; omega) (by omega) (by omega)]
    simp only [gt_iff_lt, h0, if_true]
    rw [pushTriangle_eq _ _ _ _ _ _ (by omega) (by intro _; omega) (by omega) (by omega)]
    have e3 : (triNum r + (c + 1)) % 4294967296 = triNum r + (c + 1) := Nat.mod_eq_of_lt (by omega)
    simp [columnTriangles, orientationAt_succ, u32, hc0, e1, e3, add_assoc]

theorem colLoop_spec (row r : Nat) (hr : r < 2 ^ 16) :
    ∀ (m c fuel : Nat) (ind : List uvec3), c + m = r + 1 → m + 1 ≤ fuel →
      colLoop fuel (IndexState.mk ind c row (triNum r + c) (r + 1) (orientationAt r c)) =
        some (.ok (IndexState.mk (ind ++ (List.range' c m).flatMap (columnTriangles r))
          (r + 1) row (triNum r + (r + 1)) (r + 1) (orientationAt r (r + 1)))) := by
  intro m
  induction m with
  | zero =>
    intro c fuel ind hc hf
    obtain ⟨f, rfl⟩ : ∃ f, fuel = f + 1 := ⟨fuel - 1, by omega⟩
    have e : c = r + 1 := by omega
    subst e
    simp [colLoop]
  | succ m ih =>
    intro c fuel ind hc hf
    obtain ⟨f, rfl⟩ : ∃ f, fuel = f + 1 := ⟨fuel - 1, by omega⟩
    have hlt : c < r + 1 := by omega
    rw [colLoop]
    simp only [hlt, if_true]
    rw [colBody_eq ind row r c hr (by omega)]
    simp only
    rw [ih (c + 1) f _ (by omega) (by omega)]
    simp [List.range'_succ]

theorem rowLoop_spec (n : Nat) (hn : n ≤ 2 ^ 16) :
    ∀ (m r fuel : Nat) (ind : List uvec3) (o : Nat), r + m = n → 2 * n + 3 ≤ fuel + r →
      ∃ o1, rowLoop n fuel (IndexState.mk ind 0 r (triNum r) (r + 1) o) =
        some (.ok (IndexState.mk (ind ++ (List.range' r m).flatMap rowTriangles)
          0 n (triNum n) (n + 1) o1)) := by
  intro m
  induction m with
  | zero =>
    intro r fuel ind o hr hf
    obtain ⟨f, rfl⟩ : ∃ f, fuel = f + 1 := ⟨fuel - 1, by omega⟩
    have e : r = n := by omega
    subst e
    exact ⟨o, by simp [rowLoop]⟩
  | succ m ih =>
    intro r fuel ind o hr hf
    obtain ⟨f, rfl⟩ : ∃ f, fuel = f + 1 := ⟨fuel - 1, by omega⟩
    have hlt : r < n := by omega
    have h0 := colLoop_spec r r (by omega) (r + 1) 0 f ind (by omega) (by omega)
    rw [orientationAt_zero, Nat.add_zero] at h0
    have e1 : (r + 1 + 1) % 2 ^ 32 = r + 1 + 1 := Nat.mod_eq_of_lt (by omega)
    have e2 : (r + 1) % 2 ^ 32 = r + 1 := Nat.mod_eq_of_lt (by omega)
    obtain ⟨o1, h1⟩ := ih (r + 1) f (ind ++ (List.range' 0 (r + 1)).flatMap (columnTriangles r))
      (orientationAt r (r + 1)) (by omega) (by omega)
    refine ⟨o1, ?_⟩
    rw [rowLoop]
    simp only [hlt, if_true]
    have e3 : (if r % 2 = 0 then 0 else 2) = startOrientation r := rfl
    rw [e3, h0]
    simp only [u32, e1, e2]
    rw [← triNum_succ, h1]
    simp [List.range'_succ, rowTriangles, List.range_eq_range']

theorem intToUint_pow (L : Nat) (h : L < 32) : intToUint ((2 : Int) ^ L) = 2 ^ L := by
  unfold intToUint
  have h1 : (2 : Int) ^ L < 2 ^ 32 := by
    exact_mod_cast Nat.pow_lt_pow_right (show 1 < 2 by norm_num) h
  rw [Int.emod_eq_of_lt (by positivity) h1]
  have : ((2 : Int) ^ L) = ((2 ^ L : Nat) : Int) := by push_cast; rfl
  rw [this, Int.toNat_natCast]

theorem getLeafIndices_eq_table (L : Nat) (hL : L ≤ 16) (fuel : Nat)
    (hf : 2 * 2 ^ L + 3 ≤ fuel) : getLeafIndices fuel L = some (.ok (leafIndexTable L)) := by
  have hn : 2 ^ L ≤ 2 ^ 16 := Nat.pow_le_pow_right (by norm_num) hL
  obtain ⟨o1, h⟩ := rowLoop_spec (2 ^ L) hn (2 ^ L) 0 fuel [] 0 (by omega) (by omega)
  have e : triNum 0 = 0 := rfl
  rw [e] at h
  simp only [getLeafIndices, shl1_of_lt (show L < 31 by omega), intToUint_pow L (by omega)]
  rw [h]
  simp [leafIndexTable, List.range_eq_range']

theorem columnTriangles_length_zero (r : Nat) : (columnTriangles r 0).length = 1 := by
  simp [columnTriangles]

theorem columnTriangles_length_pos (r c : Nat) (hc : 0 < c) :
    (columnTriangles r c).length = 2 := by
  have : c ≠ 0 := by omega
  simp [columnTriangles, this]

theorem columns_length (f : Nat → List uvec3) (h0 : (f 0).length = 1)
    (h : ∀ c, 0 < c → (f c).length = 2) (n : Nat) :
    ((List.range (n + 1)).flatMap f).length = 2 * n + 1 := by
  induction n with
  | zero =>
    have e : List.range (0 + 1) = [0] := rfl
    simp [e, h0]
  | succ n ih =>
    rw [List.range_succ, List.flatMap_append, List.length_append, ih]
    simp [h (n + 1) (by omega)]
    omega

theorem rowTriangles_length (r : Nat) : (rowTriangles r).length = 2 * r + 1 :=
  columns_length _ (columnTriangles_length_zero r) (columnTriangles_length_pos r) r

theorem rows_sq_length (n : Nat) : ((List.range n).flatMap rowTriangles).length = n ^ 2 := by
  induction n with
  | zero => rfl
  | succ n ih =>
    rw [List.range_succ, List.flatMap_append, List.length_append, ih]
    simp [rowTriangles_length]
    ring

theorem leafIndexTable_length (L : Nat) : (leafIndexTable L).length = 4 ^ L := by
  unfold leafIndexTable
  rw [rows_sq_length, ← pow_mul, mul_comm, pow_mul]
  norm_num

/-- C6 (as stated, refuted): at level 16 the diagnostics shift `1 << (2 * 16)` has
a shift count equal to the width of `int`; it has no defined value, so it does not
equal the 4^16 triangles of the leaf. -/
theorem leaf_tri_level_16 :
    leaf_tri 16 = none ∧ leaf_tri 16 ≠ some (4 ^ 16) := by
  decide

/-- C6 (amended): for every level L with 0 ≤ L ≤ 15, `getLeafIndices(L)` emits for
row r (0 ≤ r < 2^L) one triangle for column 0 and two for every later column,
2r+1 in all, hence exactly 4^L triangles in total, so that `leaf_.idx.count`
= 3 * 4^L, matching the per-leaf triangle count `1 << (2 * cpu_lod)`. -/
theorem getLeafIndices_count (L : Nat) (hL : L ≤ 15) (fuel : Nat)
    (hf : 2 * 2 ^ L + 3 ≤ fuel) :
    ∃ tris, getLeafIndices fuel L = some (.ok tris) ∧
      tris = (List.range (2 ^ L)).flatMap (fun r =>
        (List.range (r + 1)).flatMap (columnTriangles r)) ∧
      (∀ r, (columnTriangles r 0).length = 1 ∧
        (∀ c, 0 < c → (columnTriangles r c).length = 2) ∧
        ((List.range (r + 1)).flatMap (columnTriangles r)).length = 2 * r + 1) ∧
      (∀ r, r < 2 ^ L → ∀ ind row, ∃ s,
        colLoop (r + 2) (IndexState.mk ind 0 row (triNum r) (r + 1) (startOrientation r)) =
          some (.ok s) ∧ s.indices.length = ind.length + (2 * r + 1)) ∧
      tris.length = 4 ^ L ∧
      (∃ counts, loadLeafBuffers fuel L = some (.ok counts) ∧ counts.idx_count = 3 * 4 ^ L) ∧
      leaf_tri L = some (4 ^ L) := by
  have hi := getLeafIndices_eq_table L (by omega) fuel hf
  have hv := getLeafVertices_eq_table L (by omega) fuel hf
  refine ⟨leafIndexTable L, hi, rfl, ?_, ?_, leafIndexTable_length L, ?_, ?_⟩
  · intro r
    exact ⟨columnTriangles_length_zero r, columnTriangles_length_pos r, rowTriangles_length r⟩
  · intro r hr ind row
    have hr16 : r < 2 ^ 16 := by
      have := Nat.pow_le_pow_right (show 0 < 2 by norm_num) (show L ≤ 16 by omega)
      omega
    have h := colLoop_spec row r hr16 (r + 1) 0 (r + 2) ind (by omega) (by omega)
    rw [orientationAt_zero, Nat.add_zero] at h
    refine ⟨_, h, ?_⟩
    simp only [List.length_append]
    have e := rowTriangles_length r
    rw [rowTriangles, List.range_eq_range'] at e
    rw [e]
  · refine ⟨LeafCounts.mk (leafVertexTable L).length ((leafIndexTable L).length * 3),
      by simp only [loadLeafBuffers, hv, hi], ?_⟩
    simp only [leafIndexTable_length]
    ring
  · rw [leaf_tri, shl1_of_lt (by omega), pow_mul']
    norm_num

theorem getLeafIndices_count_witness :
    (1 : Nat) ≤ 15 ∧ 2 * 2 ^ 1 + 3 ≤ 7 ∧
    ∃ tris, getLeafIndices 7 1 = some (.ok tris) ∧
      tris = (List.range (2 ^ 1)).flatMap (fun r =>
        (List.range (r + 1)).flatMap (columnTriangles r)) ∧
      (∀ r, (columnTriangles r 0).length = 1 ∧
        (∀ c, 0 < c → (columnTriangles r c).length = 2) ∧
        ((List.range (r + 1)).flatMap (columnTriangles r)).length = 2 * r + 1) ∧
      (∀ r, r < 2 ^ 1 → ∀ ind row, ∃ s,
        colLoop (r + 2) (IndexState.mk ind 0 row (triNum r) (r + 1) (startOrientation r)) =
          some (.ok s) ∧ s.indices.length = ind.length + (2 * r + 1)) ∧
      tris.length = 4 ^ 1 ∧
      (∃ counts, loadLeafBuffers 7 1 = some (.ok counts) ∧ counts.idx_count = 3 * 4 ^ 1) ∧
      leaf_tri 1 = some (4 ^ 1) :=
  ⟨by decide, by decide, getLeafIndices_count 1 (by decide) 7 (by decide)⟩

/-! ## The index table in terms of cells -/

theorem orientationAt_first (r c : Nat) :
    orientationAt r c =
      if c = 0 then (if (r + c) % 2 = 0 then 0 else 2)
      else (if (r + c) % 2 = 0 then 3 else 1) := by
  unfold orientationAt startOrientation
  split_ifs <;> omega

theorem orientationAt_second (r c : Nat) (hc : c ≠ 0) :
    (orientationAt r c + 1) % 4 = if (r + c) % 2 = 0 then 0 else 2 := by
  rw [orientationAt_first, if_neg hc]
  split_ifs <;> rfl

theorem columnTriangles_eq_map (r c : Nat) :
    columnTriangles r c = (colCells r c).map cellTriangle := by
  have hs := triNum_succ r
  by_cases hc : c = 0
  · subst hc
    rcases Nat.mod_two_eq_zero_or_one r with hp | hp
    · simp [columnTriangles, colCells, cellTriangle, orientationAt_first, triangleAt, vid, hp, hs]
    · simp [columnTriangles, colCells, cellTriangle, orientationAt_first, triangleAt, vid, hp, hs]
  · have h1 : triNum r + c - 1 = triNum r + (c - 1) := by omega
    have h2 : triNum r + c + (r + 1) - 1 = triNum r + (r + 1) + (c - 1) := by omega
    have h3 : triNum r + c + (r + 1) = triNum r + (r + 1) + c := by omega
    have h4 : triNum r + c + (r + 1) + 1 = triNum r + (r + 1) + (c + 1) := by omega
    rcases Nat.mod_two_eq_zero_or_one (r + c) with hp | hp
    · simp [columnTriangles, colCells, cellTriangle, orientationAt_second r c hc,
        orientationAt_first, triangleAt, vid, hp, hs, hc, h1, h2, h3, h4]
      omega
    · simp [columnTriangles, colCells, cellTriangle, orientationAt_second r c hc,
        orientationAt_first, triangleAt, vid, hp, hs, hc, h1, h2, h3, h4, add_assoc]

theorem leafIndexTable_eq_map (L : Nat) :
    leafIndexTable L = (allCells (2 ^ L)).map cellTriangle := by
  have e1 : ∀ r, columnTriangles r = fun c => (colCells r c).map cellTriangle :=
    fun r => funext (columnTriangles_eq_map r)
  have e2 : rowTriangles = fun r =>
      (List.range (r + 1)).flatMap (fun c => (colCells r c).map cellTriangle) := by
    funext r
    rw [rowTriangles, e1]
  rw [leafIndexTable, e2]
  simp only [allCells, List.map_flatMap]

theorem mem_colCells (r c : Nat) (d : Cell) :
    d ∈ colCells r c ↔ d.r = r ∧ d.c = c ∧ (c = 0 → d.right = true) := by
  obtain ⟨dr, dc, dright⟩ := d
  by_cases hc : c = 0
  · subst hc
    simp [colCells]
  · cases dright <;> simp [colCells, hc]

theorem mem_allCells (n : Nat) (d : Cell) :
    d ∈ allCells n ↔ d.r < n ∧ d.c ≤ d.r ∧ (d.c = 0 → d.right = true) := by
  simp only [allCells, List.mem_flatMap, List.mem_range, mem_colCells]
  constructor
  · rintro ⟨r, hr, c, hc, h1, h2, h3⟩
    subst h1 h2
    exact ⟨hr, by omega, h3⟩
  · rintro ⟨h1, h2, h3⟩
    exact ⟨d.r, h1, d.c, by omega, rfl, rfl, h3⟩

/-! ## Geometry of the cells -/

theorem leafVertexTable_vid (L r c : Nat) (hr : r ≤ 2 ^ L) (hc : c ≤ r) :
    (leafVertexTable L)[vid r c]? = some (vtx L r c) :=
  leafVertexTable_getElem? L r c hr hc

theorem legsAt_area (len : ℚ) (a b c : vec2) (h : legsAt len a b c) :
    triangleArea a b c = len ^ 2 / 2 := by
  obtain ⟨h1, h2, h3, h4⟩ := h
  unfold triangleArea
  have e : (b.x - a.x) * (c.y - a.y) - (c.x - a.x) * (b.y - a.y) =
      -((a.x - c.x) * (a.y - b.y)) := by
    rw [h1, h3]; ring
  rw [e, abs_neg, abs_mul, h2, h4]
  ring

theorem triangleArea_swap12 (a b c : vec2) : triangleArea a b c = triangleArea a c b := by
  unfold triangleArea
  rw [← abs_neg]
  congr 2
  ring

theorem triangleArea_rot (a b c : vec2) : triangleArea a b c = triangleArea b c a := by
  unfold triangleArea
  congr 2
  ring

theorem isAxisRightTriangle_area (len : ℚ) (p0 p1 p2 : vec2)
    (h : isAxisRightTriangle len p0 p1 p2) : triangleArea p0 p1 p2 = len ^ 2 / 2 := by
  rcases h with h | h | h | h | h | h
  · exact legsAt_area len _ _ _ h
  · rw [triangleArea_swap12]; exact legsAt_area len _ _ _ h
  · rw [triangleArea_rot, triangleArea_swap12]; exact legsAt_area len _ _ _ h
  · rw [triangleArea_rot]; exact legsAt_area len _ _ _ h
  · rw [triangleArea_rot, triangleArea_rot]; exact legsAt_area len _ _ _ h
  · rw [triangleArea_swap12, triangleArea_rot]; exact legsAt_area len _ _ _ h

theorem abs_col_step (a b n : ℚ) (hn : 0 < n) (h : a - b = 1 ∨ b - a = 1) :
    |a / n - b / n| = 1 / n := by
  have e : a / n - b / n = (a - b) / n := by ring
  rw [e, abs_div, abs_of_pos hn]
  rcases h with h | h
  · rw [h, abs_one]
  · have : a - b = -1 := by linarith
    rw [this, abs_neg, abs_one]

theorem abs_row_step (a b n : ℚ) (hn : 0 < n) (h : a - b = 1 ∨ b - a = 1) :
    |(1 - a / n) - (1 - b / n)| = 1 / n := by
  have e : (1 - a / n) - (1 - b / n) = b / n - a / n := by ring
  rw [e]
  exact abs_col_step b a n hn (by tauto)

theorem cell_geometry (L : Nat) (d : Cell) (hd : d ∈ allCells (2 ^ L)) :
    ∃ p0 p1 p2, (leafVertexTable L)[(cellTriangle d).x]? = some p0 ∧
      (leafVertexTable L)[(cellTriangle d).y]? = some p1 ∧
      (leafVertexTable L)[(cellTriangle d).z]? = some p2 ∧
      isAxisRightTriangle (1 / 2 ^ L) p0 p1 p2 := by
  rw [mem_allCells] at hd
  obtain ⟨r, c, right⟩ := d
  obtain ⟨h1, h2, h3⟩ := hd
  simp only at h1 h2 h3
  have hn : (0 : ℚ) < 2 ^ L := by positivity
  cases right with
  | true =>
    rcases Nat.mod_two_eq_zero_or_one (r + c) with hp | hp
    · refine ⟨vtx L r c, vtx L (r + 1) c, vtx L (r + 1) (c + 1), ?_, ?_, ?_, ?_⟩
      · simp only [cellTriangle, hp, if_true]
        exact leafVertexTable_vid L r c (by omega) h2
      · simp only [cellTriangle, hp, if_true]
        exact leafVertexTable_vid L (r + 1) c (by omega) (by omega)
      · simp only [cellTriangle, hp, if_true]
        exact leafVertexTable_vid L (r + 1) (c + 1) (by omega) (by omega)
      · right; right; left
        refine ⟨rfl, ?_, rfl, ?_⟩
        · simp only [vtx]; exact abs_row_step _ _ _ hn (by left; push_cast; ring)
        · simp only [vtx]; exact abs_col_step _ _ _ hn (by right; push_cast; ring)
    · have hne : ¬ ((r + c) % 2 = 0) := by omega
      refine ⟨vtx L r c, vtx L (r + 1) c, vtx L r (c + 1), ?_, ?_, ?_, ?_⟩
      · simp only [cellTriangle, hne, if_true, if_false]
        exact leafVertexTable_vid L r c (by omega) h2
      · simp only [cellTriangle, hne, if_true, if_false]
        exact leafVertexTable_vid L (r + 1) c (by omega) (by omega)
      · simp only [cellTriangle, hne, if_true, if_false]
        exact leafVertexTable_vid L r (c + 1) (by omega) (by omega)
      · left
        refine ⟨rfl, ?_, rfl, ?_⟩
        · simp only [vtx]; exact abs_row_step _ _ _ hn (by right; push_cast; ring)
        · simp only [vtx]; exact abs_col_step _ _ _ hn (by right; push_cast; ring)
  | false =>
    obtain ⟨c', rfl⟩ : ∃ c', c = c' + 1 := ⟨c - 1, by
      have : c ≠ 0 := fun h => by simpa using h3 h
      omega⟩
    rcases Nat.mod_two_eq_zero_or_one (r + (c' + 1)) with hp | hp
    · refine ⟨vtx L r (c' + 1), vtx L (r + 1) c', vtx L (r + 1) (c' + 1), ?_, ?_, ?_, ?_⟩
      · simp only [cellTriangle, hp, if_true, Bool.false_eq_true, if_false]
        exact leafVertexTable_vid L r (c' + 1) (by omega) h2
      · simp only [cellTriangle, hp, if_true, Bool.false_eq_true, if_false, Nat.add_sub_cancel]
        exact leafVertexTable_vid L (r + 1) c' (by omega) (by omega)
      · simp only [cellTriangle, hp, if_true, Bool.false_eq_true, if_false]
        exact leafVertexTable_vid L (r + 1) (c' + 1) (by omega) (by omega)
      · right; right; right; right; left
        refine ⟨rfl, ?_, rfl, ?_⟩
        · simp only [vtx]; exact abs_row_step _ _ _ hn (by left; push_cast; ring)
        · simp only [vtx]; exact abs_col_step _ _ _ hn (by left; push_cast; ring)
    · have hne : ¬ ((r + (c' + 1)) % 2 = 0) := by omega
      refine ⟨vtx L r (c' + 1), vtx L r c', vtx L (r + 1) (c' + 1), ?_, ?_, ?_, ?_⟩
      · simp only [cellTriangle, hne, if_true, Bool.false_eq_true, if_false]
        exact leafVertexTable_vid L r (c' + 1) (by omega) h2
      · simp only [cellTriangle, hne, if_true, Bool.false_eq_true, if_false, Nat.add_sub_cancel]
        exact leafVertexTable_vid L r c' (by omega) (by omega)
      · simp only [cellTriangle, hne, if_true, Bool.false_eq_true, if_false]
        exact leafVertexTable_vid L (r + 1) (c' + 1) (by omega) (by omega)
      · right; left
        refine ⟨rfl, ?_, rfl, ?_⟩
        · simp only [vtx]; exact abs_row_step _ _ _ hn (by right; push_cast; ring)
        · simp only [vtx]; exact abs_col_step _ _ _ hn (by left; push_cast; ring)

theorem leaf_len_sq (L : Nat) : ((1 : ℚ) / 2 ^ L) ^ 2 / 2 = 1 / (2 * 4 ^ L) := by
  have e : (4 : ℚ) ^ L = (2 ^ L) ^ 2 := by
    rw [← pow_mul, mul_comm, pow_mul]; norm_num
  rw [e]
  field_simp
  ring

theorem sum_map_const (l : List uvec3) (f : uvec3 → ℚ) (k : ℚ) (h : ∀ t ∈ l, f t = k) :
    (l.map f).sum = l.length * k := by
  induction l with
  | nil => simp
  | cons a l ih =>
    rw [List.map_cons, List.sum_cons, h a (List.mem_cons_self a l),
      ih (fun t ht => h t (List.mem_cons_of_mem a ht))]
    simp only [List.length_cons]
    push_cast
    ring

theorem leaf_triangle_geometry (L : Nat) (t : uvec3) (ht : t ∈ leafIndexTable L) :
    ∃ p0 p1 p2, (leafVertexTable L)[t.x]? = some p0 ∧ (leafVertexTable L)[t.y]? = some p1 ∧
      (leafVertexTable L)[t.z]? = some p2 ∧ isAxisRightTriangle (1 / 2 ^ L) p0 p1 p2 ∧
      triangleArea p0 p1 p2 = 1 / (2 * 4 ^ L) := by
  rw [leafIndexTable_eq_map, List.mem_map] at ht
  obtain ⟨d, hd, rfl⟩ := ht
  obtain ⟨p0, p1, p2, h0, h1, h2, h3⟩ := cell_geometry L d hd
  exact ⟨p0, p1, p2, h0, h1, h2, h3, by rw [isAxisRightTriangle_area _ _ _ _ h3, leaf_len_sq]⟩

theorem leaf_area_sum (L : Nat) :
    ((leafIndexTable L).map (areaOf (leafVertexTable L))).sum = 1 / 2 := by
  rw [sum_map_const _ _ (1 / (2 * 4 ^ L)), leafIndexTable_length]
  · push_cast
    field_simp
    ring
  · intro t ht
    obtain ⟨p0, p1, p2, h0, h1, h2, _, h4⟩ := leaf_triangle_geometry L t ht
    simp only [areaOf, h0, h1, h2, h4]

/-- C8 (as stated, refuted): at level 31 `getLeafVertices` returns no vertex, so
whatever `getLeafIndices` returns, either a triangle has no vertices to be read
against or there is no triangle and the areas sum to 0. -/
theorem leaf_triangles_level_31 :
    ¬ ∃ fuel vs tris, getLeafVertices fuel 31 = some vs ∧
        getLeafIndices fuel 31 = some (.ok tris) ∧
        (∀ t ∈ tris, ∃ p0 p1 p2, vs[t.x]? = some p0 ∧ vs[t.y]? = some p1 ∧
          vs[t.z]? = some p2 ∧ isAxisRightTriangle (1 / 2 ^ 31) p0 p1 p2) ∧
        (tris.map (areaOf vs)).sum = 1 / 2 := by
  rintro ⟨fuel, vs, tris, hv, _, ht, hs⟩
  have hvs : vs = [] := by
    cases fuel with
    | zero => simp [getLeafVertices, shl1, leafVerticesRows] at hv
    | succ f =>
      simp only [getLeafVertices, shl1] at hv
      norm_num [leafVerticesRows] at hv
      exact hv
  subst hvs
  cases tris with
  | nil => norm_num at hs
  | cons t ts =>
    obtain ⟨p0, _, _, h0, _⟩ := ht t (List.mem_cons_self t ts)
    simp at h0

/-- C8 (amended): for every level L with 0 ≤ L ≤ 16, every triangle emitted by
`getLeafIndices(L)`, read against the vertices of `getLeafVertices(L)`, is a right
triangle whose two legs are axis-parallel and have length exactly 1/2^L; each has
area 1/(2*4^L) and the areas sum to 1/2. -/
theorem leaf_triangles_right (L : Nat) (hL : L ≤ 16) (fuel : Nat)
    (hf : 2 * 2 ^ L + 3 ≤ fuel) :
    ∃ vs tris, getLeafVertices fuel L = some vs ∧
      getLeafIndices fuel L = some (.ok tris) ∧
      (∀ t ∈ tris, ∃ p0 p1 p2, vs[t.x]? = some p0 ∧ vs[t.y]? = some p1 ∧
        vs[t.z]? = some p2 ∧ isAxisRightTriangle (1 / 2 ^ L) p0 p1 p2 ∧
        triangleArea p0 p1 p2 = 1 / (2 * 4 ^ L)) ∧
      (tris.map (areaOf vs)).sum = 1 / 2 :=
  ⟨leafVertexTable L, leafIndexTable L, getLeafVertices_eq_table L (by omega) fuel hf,
    getLeafIndices_eq_table L hL fuel hf, fun t ht => leaf_triangle_geometry L t ht,
    leaf_area_sum L⟩

theorem leaf_triangles_right_witness :
    (2 : Nat) ≤ 16 ∧ 2 * 2 ^ 2 + 3 ≤ 11 ∧
    ∃ vs tris, getLeafVertices 11 2 = some vs ∧
      getLeafIndices 11 2 = some (.ok tris) ∧
      (∀ t ∈ tris, ∃ p0 p1 p2, vs[t.x]? = some p0 ∧ vs[t.y]? = some p1 ∧
        vs[t.z]? = some p2 ∧ isAxisRightTriangle (1 / 2 ^ 2) p0 p1 p2 ∧
        triangleArea p0 p1 p2 = 1 / (2 * 4 ^ 2)) ∧
      (tris.map (areaOf vs)).sum = 1 / 2 :=
  ⟨by decide, by decide, leaf_triangles_right 2 (by decide) 11 (by decide)⟩

/-! ## Conformity of the leaf mesh -/

theorem vid_lt_next (r c : Nat) (h : c ≤ r) : vid r c < triNum (r + 1) := by
  rw [vid, triNum_succ]; omega

theorem vid_eq_iff {r c r1 c1 : Nat} (h : c ≤ r) (h1 : c1 ≤ r1) :
    vid r c = vid r1 c1 ↔ r = r1 ∧ c = c1 := by
  constructor
  · intro e
    have a1 := vid_lt_next r c h
    have a2 := vid_lt_next r1 c1 h1
    have hr : r = r1 := by
      rcases Nat.lt_trichotomy r r1 with hlt | heq | hgt
      · have := triNum_mono (show r + 1 ≤ r1 by omega)
        unfold vid at *
        omega
      · exact heq
      · have := triNum_mono (show r1 + 1 ≤ r by omega)
        unfold vid at *
        omega
    subst hr
    unfold vid at e
    exact ⟨rfl, by omega⟩
  · rintro ⟨rfl, rfl⟩
    rfl

theorem colCells_nodup (r c : Nat) : (colCells r c).Nodup := by
  unfold colCells
  split_ifs <;> simp

theorem allCells_nodup (n : Nat) : (allCells n).Nodup := by
  unfold allCells
  rw [List.nodup_flatMap]
  refine ⟨fun r _ => ?_, ?_⟩
  · rw [List.nodup_flatMap]
    refine ⟨fun c _ => colCells_nodup r c, ?_⟩
    refine List.Pairwise.imp_of_mem ?_ (List.nodup_range (r + 1))
    intro c1 c2 _ _ hne
    simp only [Function.onFun, List.disjoint_left]
    intro d h1 h2
    rw [mem_colCells] at h1 h2
    exact hne (h1.2.1.symm.trans h2.2.1)
  · refine List.Pairwise.imp_of_mem ?_ (List.nodup_range n)
    intro r1 r2 _ _ hne
    simp only [Function.onFun, List.disjoint_left, List.mem_flatMap, List.mem_range, mem_colCells]
    rintro d ⟨c1, _, h1, _⟩ ⟨c2, _, h2, _⟩
    exact hne (h1.symm.trans h2)

theorem countP_eq_one (l : List Cell) (p : Cell → Bool) (d1 : Cell) (hn : l.Nodup)
    (h : ∀ d, (d ∈ l ∧ p d = true) ↔ d = d1) : l.countP p = 1 := by
  rw [List.countP_eq_length_filter, ← List.toFinset_card_of_nodup (hn.filter _)]
  have e : (l.filter p).toFinset = {d1} := by
    ext d
    simp only [List.mem_toFinset, List.mem_filter, Finset.mem_singleton]
    exact h d
  rw [e, Finset.card_singleton]

theorem countP_eq_two (l : List Cell) (p : Cell → Bool) (d1 d2 : Cell) (hn : l.Nodup)
    (hne : d1 ≠ d2) (h : ∀ d, (d ∈ l ∧ p d = true) ↔ (d = d1 ∨ d = d2)) : l.countP p = 2 := by
  rw [List.countP_eq_length_filter, ← List.toFinset_card_of_nodup (hn.filter _)]
  have e : (l.filter p).toFinset = {d1, d2} := by
    ext d
    simp only [List.mem_toFinset, List.mem_filter, Finset.mem_insert, Finset.mem_singleton]
    exact h d
  rw [e, Finset.card_pair hne]

theorem or_swap_right {a b c : Prop} : (a ∨ b ∨ c) ↔ (a ∨ c ∨ b) := by
  constructor <;> (intro h; rcases h with h | h | h <;> simp [h])

theorem cell_vertex_iff (n : Nat) (d : Cell) (hd : d ∈ allCells n) (pr pc : Nat) (hp : pc ≤ pr) :
    (vid pr pc = (cellTriangle d).x ∨ vid pr pc = (cellTriangle d).y ∨
      vid pr pc = (cellTriangle d).z) ↔ cellHas d pr pc := by
  rw [mem_allCells] at hd
  obtain ⟨r, c, right⟩ := d
  obtain ⟨_, h2, h3⟩ := hd
  simp only at h2 h3
  have e0 := @vid_eq_iff pr pc r c hp h2
  have e1 := @vid_eq_iff pr pc (r + 1) c hp (by omega)
  cases right with
  | true =>
    rcases Nat.mod_two_eq_zero_or_one (r + c) with hq | hq
    · have e2 := @vid_eq_iff pr pc (r + 1) (c + 1) hp (by omega)
      simp only [cellTriangle, cellHas, cellThird, hq, if_true, e0, e1, e2, Prod.mk.injEq]
    · have e2 := @vid_eq_iff pr pc r (c + 1) hp (by omega)
      have hne : ¬ ((r + c) % 2 = 0) := by omega
      simp only [cellTriangle, cellHas, cellThird, hne, if_true, if_false, e0, e1, e2,
        Prod.mk.injEq]
  | false =>
    have hc : c ≠ 0 := fun h => by simpa using h3 h
    rcases Nat.mod_two_eq_zero_or_one (r + c) with hq | hq
    · have e2 := @vid_eq_iff pr pc (r + 1) (c - 1) hp (by omega)
      simp only [cellTriangle, cellHas, cellThird, hq, if_true, Bool.false_eq_true, if_false,
        e0, e1, e2, Prod.mk.injEq]
      exact or_swap_right
    · have e2 := @vid_eq_iff pr pc r (c - 1) hp (by omega)
      have hne : ¬ ((r + c) % 2 = 0) := by omega
      simp only [cellTriangle, cellHas, cellThird, hne, if_true, Bool.false_eq_true, if_false,
        e0, e1, e2, Prod.mk.injEq]
      exact or_swap_right

theorem hasEdge_cell (n : Nat) (d : Cell) (hd : d ∈ allCells n) (pr pc qr qc : Nat)
    (hp : pc ≤ pr) (hq : qc ≤ qr) :
    hasEdge (vid pr pc) (vid qr qc) (cellTriangle d) = true ↔
      (cellHas d pr pc ∧ cellHas d qr qc) := by
  rw [← cell_vertex_iff n d hd pr pc hp, ← cell_vertex_iff n d hd qr qc hq]
  simp [hasEdge, or_assoc]

theorem edgeCount_cells (L : Nat) (a b : Nat) :
    edgeCount (leafIndexTable L) a b =
      (allCells (2 ^ L)).countP (fun d => hasEdge a b (cellTriangle d)) := by
  rw [edgeCount, leafIndexTable_eq_map, List.countP_map]
  rfl

theorem onBoundary_vid (L r c r1 c1 : Nat) (hr : r ≤ 2 ^ L) (hc : c ≤ r) (hr1 : r1 ≤ 2 ^ L)
    (hc1 : c1 ≤ r1) :
    onBoundary (leafVertexTable L) (vid r c) (vid r1 c1) ↔
      ((c = 0 ∧ c1 = 0) ∨ (r = 2 ^ L ∧ r1 = 2 ^ L) ∨ (c = r ∧ c1 = r1)) := by
  have hn : (0 : ℚ) < 2 ^ L := by positivity
  have hx : ∀ k : Nat, ((k : ℚ) / 2 ^ L = 0 ↔ k = 0) := by
    intro k
    rw [div_eq_zero_iff]
    constructor
    · rintro (h | h)
      · exact_mod_cast h
      · exact absurd h (ne_of_gt hn)
    · intro h; left; exact_mod_cast h
  have hy : ∀ k : Nat, (1 - (k : ℚ) / 2 ^ L = 0 ↔ k = 2 ^ L) := by
    intro k
    rw [sub_eq_zero, eq_comm, div_eq_one_iff_eq (ne_of_gt hn)]
    constructor
    · intro h; exact_mod_cast h
    · intro h; exact_mod_cast h
  have hz : ∀ k m : Nat, ((k : ℚ) / 2 ^ L + (1 - (m : ℚ) / 2 ^ L) = 1 ↔ k = m) := by
    intro k m
    constructor
    · intro h
      have h2 : (k : ℚ) / 2 ^ L = (m : ℚ) / 2 ^ L := by linarith
      rw [div_left_inj' (ne_of_gt hn)] at h2
      exact_mod_cast h2
    · intro h; subst h; ring
  unfold onBoundary
  rw [leafVertexTable_vid L r c hr hc, leafVertexTable_vid L r1 c1 hr1 hc1]
  constructor
  · rintro ⟨p, q, h1, h2, h3⟩
    cases h1
    cases h2
    simp only [vtx, hx, hy, hz] at h3
    exact h3
  · intro h
    refine ⟨_, _, rfl, rfl, ?_⟩
    simp only [vtx, hx, hy, hz]
    exact h

theorem cells_of_vertical (n r c : Nat) (hr : r < n) (hc : c ≤ r) (d : Cell) :
    (d ∈ allCells n ∧ cellHas d r c ∧ cellHas d (r + 1) c) ↔
      (d = Cell.mk r c true ∨ (0 < c ∧ d = Cell.mk r c false)) := by
  obtain ⟨r1, c1, right1⟩ := d
  rw [mem_allCells]
  rcases Nat.mod_two_eq_zero_or_one (r1 + c1) with hq | hq <;> cases right1 <;>
    simp [cellHas, cellThird, hq] <;> omega

theorem cells_of_horizontal_odd (n k c : Nat) (hk : k ≤ n) (hc : c + 1 ≤ k)
    (hp : (k + c) % 2 = 1) (d : Cell) :
    (d ∈ allCells n ∧ cellHas d k c ∧ cellHas d k (c + 1)) ↔
      (d = Cell.mk (k - 1) c true ∨ (k < n ∧ d = Cell.mk k c true)) := by
  obtain ⟨r1, c1, right1⟩ := d
  rw [mem_allCells]
  rcases Nat.mod_two_eq_zero_or_one (r1 + c1) with hq | hq <;> cases right1 <;>
    simp [cellHas, cellThird, hq] <;> omega

theorem cells_of_horizontal_even (n k c : Nat) (hk : k ≤ n) (hc : c + 1 ≤ k)
    (hp : (k + c) % 2 = 0) (d : Cell) :
    (d ∈ allCells n ∧ cellHas d k c ∧ cellHas d k (c + 1)) ↔
      (d = Cell.mk (k - 1) (c + 1) false ∨ (k < n ∧ d = Cell.mk k (c + 1) false)) := by
  obtain ⟨r1, c1, right1⟩ := d
  rw [mem_allCells]
  rcases Nat.mod_two_eq_zero_or_one (r1 + c1) with hq | hq <;> cases right1 <;>
    simp [cellHas, cellThird, hq] <;> omega

theorem cells_of_diagonal (n r c : Nat) (hr : r < n) (hc : c ≤ r) (hp : (r + c) % 2 = 0)
    (d : Cell) :
    (d ∈ allCells n ∧ cellHas d r c ∧ cellHas d (r + 1) (c + 1)) ↔
      (d = Cell.mk r c true ∨ (c + 1 ≤ r ∧ d = Cell.mk r (c + 1) false)) := by
  obtain ⟨r1, c1, right1⟩ := d
  rw [mem_allCells]
  rcases Nat.mod_two_eq_zero_or_one (r1 + c1) with hq | hq <;> cases right1 <;>
    simp [cellHas, cellThird, hq] <;> omega

theorem cells_of_antidiagonal (n r c : Nat) (hr : r < n) (hc : c + 1 ≤ r)
    (hp : (r + c) % 2 = 1) (d : Cell) :
    (d ∈ allCells n ∧ cellHas d r (c + 1) ∧ cellHas d (r + 1) c) ↔
      (d = Cell.mk r c true ∨ (True ∧ d = Cell.mk r (c + 1) false)) := by
  obtain ⟨r1, c1, right1⟩ := d
  rw [mem_allCells]
  rcases Nat.mod_two_eq_zero_or_one (r1 + c1) with hq | hq <;> cases right1 <;>
    simp [cellHas, cellThird, hq] <;> omega

theorem edgeCount_of_cells (L pr pc qr qc : Nat) (hp : pc ≤ pr) (hq : qc ≤ qr) (d1 d2 : Cell)
    (cond : Prop) [Decidable cond] (hne : d1 ≠ d2)
    (h : ∀ d, (d ∈ allCells (2 ^ L) ∧ cellHas d pr pc ∧ cellHas d qr qc) ↔
      (d = d1 ∨ (cond ∧ d = d2))) :
    edgeCount (leafIndexTable L) (vid pr pc) (vid qr qc) = if cond then 2 else 1 := by
  rw [edgeCount_cells]
  have h1 : ∀ d, (d ∈ allCells (2 ^ L) ∧
      (fun d => hasEdge (vid pr pc) (vid qr qc) (cellTriangle d)) d = true) ↔
      (d = d1 ∨ (cond ∧ d = d2)) := by
    intro d
    rw [← h d]
    constructor
    · rintro ⟨hd, he⟩
      exact ⟨hd, (hasEdge_cell _ d hd pr pc qr qc hp hq).mp he⟩
    · rintro ⟨hd, he⟩
      exact ⟨hd, (hasEdge_cell _ d hd pr pc qr qc hp hq).mpr he⟩
  by_cases hc : cond
  · rw [if_pos hc]
    refine countP_eq_two _ _ d1 d2 (allCells_nodup _) hne (fun d => ?_)
    rw [h1 d]
    simp [hc]
  · rw [if_neg hc]
    refine countP_eq_one _ _ d1 (allCells_nodup _) (fun d => ?_)
    rw [h1 d]
    simp [hc]

theorem edgeConforms_of_cells (L pr pc qr qc : Nat) (hpr : pr ≤ 2 ^ L) (hp : pc ≤ pr)
    (hqr : qr ≤ 2 ^ L) (hq : qc ≤ qr) (d1 d2 : Cell) (cond : Prop) [Decidable cond]
    (hne : d1 ≠ d2)
    (h : ∀ d, (d ∈ allCells (2 ^ L) ∧ cellHas d pr pc ∧ cellHas d qr qc) ↔
      (d = d1 ∨ (cond ∧ d = d2)))
    (hb : ((pc = 0 ∧ qc = 0) ∨ (pr = 2 ^ L ∧ qr = 2 ^ L) ∨ (pc = pr ∧ qc = qr)) ↔ ¬ cond) :
    edgeConforms (leafVertexTable L) (leafIndexTable L) (vid pr pc) (vid qr qc) := by
  unfold edgeConforms
  rw [onBoundary_vid L pr pc qr qc hpr hp hqr hq, hb,
    edgeCount_of_cells L pr pc qr qc hp hq d1 d2 cond hne h]
  constructor
  · intro hc; rw [if_neg hc]
  · intro hc; rw [if_pos (not_not.mp hc)]

theorem hasEdge_symm (a b : Nat) (t : uvec3) : hasEdge a b t = hasEdge b a t := by
  unfold hasEdge
  rw [Bool.and_comm]

theorem edgeConforms_symm (vs : List vec2) (tris : List uvec3) (a b : Nat)
    (h : edgeConforms vs tris a b) : edgeConforms vs tris b a := by
  have e1 : edgeCount tris b a = edgeCount tris a b := by
    unfold edgeCount
    congr 1
    funext t
    exact hasEdge_symm b a t
  have e2 : onBoundary vs b a ↔ onBoundary vs a b := by
    unfold onBoundary
    constructor
    · rintro ⟨p, q, h1, h2, h3⟩
      exact ⟨q, p, h2, h1, by tauto⟩
    · rintro ⟨p, q, h1, h2, h3⟩
      exact ⟨q, p, h2, h1, by tauto⟩
  unfold edgeConforms at *
  rw [e1, e2]
  exact h

theorem edge_vertical (L r c : Nat) (hr : r < 2 ^ L) (hc : c ≤ r) :
    edgeConforms (leafVertexTable L) (leafIndexTable L) (vid r c) (vid (r + 1) c) :=
  edgeConforms_of_cells L r c (r + 1) c (by omega) hc (by omega) (by omega)
    (Cell.mk r c true) (Cell.mk r c false) (0 < c) (by simp)
    (cells_of_vertical _ r c hr hc) (by omega)

theorem edge_horizontal (L k c : Nat) (hk : k ≤ 2 ^ L) (hc : c + 1 ≤ k) :
    edgeConforms (leafVertexTable L) (leafIndexTable L) (vid k c) (vid k (c + 1)) := by
  rcases Nat.mod_two_eq_zero_or_one (k + c) with hp | hp
  · exact edgeConforms_of_cells L k c k (c + 1) hk (by omega) hk (by omega)
      (Cell.mk (k - 1) (c + 1) false) (Cell.mk k (c + 1) false) (k < 2 ^ L)
      (by simp; omega) (cells_of_horizontal_even _ k c hk hc hp) (by omega)
  · exact edgeConforms_of_cells L k c k (c + 1) hk (by omega) hk (by omega)
      (Cell.mk (k - 1) c true) (Cell.mk k c true) (k < 2 ^ L)
      (by simp; omega) (cells_of_horizontal_odd _ k c hk hc hp) (by omega)

theorem edge_diagonal (L r c : Nat) (hr : r < 2 ^ L) (hc : c ≤ r) (hp : (r + c) % 2 = 0) :
    edgeConforms (leafVertexTable L) (leafIndexTable L) (vid r c) (vid (r + 1) (c + 1)) :=
  edgeConforms_of_cells L r c (r + 1) (c + 1) (by omega) hc (by omega) (by omega)
    (Cell.mk r c true) (Cell.mk r (c + 1) false) (c + 1 ≤ r) (by simp)
    (cells_of_diagonal _ r c hr hc hp) (by omega)

theorem edge_antidiagonal (L r c : Nat) (hr : r < 2 ^ L) (hc : c + 1 ≤ r)
    (hp : (r + c) % 2 = 1) :
    edgeConforms (leafVertexTable L) (leafIndexTable L) (vid r (c + 1)) (vid (r + 1) c) :=
  edgeConforms_of_cells L r (c + 1) (r + 1) c (by omega) hc (by omega) (by omega)
    (Cell.mk r c true) (Cell.mk r (c + 1) false) True (by simp)
    (cells_of_antidiagonal _ r c hr hc hp)
    (by simp only [not_true_eq_false, iff_false]; omega)

theorem leaf_edge_conforms (L a b : Nat) (hab : a ≠ b)
    (h : ∃ t ∈ leafIndexTable L, hasEdge a b t = true) :
    edgeConforms (leafVertexTable L) (leafIndexTable L) a b := by
  obtain ⟨t, ht, he⟩ := h
  rw [leafIndexTable_eq_map, List.mem_map] at ht
  obtain ⟨d, hd, rfl⟩ := ht
  rw [mem_allCells] at hd
  obtain ⟨r, c, right⟩ := d
  obtain ⟨h1, h2, h3⟩ := hd
  simp only at h1 h2 h3
  cases right with
  | true =>
    rcases Nat.mod_two_eq_zero_or_one (r + c) with hp | hp
    · simp only [hasEdge, cellTriangle, hp, if_true, Bool.and_eq_true, Bool.or_eq_true,
        beq_iff_eq] at he
      rcases he with ⟨(rfl | rfl) | rfl, (rfl | rfl) | rfl⟩
      · exact absurd rfl hab
      · exact edge_vertical L r c h1 h2
      · exact edge_diagonal L r c h1 h2 hp
      · exact edgeConforms_symm _ _ _ _ (edge_vertical L r c h1 h2)
      · exact absurd rfl hab
      · exact edge_horizontal L (r + 1) c (by omega) (by omega)
      · exact edgeConforms_symm _ _ _ _ (edge_diagonal L r c h1 h2 hp)
      · exact edgeConforms_symm _ _ _ _ (edge_horizontal L (r + 1) c (by omega) (by omega))
      · exact absurd rfl hab
    · have hne : ¬ ((r + c) % 2 = 0) := by omega
      simp only [hasEdge, cellTriangle, hne, if_true, if_false, Bool.and_eq_true,
        Bool.or_eq_true, beq_iff_eq] at he
      rcases he with ⟨(rfl | rfl) | rfl, (rfl | rfl) | rfl⟩
      · exact absurd rfl hab
      · exact edge_vertical L r c h1 h2
      · exact edge_horizontal L r c (by omega) (by omega)
      · exact edgeConforms_symm _ _ _ _ (edge_vertical L r c h1 h2)
      · exact absurd rfl hab
      · exact edgeConforms_symm _ _ _ _ (edge_antidiagonal L r c h1 (by omega) hp)
      · exact edgeConforms_symm _ _ _ _ (edge_horizontal L r c (by omega) (by omega))
      · exact edge_antidiagonal L r c h1 (by omega) hp
      · exact absurd rfl hab
  | false =>
    obtain ⟨c1, rfl⟩ : ∃ c1, c = c1 + 1 := ⟨c - 1, by
      have : c ≠ 0 := fun h => by simpa using h3 h
      omega⟩
    rcases Nat.mod_two_eq_zero_or_one (r + (c1 + 1)) with hp | hp
    · simp only [hasEdge, cellTriangle, hp, if_true, Bool.false_eq_true, if_false,
        Nat.add_sub_cancel, Bool.and_eq_true, Bool.or_eq_true, beq_iff_eq] at he
      rcases he with ⟨(rfl | rfl) | rfl, (rfl | rfl) | rfl⟩
      · exact absurd rfl hab
      · exact edge_antidiagonal L r c1 h1 (by omega) (by omega)
      · exact edge_vertical L r (c1 + 1) h1 h2
      · exact edgeConforms_symm _ _ _ _ (edge_antidiagonal L r c1 h1 (by omega) (by omega))
      · exact absurd rfl hab
      · exact edge_horizontal L (r + 1) c1 (by omega) (by omega)
      · exact edgeConforms_symm _ _ _ _ (edge_vertical L r (c1 + 1) h1 h2)
      · exact edgeConforms_symm _ _ _ _ (edge_horizontal L (r + 1) c1 (by omega) (by omega))
      · exact absurd rfl hab
    · have hne : ¬ ((r + (c1 + 1)) % 2 = 0) := by omega
      simp only [hasEdge, cellTriangle, hne, if_true, Bool.false_eq_true, if_false,
        Nat.add_sub_cancel, Bool.and_eq_true, Bool.or_eq_true, beq_iff_eq] at he
      rcases he with ⟨(rfl | rfl) | rfl, (rfl | rfl) | rfl⟩
      · exact absurd rfl hab
      · exact edgeConforms_symm _ _ _ _ (edge_horizontal L r c1 (by omega) (by omega))
      · exact edge_vertical L r (c1 + 1) h1 h2
      · exact edge_horizontal L r c1 (by omega) (by omega)
      · exact absurd rfl hab
      · exact edge_diagonal L r c1 h1 (by omega) (by omega)
      · exact edgeConforms_symm _ _ _ _ (edge_vertical L r (c1 + 1) h1 h2)
      · exact edgeConforms_symm _ _ _ _ (edge_diagonal L r c1 h1 (by omega) (by omega))
      · exact absurd rfl hab

theorem leafVertexTable_corners (L : Nat) :
    vec2.mk 0 1 ∈ leafVertexTable L ∧ vec2.mk 0 0 ∈ leafVertexTable L ∧
      vec2.mk 1 0 ∈ leafVertexTable L := by
  have hn : (0 : ℚ) < 2 ^ L := by positivity
  have h1 := List.getElem?_mem (leafVertexTable_vid L 0 0 (Nat.zero_le _) (le_refl _))
  have h2 := List.getElem?_mem (leafVertexTable_vid L (2 ^ L) 0 (le_refl _) (Nat.zero_le _))
  have h3 := List.getElem?_mem (leafVertexTable_vid L (2 ^ L) (2 ^ L) (le_refl _) (le_refl _))
  have e1 : vtx L 0 0 = vec2.mk 0 1 := by simp [vtx]
  have e2 : vtx L (2 ^ L) 0 = vec2.mk 0 0 := by
    simp only [vtx, vec2.mk.injEq]
    push_cast
    constructor
    · simp
    · rw [div_self (ne_of_gt hn)]; ring
  have e3 : vtx L (2 ^ L) (2 ^ L) = vec2.mk 1 0 := by
    simp only [vtx, vec2.mk.injEq]
    push_cast
    rw [div_self (ne_of_gt hn)]
    constructor
    · rfl
    · ring
  rw [e1] at h1
  rw [e2] at h2
  rw [e3] at h3
  exact ⟨h1, h2, h3⟩

/-- C7 (as stated, refuted): at level 31 `getLeafVertices` returns no vertex, so
the corners (0,1), (0,0), (1,0) of the unit triangle are not vertices of the mesh,
whatever `getLeafIndices` returns. -/
theorem leaf_mesh_level_31 :
    ¬ ∃ fuel vs tris, getLeafVertices fuel 31 = some vs ∧
        getLeafIndices fuel 31 = some (.ok tris) ∧
        (vec2.mk 0 1 ∈ vs ∧ vec2.mk 0 0 ∈ vs ∧ vec2.mk 1 0 ∈ vs) ∧
        (∀ a b, a ≠ b → (∃ t ∈ tris, hasEdge a b t = true) →
          (onBoundary vs a b → edgeCount tris a b = 1) ∧
          (¬ onBoundary vs a b → edgeCount tris a b = 2)) := by
  rintro ⟨fuel, vs, tris, hv, _, ⟨hc, _⟩, _⟩
  have hvs : vs = [] := by
    cases fuel with
    | zero => simp [getLeafVertices, shl1, leafVerticesRows] at hv
    | succ f =>
      simp only [getLeafVertices, shl1] at hv
      norm_num [leafVerticesRows] at hv
      exact hv
  subst hvs
  cases hc

/-- C7 (amended): for every level L with 0 ≤ L ≤ 16, the triangles of
`getLeafIndices(L)` over the vertices of `getLeafVertices(L)` form a conforming
mesh of the unit right triangle with corners (0,1), (0,0), (1,0): the corners are
vertices, every index of every triangle names a vertex, every triangle edge lying
on the boundary of the unit triangle belongs to exactly one emitted triangle, and
every other triangle edge (an unordered pair of vertex indices) to exactly two. -/
theorem leaf_mesh_conforming (L : Nat) (hL : L ≤ 16) (fuel : Nat)
    (hf : 2 * 2 ^ L + 3 ≤ fuel) :
    ∃ vs tris, getLeafVertices fuel L = some vs ∧
      getLeafIndices fuel L = some (.ok tris) ∧
      (vec2.mk 0 1 ∈ vs ∧ vec2.mk 0 0 ∈ vs ∧ vec2.mk 1 0 ∈ vs) ∧
      (∀ t ∈ tris, ∃ p0 p1 p2, vs[t.x]? = some p0 ∧ vs[t.y]? = some p1 ∧
        vs[t.z]? = some p2) ∧
      (∀ a b, a ≠ b → (∃ t ∈ tris, hasEdge a b t = true) →
        (onBoundary vs a b → edgeCount tris a b = 1) ∧
        (¬ onBoundary vs a b → edgeCount tris a b = 2)) := by
  refine ⟨leafVertexTable L, leafIndexTable L, getLeafVertices_eq_table L (by omega) fuel hf,
    getLeafIndices_eq_table L hL fuel hf, leafVertexTable_corners L, ?_, ?_⟩
  · intro t ht
    obtain ⟨p0, p1, p2, h0, h1, h2, _⟩ := leaf_triangle_geometry L t ht
    exact ⟨p0, p1, p2, h0, h1, h2⟩
  · intro a b hab h
    exact leaf_edge_conforms L a b hab h

theorem leaf_mesh_conforming_witness :
    (1 : Nat) ≤ 16 ∧ 2 * 2 ^ 1 + 3 ≤ 7 ∧
    ∃ vs tris, getLeafVertices 7 1 = some vs ∧
      getLeafIndices 7 1 = some (.ok tris) ∧
      (vec2.mk 0 1 ∈ vs ∧ vec2.mk 0 0 ∈ vs ∧ vec2.mk 1 0 ∈ vs) ∧
      (∀ t ∈ tris, ∃ p0 p1 p2, vs[t.x]? = some p0 ∧ vs[t.y]? = some p1 ∧
        vs[t.z]? = some p2) ∧
      (∀ a b, a ≠ b → (∃ t ∈ tris, hasEdge a b t = true) →
        (onBoundary vs a b → edgeCount tris a b = 1) ∧
        (¬ onBoundary vs a b → edgeCount tris a b = 2)) :=
  ⟨by decide, by decide, leaf_mesh_conforming 1 (by decide) 7 (by decide)⟩

/-! ## Properties of the node store initialisation -/

theorem writeNode_length (arr arr1 : List uvec4) (i : Nat) (v : uvec4)
    (h : writeNode arr i v = some arr1) : arr1.length = arr.length := by
  unfold writeNode at h
  split_ifs at h
  cases h
  simp

theorem triangleNode_length (arr arr1 : List uvec4) (ctr : Nat)
    (h : triangleNode arr ctr = some arr1) : arr1.length = arr.length := by
  unfold triangleNode at h
  cases hz : uintOfProduct ctr 3 with
  | none => rw [hz] at h; cases h
  | some z => rw [hz] at h; exact writeNode_length _ _ _ _ h

theorem triangleNode_outside (arr : List uvec4) (ctr : Nat) (h : arr.length ≤ ctr) :
    triangleNode arr ctr = none := by
  unfold triangleNode
  cases uintOfProduct ctr 3 with
  | none => rfl
  | some z => simp [writeNode, Nat.not_lt.mpr h]

theorem quadNodes_length (arr arr1 : List uvec4) (ctr : Nat)
    (h : quadNodes arr ctr = some arr1) : arr1.length = arr.length := by
  unfold quadNodes at h
  cases hz : uintOfProduct ctr 4 with
  | none => rw [hz] at h; cases h
  | some z =>
    rw [hz] at h
    simp only at h
    cases hw : writeNode arr (2 * ctr + 0) (uvec4.mk 0 1 z 0) with
    | none => rw [hw] at h; cases h
    | some arr0 =>
      rw [hw] at h
      rw [writeNode_length _ _ _ _ h, writeNode_length _ _ _ _ hw]

theorem quadNodes_outside (arr : List uvec4) (ctr : Nat) (h : arr.length ≤ 2 * ctr + 1) :
    quadNodes arr ctr = none := by
  unfold quadNodes
  cases uintOfProduct ctr 4 with
  | none => rfl
  | some z =>
    simp only
    cases hw : writeNode arr (2 * ctr + 0) (uvec4.mk 0 1 z 0) with
    | none => rfl
    | some arr0 =>
      have hl := writeNode_length _ _ _ _ hw
      simp [writeNode, hl, Nat.not_lt.mpr h]

theorem foldlM_outside (body : List uvec4 → Nat → Option (List uvec4)) (bad : Nat → Nat)
    (hlen : ∀ arr arr1 ctr, body arr ctr = some arr1 → arr1.length = arr.length)
    (hout : ∀ arr ctr, arr.length ≤ bad ctr → body arr ctr = none) :
    ∀ (l : List Nat) (arr : List uvec4), (∃ ctr ∈ l, arr.length ≤ bad ctr) →
      l.foldlM body arr = none := by
  intro l
  induction l with
  | nil => intro arr h; obtain ⟨_, hm, _⟩ := h; cases hm
  | cons a l ih =>
    intro arr h
    rw [List.foldlM_cons]
    cases hb : body arr a with
    | none => rfl
    | some arr1 =>
      obtain ⟨ctr, hm, hc⟩ := h
      rcases List.mem_cons.mp hm with e | hm
      · subst e
        rw [hout arr ctr hc] at hb
        cases hb
      · exact ih arr1 ⟨ctr, hm, by rw [hlen arr arr1 a hb]; exact hc⟩

theorem triangle_loop (n : Nat) (arr : List uvec4) (hn : n ≤ arr.length) (hb : n * 3 < 2 ^ 31) :
    ∃ arr1, (List.range n).foldlM triangleNode arr = some arr1 ∧ arr1.length = arr.length ∧
      ∀ i, i < n → arr1[i]? = some (uvec4.mk 0 1 (3 * i) 0) := by
  induction n with
  | zero => exact ⟨arr, rfl, rfl, fun i hi => by omega⟩
  | succ n ih =>
    obtain ⟨arr1, h1, h2, h3⟩ := ih (by omega) (by omega)
    have hz : uintOfProduct n 3 = some (3 * n) := by
      have e : n * 3 % 2 ^ 32 = n * 3 := Nat.mod_eq_of_lt (by omega)
      simp only [uintOfProduct, u32, e]
      rw [if_pos (by omega)]
      congr 1
      omega
    have hw : triangleNode arr1 n = some (arr1.set n (uvec4.mk 0 1 (3 * n) 0)) := by
      simp only [triangleNode, hz, writeNode]
      rw [if_pos (by omega)]
    refine ⟨arr1.set n (uvec4.mk 0 1 (3 * n) 0), ?_, by simp [h2], ?_⟩
    · rw [List.range_succ, List.foldlM_append, h1]
      simp [hw]
    · intro i hi
      rw [List.getElem?_set]
      by_cases e : n = i
      · subst e
        simp only [if_true]
        rw [if_pos (by omega)]
      · rw [if_neg e]
        exact h3 i (by omega)

theorem quad_loop (n : Nat) (arr : List uvec4) (hn : 2 * n ≤ arr.length) (hb : n * 4 < 2 ^ 31) :
    ∃ arr1, (List.range n).foldlM quadNodes arr = some arr1 ∧ arr1.length = arr.length ∧
      ∀ c, c < n → arr1[2 * c]? = some (uvec4.mk 0 1 (4 * c) 0) ∧
        arr1[2 * c + 1]? = some (uvec4.mk 0 1 (4 * c) 1) := by
  induction n with
  | zero => exact ⟨arr, rfl, rfl, fun i hi => by omega⟩
  | succ n ih =>
    obtain ⟨arr1, h1, h2, h3⟩ := ih (by omega) (by omega)
    have hz : uintOfProduct n 4 = some (4 * n) := by
      have e : n * 4 % 2 ^ 32 = n * 4 := Nat.mod_eq_of_lt (by omega)
      simp only [uintOfProduct, u32, e]
      rw [if_pos (by omega)]
      congr 1
      omega
    have hw : quadNodes arr1 n = some
        ((arr1.set (2 * n) (uvec4.mk 0 1 (4 * n) 0)).set (2 * n + 1) (uvec4.mk 0 1 (4 * n) 1)) := by
      simp only [quadNodes, hz, writeNode, Nat.add_zero]
      rw [if_pos (by omega)]
      simp only [List.length_set]
      rw [if_pos (by omega)]
    refine ⟨(arr1.set (2 * n) (uvec4.mk 0 1 (4 * n) 0)).set (2 * n + 1) (uvec4.mk 0 1 (4 * n) 1),
      ?_, by simp [h2], ?_⟩
    · rw [List.range_succ, List.foldlM_append, h1]
      simp [hw]
    · intro c hc
      rw [List.getElem?_set, List.getElem?_set, List.getElem?_set, List.getElem?_set]
      simp only [List.length_set]
      by_cases e : c = n
      · subst e
        constructor
        · rw [if_neg (by omega), if_pos rfl, if_pos (by omega)]
        · rw [if_pos rfl, if_pos (by omega)]
      · obtain ⟨h4, h5⟩ := h3 c (by omega)
        constructor
        · rw [if_neg (by omega), if_neg (by omega)]
          exact h4
        · rw [if_neg (by omega), if_neg (by omega)]
          exact h5

theorem loadNodesBuffers_triangles_overflow (max_ssbo_size triangle_count quad_count init_prev : Nat)
    (fresh : Nat → uvec4) (h1 : max_ssbo_size / 8 / 16 < triangle_count)
    (h2 : triangle_count < 2 ^ 31) :
    loadNodesBuffers max_ssbo_size TRIANGLES triangle_count quad_count init_prev fresh = none := by
  have e : triangle_count % 2 ^ 32 = triangle_count := Nat.mod_eq_of_lt (by omega)
  have hf := foldlM_outside triangleNode (fun ctr => ctr) triangleNode_length triangleNode_outside
    (List.range triangle_count) ((List.range (max_ssbo_size / 8 / 16)).map fresh)
    ⟨max_ssbo_size / 8 / 16, List.mem_range.mpr h1, by simp⟩
  simp only [loadNodesBuffers, if_true, u32, e, loopBound, h2, hf, Option.map_none']

theorem loadNodesBuffers_quads_overflow (max_ssbo_size triangle_count quad_count init_prev : Nat)
    (fresh : Nat → uvec4) (h1 : max_ssbo_size / 8 / 16 < 4 * quad_count)
    (h2 : 2 * quad_count < 2 ^ 31) (h0 : 0 < quad_count) :
    loadNodesBuffers max_ssbo_size QUADS triangle_count quad_count init_prev fresh = none := by
  have e : 2 * quad_count % 2 ^ 32 = 2 * quad_count := Nat.mod_eq_of_lt (by omega)
  have hf := foldlM_outside quadNodes (fun ctr => 2 * ctr + 1) quadNodes_length quadNodes_outside
    (List.range (2 * quad_count)) ((List.range (max_ssbo_size / 8 / 16)).map fresh)
    ⟨2 * quad_count - 1, List.mem_range.mpr (by omega), by simp; omega⟩
  have hq : QUADS ≠ TRIANGLES := by decide
  simp only [loadNodesBuffers, if_true, hq, if_false, u32, e, loopBound, h2, hf, Option.map_none']

/-- C9 (as stated, refuted): with a reported block size of 2^27 bytes the array is
allocated with 1048576 nodes; for 1048577 triangles the loop writes entry 1048576,
past the allocation, and the call has no defined result. -/
theorem loadNodesBuffers_triangles_past_capacity :
    loadNodesBuffers 134217728 TRIANGLES 1048577 0 0 (fun _ => uvec4.mk 0 0 0 0) = none ∧
    ¬ ∃ b, loadNodesBuffers 134217728 TRIANGLES 1048577 0 0 (fun _ => uvec4.mk 0 0 0 0) = some b ∧
        b.init_node_count_ = 1048577 ∧
        ∀ i, i < 1048577 → b.nodes_array[i]? = some (uvec4.mk 0 1 (3 * i) 0) := by
  have h := loadNodesBuffers_triangles_overflow 134217728 1048577 0 0
    (fun _ => uvec4.mk 0 0 0 0) (by norm_num) (by norm_num)
  refine ⟨h, ?_⟩
  rintro ⟨b, hb, _⟩
  rw [h] at hb
  cases hb

/-- C9 (amended): for polygon type TRIANGLES and every triangle count t that does
not exceed the capacity `max_node_count_` of the node array, `loadNodesBuffers`
sets `init_node_count_` = t and, for every i < t, entry i of the initial node array
is the node (depth 0, flag word 1, base-primitive index 3*i, selector 0). -/
theorem loadNodesBuffers_triangles (max_ssbo_size t quad_count init_prev : Nat)
    (fresh : Nat → uvec4) (h1 : max_ssbo_size < 2 ^ 31) (h2 : t ≤ max_ssbo_size / 8 / 16) :
    ∃ b, loadNodesBuffers max_ssbo_size TRIANGLES t quad_count init_prev fresh = some b ∧
      b.max_node_count_ = max_ssbo_size / 8 / 16 ∧
      b.init_node_count_ = t ∧
      ∀ i, i < t → b.nodes_array[i]? = some (uvec4.mk 0 1 (3 * i) 0) := by
  have e : t % 2 ^ 32 = t := Nat.mod_eq_of_lt (by omega)
  have ht : t < 2 ^ 31 := by omega
  obtain ⟨arr1, h3, _, h5⟩ := triangle_loop t ((List.range (max_ssbo_size / 8 / 16)).map fresh)
    (by simpa using h2) (by omega)
  refine ⟨NodeBuffers.mk (max_ssbo_size / 8 / 16) t arr1 [arr1, arr1, arr1], ?_, rfl, rfl, h5⟩
  simp only [loadNodesBuffers, if_true, u32, e, loopBound, ht, h3, Option.map_some']

theorem loadNodesBuffers_triangles_witness :
    1024 < 2 ^ 31 ∧ 3 ≤ 1024 / 8 / 16 ∧
    ∃ b, loadNodesBuffers 1024 TRIANGLES 3 0 0 (fun _ => uvec4.mk 7 7 7 7) = some b ∧
      b.max_node_count_ = 1024 / 8 / 16 ∧
      b.init_node_count_ = 3 ∧
      ∀ i, i < 3 → b.nodes_array[i]? = some (uvec4.mk 0 1 (3 * i) 0) :=
  ⟨by decide, by decide,
    loadNodesBuffers_triangles 1024 3 0 0 (fun _ => uvec4.mk 7 7 7 7) (by decide) (by decide)⟩

/-- With a reported block size of 2^27 bytes the array is allocated with 1048576
nodes; for 600000 quads the initial population of 1200000 nodes does not fit, the
loop writes past the allocation and the call has no defined result. -/
theorem loadNodesBuffers_quads_past_capacity :
    loadNodesBuffers 134217728 QUADS 0 600000 0 (fun _ => uvec4.mk 0 0 0 0) = none ∧
    ¬ ∃ b, loadNodesBuffers 134217728 QUADS 0 600000 0 (fun _ => uvec4.mk 0 0 0 0) = some b ∧
        b.init_node_count_ = 2 * 600000 ∧
        ∀ c, c < 600000 → b.nodes_array[2 * c]? = some (uvec4.mk 0 1 (4 * c) 0) ∧
          b.nodes_array[2 * c + 1]? = some (uvec4.mk 0 1 (4 * c) 1) := by
  have h := loadNodesBuffers_quads_overflow 134217728 0 600000 0
    (fun _ => uvec4.mk 0 0 0 0) (by norm_num) (by norm_num) (by norm_num)
  refine ⟨h, ?_⟩
  rintro ⟨b, hb, _⟩
  rw [h] at hb
  cases hb

/-- When four times the quad count does not exceed the capacity `max_node_count_`,
every write of the `QUADS` loop stays inside the node array: `loadNodesBuffers`
sets `init_node_count_` = 2*q and, for every c < q, entries 2c and 2c+1 are
(0, 1, 4*c, 0) and (0, 1, 4*c, 1). -/
theorem loadNodesBuffers_quads (max_ssbo_size triangle_count q init_prev : Nat)
    (fresh : Nat → uvec4) (h1 : max_ssbo_size < 2 ^ 31) (h2 : 4 * q ≤ max_ssbo_size / 8 / 16) :
    ∃ b, loadNodesBuffers max_ssbo_size QUADS triangle_count q init_prev fresh = some b ∧
      b.max_node_count_ = max_ssbo_size / 8 / 16 ∧
      b.init_node_count_ = 2 * q ∧
      ∀ c, c < q → b.nodes_array[2 * c]? = some (uvec4.mk 0 1 (4 * c) 0) ∧
        b.nodes_array[2 * c + 1]? = some (uvec4.mk 0 1 (4 * c) 1) := by
  have e : 2 * q % 2 ^ 32 = 2 * q := Nat.mod_eq_of_lt (by omega)
  have ht : 2 * q < 2 ^ 31 := by omega
  obtain ⟨arr1, h3, _, h5⟩ := quad_loop (2 * q) ((List.range (max_ssbo_size / 8 / 16)).map fresh)
    (by simp only [List.length_map, List.length_range]; omega) (by omega)
  have hq : QUADS ≠ TRIANGLES := by decide
  refine ⟨NodeBuffers.mk (max_ssbo_size / 8 / 16) (2 * q) arr1 [arr1, arr1, arr1], ?_, rfl, rfl,
    fun c hc => h5 c (by omega)⟩
  simp only [loadNodesBuffers, if_true, hq, if_false, u32, e, loopBound, ht, h3, Option.map_some']

theorem loadNodesBuffers_quads_witness :
    1024 < 2 ^ 31 ∧ 4 * 2 ≤ 1024 / 8 / 16 ∧
    ∃ b, loadNodesBuffers 1024 QUADS 0 2 0 (fun _ => uvec4.mk 7 7 7 7) = some b ∧
      b.max_node_count_ = 1024 / 8 / 16 ∧
      b.init_node_count_ = 2 * 2 ∧
      ∀ c, c < 2 → b.nodes_array[2 * c]? = some (uvec4.mk 0 1 (4 * c) 0) ∧
        b.nodes_array[2 * c + 1]? = some (uvec4.mk 0 1 (4 * c) 1) :=
  ⟨by decide, by decide,
    loadNodesBuffers_quads 1024 0 2 0 (fun _ => uvec4.mk 7 7 7 7) (by decide) (by decide)⟩

/-! ## Properties of `Init` and `Reinitialize` -/

theorem loadNodesBuffers_shape (m : Nat) (pt : Int) (t q prev : Nat) (fresh : Nat → uvec4)
    (b : NodeBuffers) (h : loadNodesBuffers m pt t q prev fresh = some b) :
    b.max_node_count_ = m / 8 / 16 ∧
      b.nodes_bo_ = [b.nodes_array, b.nodes_array, b.nodes_array] := by
  simp only [loadNodesBuffers, Option.map_eq_some'] at h
  obtain ⟨p, _, rfl⟩ := h
  exact ⟨rfl, rfl⟩

theorem loadNodesBuffers_returns (m : Nat) (pt : Int) (t q prev : Nat) (fresh : Nat → uvec4)
    (hm : m < 2 ^ 31) (hpt : pt = TRIANGLES ∨ pt = QUADS) (hfit : writesFit m pt t q) :
    ∃ b, loadNodesBuffers m pt t q prev fresh = some b ∧
      b.max_node_count_ = m / 8 / 16 ∧
      b.init_node_count_ = initialCount pt t q ∧
      b.nodes_bo_ = [b.nodes_array, b.nodes_array, b.nodes_array] ∧
      ∀ i, i < initialCount pt t q → b.nodes_array[i]? = some (initialNode pt i) := by
  rcases hpt with rfl | rfl
  · simp only [writesFit, if_true] at hfit
    have e : t % 2 ^ 32 = t := Nat.mod_eq_of_lt (by omega)
    have ht : t < 2 ^ 31 := by omega
    obtain ⟨arr1, h3, _, h5⟩ := triangle_loop t ((List.range (m / 8 / 16)).map fresh)
      (by simpa using hfit) (by omega)
    refine ⟨NodeBuffers.mk (m / 8 / 16) t arr1 [arr1, arr1, arr1], ?_, rfl, ?_, rfl, ?_⟩
    · simp only [loadNodesBuffers, if_true, u32, e, loopBound, ht, h3, Option.map_some']
    · simp [initialCount]
    · intro i hi
      simp only [initialCount, if_true] at hi
      simp only [initialNode, if_true]
      exact h5 i hi
  · have hq : QUADS ≠ TRIANGLES := by decide
    simp only [writesFit, hq, if_false] at hfit
    have e : 2 * q % 2 ^ 32 = 2 * q := Nat.mod_eq_of_lt (by omega)
    have ht : 2 * q < 2 ^ 31 := by omega
    obtain ⟨arr1, h3, _, h5⟩ := quad_loop (2 * q) ((List.range (m / 8 / 16)).map fresh)
      (by simp only [List.length_map, List.length_range]; omega) (by omega)
    refine ⟨NodeBuffers.mk (m / 8 / 16) (2 * q) arr1 [arr1, arr1, arr1], ?_, rfl, ?_, rfl, ?_⟩
    · simp only [loadNodesBuffers, if_true, hq, if_false, u32, e, loopBound, ht, h3,
        Option.map_some']
    · simp [initialCount, hq]
    · intro i hi
      simp only [initialCount, hq, if_false] at hi
      simp only [initialNode, hq, if_false]
      obtain ⟨h6, h7⟩ := h5 (i / 2) (by omega)
      rcases Nat.mod_two_eq_zero_or_one i with hp | hp
      · have e2 : 2 * (i / 2) = i := by omega
        rw [e2] at h6
        rw [h6, hp]
      · have e2 : 2 * (i / 2) + 1 = i := by omega
        rw [e2] at h7
        rw [h7, hp]

theorem loadLeafBuffers_returns (L fuel : Nat) (hL : L ≤ 15) (hf : 2 * 2 ^ L + 3 ≤ fuel) :
    loadLeafBuffers fuel L =
      some (.ok (LeafCounts.mk ((2 ^ L + 1) * (2 ^ L + 2) / 2) (3 * 4 ^ L))) := by
  simp only [loadLeafBuffers, getLeafVertices_eq_table L (by omega) fuel hf,
    getLeafIndices_eq_table L (by omega) fuel hf, leafVertexTable_length, leafIndexTable_length]
  rw [Nat.mul_comm (4 ^ L) 3]

theorem floatOfUint_small (n : Nat) (h : n < 2 ^ 24) : floatOfUint n = n := by
  unfold floatOfUint
  rw [if_pos h]

theorem workgroupCount_eq (n : Nat) (h : n < 2 ^ 24) :
    workgroupCount n 512 = ⌈(n : ℚ) / 512⌉₊ := by
  unfold workgroupCount
  rw [floatOfUint_small n h, floatOfUint_small 512 (by norm_num)]
  have h1 : ⌈(n : ℚ) / ((512 : Nat) : ℚ)⌉₊ ≤ n := by
    rw [Nat.ceil_le]
    exact div_le_self (by positivity) (by norm_num)
  push_cast at h1 ⊢
  exact Nat.mod_eq_of_lt (by omega)

theorem ceil_least (n : Nat) :
    n ≤ 512 * ⌈(n : ℚ) / 512⌉₊ ∧ ∀ k : Nat, n ≤ 512 * k → ⌈(n : ℚ) / 512⌉₊ ≤ k := by
  constructor
  · have h := Nat.le_ceil ((n : ℚ) / 512)
    have h2 : (n : ℚ) ≤ 512 * (⌈(n : ℚ) / 512⌉₊ : ℚ) := by linarith
    exact_mod_cast h2
  · intro k hk
    rw [Nat.ceil_le]
    have : (n : ℚ) ≤ 512 * (k : ℚ) := by exact_mod_cast hk
    linarith


theorem loadBuffers_returns (c : Controller) (dev : Device) (fuel : Nat)
    (hL : c.cpu_lod ≤ 15) (hf : 2 * 2 ^ c.cpu_lod + 3 ≤ fuel) (hm : dev.max_ssbo_size < 2 ^ 31)
    (hpt : c.polygon_type = TRIANGLES ∨ c.polygon_type = QUADS)
    (hfit : writesFit dev.max_ssbo_size c.polygon_type c.triangle_count c.quad_count) :
    ∃ arr : List uvec4,
      (∀ i, i < initialCount c.polygon_type c.triangle_count c.quad_count →
        arr[i]? = some (initialNode c.polygon_type i)) ∧
      loadBuffers c dev fuel = some (.ok { c with
        leaf_ := LeafCounts.mk ((2 ^ c.cpu_lod + 1) * (2 ^ c.cpu_lod + 2) / 2) (3 * 4 ^ c.cpu_lod),
        nodes_bo_ := [arr, arr, arr],
        max_node_count_ := dev.max_ssbo_size / 8 / 16,
        init_node_count_ := initialCount c.polygon_type c.triangle_count c.quad_count }) := by
  obtain ⟨b, h1, h2, h3, h4, h5⟩ := loadNodesBuffers_returns dev.max_ssbo_size c.polygon_type
    c.triangle_count c.quad_count c.init_node_count_ dev.fresh hm hpt hfit
  refine ⟨b.nodes_array, h5, ?_⟩
  simp only [loadBuffers, loadLeafBuffers_returns c.cpu_lod fuel hL hf, h1, h2, h3, h4]

theorem Init_returns (c : Controller) (t q : Nat) (pt : Int) (L : Nat) (fz : Bool)
    (dev : Device) (fuel : Nat)
    (hL : L ≤ 15) (hf : 2 * 2 ^ L + 3 ≤ fuel) (hm : dev.max_ssbo_size < 2 ^ 31)
    (hpt : pt = TRIANGLES ∨ pt = QUADS) (hfit : writesFit dev.max_ssbo_size pt t q) :
    ∃ arr : List uvec4,
      (∀ i, i < initialCount pt t q → arr[i]? = some (initialNode pt i)) ∧
      Init c t q pt L fz dev fuel = some (
        { polygon_type := pt, cpu_lod := L, freeze := fz, triangle_count := t, quad_count := q,
          ssbo_idx_ := c.ssbo_idx_, nodes_bo_ := [arr, arr, arr],
          leaf_ := LeafCounts.mk ((2 ^ L + 1) * (2 ^ L + 2) / 2) (3 * 4 ^ L),
          max_node_count_ := dev.max_ssbo_size / 8 / 16,
          init_node_count_ := initialCount pt t q,
          wg_local_size_ := uvec3.mk 512 1 1, wg_local_count_ := 512,
          wg_init_global_count_ := workgroupCount (initialCount pt t q) 512,
          loads := c.loads ++ [Program.compute, Program.copy, Program.render],
          commands_ := if (dev.compute_ok && dev.copy_ok && dev.render_ok) = true
            then [(3 * 4 ^ L, workgroupCount (initialCount pt t q) 512)] else [] },
        if (dev.compute_ok && dev.copy_ok && dev.render_ok) = true then Outcome.returned
        else Outcome.thrown "shader creation error") := by
  have e : u32 (u32 (512 * 1) * 1) = 512 := by decide
  obtain ⟨arr, h1, h2⟩ := loadBuffers_returns
    { c with triangle_count := t, quad_count := q, polygon_type := pt, cpu_lod := L,
             freeze := fz, commands_ := [], wg_local_size_ := uvec3.mk 512 1 1,
             wg_local_count_ := 512 } dev fuel hL hf hm hpt hfit
  simp only at h1 h2
  refine ⟨arr, h1, ?_⟩
  simp only [Init, e, h2, loadPrograms]
  cases dev.compute_ok <;> cases dev.copy_ok <;> cases dev.render_ok <;> simp

theorem Reinitialize_returns (c : Controller) (dev : Device) (fuel : Nat)
    (hL : c.cpu_lod ≤ 15) (hf : 2 * 2 ^ c.cpu_lod + 3 ≤ fuel) (hm : dev.max_ssbo_size < 2 ^ 31)
    (hpt : c.polygon_type = TRIANGLES ∨ c.polygon_type = QUADS)
    (hfit : writesFit dev.max_ssbo_size c.polygon_type c.triangle_count c.quad_count) :
    ∃ arr : List uvec4,
      (∀ i, i < initialCount c.polygon_type c.triangle_count c.quad_count →
        arr[i]? = some (initialNode c.polygon_type i)) ∧
      Reinitialize c dev fuel = some (
        { c with
          leaf_ := LeafCounts.mk ((2 ^ c.cpu_lod + 1) * (2 ^ c.cpu_lod + 2) / 2)
            (3 * 4 ^ c.cpu_lod),
          nodes_bo_ := [arr, arr, arr],
          max_node_count_ := dev.max_ssbo_size / 8 / 16,
          init_node_count_ := initialCount c.polygon_type c.triangle_count c.quad_count,
          loads := c.loads ++ [Program.compute, Program.copy, Program.render],
          commands_ := c.commands_ ++ [(3 * 4 ^ c.cpu_lod, c.wg_init_global_count_)] },
        Outcome.returned) := by
  obtain ⟨arr, h1, h2⟩ := loadBuffers_returns c dev fuel hL hf hm hpt hfit
  refine ⟨arr, h1, ?_⟩
  simp [ Reinitialize, h2, loadPrograms]


/-! ## The three node slots after a load -/

/-- C11 (as stated, refuted): with a block size of 2^27 bytes and a mesh of two
triangles, slot 1 holds the live node (0, 1, 0, 0) in entry 0; it is not
zero-initialized. -/
theorem loadNodesBuffers_slot_one_live :
    ∃ b slot, loadNodesBuffers 134217728 TRIANGLES 2 0 0 (fun _ => uvec4.mk 0 0 0 0) = some b ∧
      b.nodes_bo_[1]? = some slot ∧ slot[0]? = some (uvec4.mk 0 1 0 0) ∧
      uvec4.mk 0 1 0 0 ≠ uvec4.mk 0 0 0 0 := by
  obtain ⟨b, h1, _, _, h4, h5⟩ := loadNodesBuffers_returns 134217728 TRIANGLES 2 0 0
    (fun _ => uvec4.mk 0 0 0 0) (by norm_num) (Or.inl rfl) (by simp [writesFit])
  refine ⟨b, b.nodes_array, h1, by rw [h4]; rfl, ?_, by decide⟩
  have h := h5 0 (by simp [initialCount])
  simpa [initialNode] using h

/-- C11 (amended): after node-store initialization (`loadNodesBuffers`) each of the
three slots 0, 1 and 2 holds a copy of the same host node array; so slots 1 and 2
hold the initial node population in their first `init_node_count_` entries, just
as slot 0 does. -/
theorem loadNodesBuffers_slots (m : Nat) (pt : Int) (t q prev : Nat) (fresh : Nat → uvec4)
    (hm : m < 2 ^ 31) (hpt : pt = TRIANGLES ∨ pt = QUADS) (hfit : writesFit m pt t q) :
    ∃ b, loadNodesBuffers m pt t q prev fresh = some b ∧
      b.nodes_bo_.length = 3 ∧
      b.init_node_count_ = initialCount pt t q ∧
      ∀ k, k < 3 → ∃ slot, b.nodes_bo_[k]? = some slot ∧ slot = b.nodes_array ∧
        ∀ i, i < b.init_node_count_ → slot[i]? = some (initialNode pt i) := by
  obtain ⟨b, h1, _, h3, h4, h5⟩ := loadNodesBuffers_returns m pt t q prev fresh hm hpt hfit
  refine ⟨b, h1, by rw [h4]; rfl, h3, ?_⟩
  intro k hk
  refine ⟨b.nodes_array, ?_, rfl, fun i hi => h5 i (by rw [← h3]; exact hi)⟩
  rw [h4]
  interval_cases k <;> rfl

theorem loadNodesBuffers_slots_witness :
    1024 < 2 ^ 31 ∧ (TRIANGLES = TRIANGLES ∨ TRIANGLES = QUADS) ∧ writesFit 1024 TRIANGLES 3 0 ∧
    ∃ b, loadNodesBuffers 1024 TRIANGLES 3 0 0 (fun _ => uvec4.mk 7 7 7 7) = some b ∧
      b.nodes_bo_.length = 3 ∧
      b.init_node_count_ = initialCount TRIANGLES 3 0 ∧
      ∀ k, k < 3 → ∃ slot, b.nodes_bo_[k]? = some slot ∧ slot = b.nodes_array ∧
        ∀ i, i < b.init_node_count_ → slot[i]? = some (initialNode TRIANGLES i) :=
  ⟨by decide, Or.inl rfl, by simp [writesFit],
    loadNodesBuffers_slots 1024 TRIANGLES 3 0 0 (fun _ => uvec4.mk 7 7 7 7) (by decide)
      (Or.inl rfl) (by simp [writesFit])⟩

/-- C13 (as stated, refuted): for a reported block size of 2^27 bytes the capacity
is 1048576 nodes, not 2^27 / 16 = 8388608. -/
theorem max_node_count_block_2_27 :
    ∃ b, loadNodesBuffers 134217728 TRIANGLES 0 0 0 (fun _ => uvec4.mk 0 0 0 0) = some b ∧
      b.max_node_count_ = 1048576 ∧ b.max_node_count_ ≠ 134217728 / 16 := by
  obtain ⟨b, h1, h2, _⟩ := loadNodesBuffers_returns 134217728 TRIANGLES 0 0 0
    (fun _ => uvec4.mk 0 0 0 0) (by norm_num) (Or.inl rfl) (by simp [writesFit])
  refine ⟨b, h1, by rw [h2], by rw [h2]; decide⟩

/-- C13 (amended): the node-store capacity `max_node_count_` computed by
`loadNodesBuffers` equals the device's maximum shader-storage block size divided
by 8 and then by the node size of 16 bytes (integer divisions), for every reported
maximum block size: the call returns with that capacity for an empty mesh, and
every call that returns has set that capacity. -/
theorem loadNodesBuffers_max_node_count (m : Nat) (pt : Int) (t q prev : Nat)
    (fresh : Nat → uvec4) :
    (∃ b, loadNodesBuffers m TRIANGLES 0 q prev fresh = some b ∧
      b.max_node_count_ = m / 8 / 16) ∧
    (∀ b, loadNodesBuffers m pt t q prev fresh = some b → b.max_node_count_ = m / 8 / 16) := by
  constructor
  · refine ⟨NodeBuffers.mk (m / 8 / 16) 0 ((List.range (m / 8 / 16)).map fresh)
      [(List.range (m / 8 / 16)).map fresh, (List.range (m / 8 / 16)).map fresh,
        (List.range (m / 8 / 16)).map fresh], ?_, rfl⟩
    simp [loadNodesBuffers, u32, loopBound]
  · intro b h
    exact (loadNodesBuffers_shape m pt t q prev fresh b h).1


theorem draw_after_rotation (n : Nat) :
    (Draw (State.mk false (rolesAfter n))).2 =
      [Pass.compute (((n + 1) % 3 : Nat) : Int) (((n + 2) % 3 : Nat) : Int) ((n % 3 : Nat) : Int),
       Pass.copy, Pass.render ((n % 3 : Nat) : Int)] := by
  have h := pingpong_iterate_next n
  simp only [Draw, Bool.false_eq_true, if_false, rolesAfter, h]

theorem three_slots (arr : List uvec4) (n : Nat) :
    [arr, arr, arr][((((n + 1) % 3 : Nat) : Int)).toNat]? = some arr := by
  rw [Int.toNat_natCast]
  have h : (n + 1) % 3 < 3 := Nat.mod_lt _ (by norm_num)
  interval_cases (n + 1) % 3 <;> rfl

/-- C12: after `Init` or `Reinitialize`, whatever rotation state (the state after
any number n of `pingpong()` calls) the controller is in, the slot that the next
non-frozen `Draw` binds as the read slot of the compute pass holds the initial
node population (one node per triangle, or two per quad) in its first
`init_node_count_` entries. -/
theorem read_slot_holds_initial_population (c : Controller) (n : Nat) (t q : Nat) (pt : Int)
    (L : Nat) (fz : Bool) (dev : Device) (fuel : Nat)
    (hrot : c.ssbo_idx_ = rolesAfter n)
    (hL : L ≤ 15) (hf : 2 * 2 ^ L + 3 ≤ fuel) (hm : dev.max_ssbo_size < 2 ^ 31)
    (hpt : pt = TRIANGLES ∨ pt = QUADS) (hfit : writesFit dev.max_ssbo_size pt t q) :
    (∃ c1 o r wf wc slot, Init c t q pt L fz dev fuel = some (c1, o) ∧
      (Draw (State.mk false c1.ssbo_idx_)).2 = [Pass.compute r wf wc, Pass.copy, Pass.render wc] ∧
      c1.nodes_bo_[r.toNat]? = some slot ∧
      c1.init_node_count_ = initialCount pt t q ∧
      ∀ i, i < c1.init_node_count_ → slot[i]? = some (initialNode pt i)) ∧
    (∃ c1 r wf wc slot,
      Reinitialize (Controller.mk pt L fz t q c.ssbo_idx_ c.nodes_bo_ c.leaf_ c.max_node_count_
        c.init_node_count_ c.wg_local_size_ c.wg_local_count_ c.wg_init_global_count_ c.loads
        c.commands_) dev fuel = some (c1, Outcome.returned) ∧
      (Draw (State.mk false c1.ssbo_idx_)).2 = [Pass.compute r wf wc, Pass.copy, Pass.render wc] ∧
      c1.nodes_bo_[r.toNat]? = some slot ∧
      c1.init_node_count_ = initialCount pt t q ∧
      ∀ i, i < c1.init_node_count_ → slot[i]? = some (initialNode pt i)) := by
  constructor
  · obtain ⟨arr, h1, h2⟩ := Init_returns c t q pt L fz dev fuel hL hf hm hpt hfit
    refine ⟨_, _, (((n + 1) % 3 : Nat) : Int), (((n + 2) % 3 : Nat) : Int), ((n % 3 : Nat) : Int),
      arr, h2, ?_, ?_, rfl, h1⟩
    · simp only [hrot]
      exact draw_after_rotation n
    · exact three_slots arr n
  · obtain ⟨arr, h1, h2⟩ := Reinitialize_returns
      (Controller.mk pt L fz t q c.ssbo_idx_ c.nodes_bo_ c.leaf_ c.max_node_count_
        c.init_node_count_ c.wg_local_size_ c.wg_local_count_ c.wg_init_global_count_ c.loads
        c.commands_) dev fuel hL hf hm hpt hfit
    refine ⟨_, (((n + 1) % 3 : Nat) : Int), (((n + 2) % 3 : Nat) : Int), ((n % 3 : Nat) : Int),
      arr, h2, ?_, ?_, rfl, h1⟩
    · simp only [hrot]
      exact draw_after_rotation n
    · exact three_slots arr n


theorem read_slot_holds_initial_population_witness :
    Controller.constructed.ssbo_idx_ = rolesAfter 0 ∧
    ∃ c1 o, Init Controller.constructed 3 0 TRIANGLES 1 false
      (Device.typical true true true) 7 = some (c1, o) :=
  ⟨rfl, by
    obtain ⟨⟨c1, o, _, _, _, _, h, _⟩, _⟩ := read_slot_holds_initial_population
      Controller.constructed 0 3 0 TRIANGLES 1 false (Device.typical true true true) 7
      rfl (by decide) (by decide) (by simp [Device.typical]) (Or.inl rfl)
      (by simp [writesFit, Device.typical])
    exact ⟨c1, o, h⟩⟩

/-! ## Workgroup count and program loads -/

theorem initialCount_lt (m : Nat) (pt : Int) (t q : Nat) (hm : m < 2 ^ 31)
    (hfit : writesFit m pt t q) : initialCount pt t q < 2 ^ 24 := by
  unfold writesFit at hfit
  unfold initialCount
  split_ifs at hfit ⊢ <;> omega

theorem Init_workgroup_count (c : Controller) (t q : Nat) (pt : Int) (L : Nat) (fz : Bool)
    (dev : Device) (fuel : Nat)
    (hL : L ≤ 15) (hf : 2 * 2 ^ L + 3 ≤ fuel) (hm : dev.max_ssbo_size < 2 ^ 31)
    (hpt : pt = TRIANGLES ∨ pt = QUADS) (hfit : writesFit dev.max_ssbo_size pt t q) :
    ∃ c1 o, Init c t q pt L fz dev fuel = some (c1, o) ∧
      c1.wg_init_global_count_ = ⌈(c1.init_node_count_ : ℚ) / 512⌉₊ ∧
      c1.init_node_count_ ≤ 512 * c1.wg_init_global_count_ ∧
      (∀ k : Nat, c1.init_node_count_ ≤ 512 * k → c1.wg_init_global_count_ ≤ k) ∧
      (o = Outcome.returned →
        c1.commands_ = [(c1.leaf_.idx_count, c1.wg_init_global_count_)]) := by
  obtain ⟨arr, _, h2⟩ := Init_returns c t q pt L fz dev fuel hL hf hm hpt hfit
  have hw := workgroupCount_eq (initialCount pt t q)
    (initialCount_lt dev.max_ssbo_size pt t q hm hfit)
  have hc := ceil_least (initialCount pt t q)
  refine ⟨_, _, h2, hw, ?_, ?_, ?_⟩
  · simp only [hw]; exact hc.1
  · simp only [hw]; exact hc.2
  · intro ho
    by_cases hok : (dev.compute_ok && dev.copy_ok && dev.render_ok) = true
    · simp only [hok, if_true]
    · simp only [hok, if_false] at ho
      cases ho

theorem workgroupCount_1000 : workgroupCount 1000 512 = 2 := by
  rw [workgroupCount_eq 1000 (by norm_num), Nat.ceil_eq_iff (by norm_num)]
  norm_num

theorem workgroupCount_200 : workgroupCount 200 512 = 1 := by
  rw [workgroupCount_eq 200 (by norm_num), Nat.ceil_eq_iff (by norm_num)]
  norm_num

/-- C17 (the code at the failing input): `Init` on a mesh of 1000 triangles and
100 quads with polygon type QUADS sets `init_node_count_` to 200 and hands 1
workgroup to `commands_->Init`; after the polygon type is switched to TRIANGLES,
`Reinitialize` sets `init_node_count_` to 1000, for which two workgroups are the
ceiling, and hands the old value 1 to `commands_->Init`, so that 512 * 1 falls
short of the 1000 initial nodes. -/
theorem reinitialize_keeps_workgroup_count :
    ∃ c1 c2, Init Controller.constructed 1000 100 QUADS 0 false
        (Device.typical true true true) 5 = some (c1, Outcome.returned) ∧
      c1.init_node_count_ = 200 ∧ c1.commands_ = [(3, 1)] ∧
      Reinitialize (c1.setPolygonType TRIANGLES) (Device.typical true true true) 5 =
        some (c2, Outcome.returned) ∧
      c2.init_node_count_ = 1000 ∧ c2.commands_ = [(3, 1), (3, 1)] ∧
      ⌈((1000 : Nat) : ℚ) / 512⌉₊ = 2 ∧ 512 * 1 < c2.init_node_count_ := by
  obtain ⟨arr, _, h2⟩ := Init_returns Controller.constructed 1000 100 QUADS 0 false
    (Device.typical true true true) 5 (by norm_num) (by norm_num)
    (by simp [Device.typical]) (Or.inr rfl)
    (by simp [writesFit, Device.typical, QUADS, TRIANGLES])
  have e1 : initialCount QUADS 1000 100 = 200 := by simp [initialCount, QUADS, TRIANGLES]
  simp only [e1, workgroupCount_200, Device.typical, Bool.and_self, if_true, pow_zero,
    mul_one] at h2
  obtain ⟨arr2, _, h4⟩ := Reinitialize_returns
    (Controller.setPolygonType
      { polygon_type := QUADS, cpu_lod := 0, freeze := false, triangle_count := 1000,
        quad_count := 100, ssbo_idx_ := Controller.constructed.ssbo_idx_,
        nodes_bo_ := [arr, arr, arr],
        leaf_ := LeafCounts.mk ((1 + 1) * (1 + 2) / 2) 3,
        max_node_count_ := 134217728 / 8 / 16, init_node_count_ := 200,
        wg_local_size_ := uvec3.mk 512 1 1, wg_local_count_ := 512,
        wg_init_global_count_ := 1,
        loads := Controller.constructed.loads ++ [Program.compute, Program.copy, Program.render],
        commands_ := [(3, 1)] } TRIANGLES)
    (Device.typical true true true) 5 (by simp [Controller.setPolygonType])
    (by simp [Controller.setPolygonType]) (by simp [Device.typical]) (Or.inl rfl)
    (by simp [writesFit, Device.typical, Controller.setPolygonType])
  have e2 : initialCount TRIANGLES 1000 100 = 1000 := by simp [initialCount]
  simp only [Controller.setPolygonType, e2, Device.typical, pow_zero, mul_one] at h4
  refine ⟨_, _, h2, rfl, rfl, h4, rfl, rfl, ?_, by norm_num⟩
  rw [Nat.ceil_eq_iff (by norm_num)]
  norm_num

/-- C18: when `Init` gets through its buffer loads, all three program loads are
attempted, and `Init` throws `shader creation error` exactly when one of them
failed; in that case nothing has been handed to `commands_->Init`, and otherwise
exactly one call has. -/
theorem Init_shader_creation_error (c : Controller) (t q : Nat) (pt : Int) (L : Nat)
    (fz : Bool) (dev : Device) (fuel : Nat)
    (hL : L ≤ 15) (hf : 2 * 2 ^ L + 3 ≤ fuel) (hm : dev.max_ssbo_size < 2 ^ 31)
    (hpt : pt = TRIANGLES ∨ pt = QUADS) (hfit : writesFit dev.max_ssbo_size pt t q) :
    ∃ c1 o, Init c t q pt L fz dev fuel = some (c1, o) ∧
      c1.loads = c.loads ++ [Program.compute, Program.copy, Program.render] ∧
      (o = Outcome.thrown "shader creation error" ↔
        (dev.compute_ok = false ∨ dev.copy_ok = false ∨ dev.render_ok = false)) ∧
      (o = Outcome.returned ↔
        (dev.compute_ok = true ∧ dev.copy_ok = true ∧ dev.render_ok = true)) ∧
      (o = Outcome.thrown "shader creation error" → c1.commands_ = []) ∧
      (o = Outcome.returned → c1.commands_.length = 1) := by
  obtain ⟨arr, _, h2⟩ := Init_returns c t q pt L fz dev fuel hL hf hm hpt hfit
  refine ⟨_, _, h2, rfl, ?_, ?_, ?_, ?_⟩ <;>
    cases dev.compute_ok <;> cases dev.copy_ok <;> cases dev.render_ok <;> simp

theorem Init_shader_creation_error_witness :
    ∃ c1, Init Controller.constructed 3 0 TRIANGLES 1 false
      (Device.typical true false true) 7 =
        some (c1, Outcome.thrown "shader creation error") ∧ c1.commands_ = [] := by
  obtain ⟨c1, o, h, _, ht, _, hc, _⟩ := Init_shader_creation_error
    Controller.constructed 3 0 TRIANGLES 1 false (Device.typical true false true) 7
    (by decide) (by decide) (by simp [Device.typical]) (Or.inl rfl)
    (by simp [writesFit, Device.typical])
  have ho : o = Outcome.thrown "shader creation error" := ht.2 (Or.inr (Or.inl rfl))
  subst ho
  exact ⟨c1, h, hc rfl⟩

/-- C19 (the code at the failing input): after a successful `Init`, a
`Reinitialize` whose compute program fails to load still attempts all three
loads, returns normally and hands a further call to `commands_->Init`; and
`ReloadShaders` with the same failing load returns normally too. -/
theorem reinitialize_ignores_load_failure :
    ∃ c1 c2 c3, Init Controller.constructed 1000 100 TRIANGLES 0 false
        (Device.typical true true true) 5 = some (c1, Outcome.returned) ∧
      Reinitialize c1 (Device.typical false true true) 5 = some (c2, Outcome.returned) ∧
      c2.loads = c1.loads ++ [Program.compute, Program.copy, Program.render] ∧
      c2.commands_ = c1.commands_ ++ [(3, 2)] ∧
      ReloadShaders c1 (Device.typical false true true) = (c3, Outcome.returned) ∧
      c3.loads = c1.loads ++ [Program.compute, Program.copy, Program.render] ∧
      (loadPrograms c1 (Device.typical false true true)).2 = false := by
  obtain ⟨arr, _, h2⟩ := Init_returns Controller.constructed 1000 100 TRIANGLES 0 false
    (Device.typical true true true) 5 (by norm_num) (by norm_num)
    (by simp [Device.typical]) (Or.inl rfl) (by simp [writesFit, Device.typical])
  have e1 : initialCount TRIANGLES 1000 100 = 1000 := by simp [initialCount]
  simp only [e1, workgroupCount_1000, Device.typical, Bool.and_self, if_true, pow_zero,
    mul_one] at h2
  obtain ⟨arr2, _, h4⟩ := Reinitialize_returns
      { polygon_type := TRIANGLES, cpu_lod := 0, freeze := false, triangle_count := 1000,
        quad_count := 100, ssbo_idx_ := Controller.constructed.ssbo_idx_,
        nodes_bo_ := [arr, arr, arr],
        leaf_ := LeafCounts.mk ((1 + 1) * (1 + 2) / 2) 3,
        max_node_count_ := 134217728 / 8 / 16, init_node_count_ := 1000,
        wg_local_size_ := uvec3.mk 512 1 1, wg_local_count_ := 512,
        wg_init_global_count_ := 2,
        loads := Controller.constructed.loads ++ [Program.compute, Program.copy, Program.render],
        commands_ := [(3, 2)] }
    (Device.typical false true true) 5 (by simp)
    (by simp) (by simp [Device.typical]) (Or.inl rfl)
    (by simp [writesFit, Device.typical])
  simp only [Device.typical, pow_zero, mul_one] at h4
  refine ⟨_, _, _, h2, h4, rfl, rfl, rfl, rfl, rfl⟩

/-! ## Uploading the settings -/

theorem stable_comp (F G : Uniforms → Uniforms) (p : Nat) (n : String)
    (hF : (∀ u, F u p n = u p n) ∨ ∃ w, ∀ u, F u p n = w)
    (hG : (∀ u, G u p n = u p n) ∨ ∃ w, ∀ u, G u p n = w) :
    (∀ u, G (F u) p n = u p n) ∨ ∃ w, ∀ u, G (F u) p n = w := by
  rcases hG with hG | ⟨w, hG⟩
  · rcases hF with hF | ⟨w, hF⟩
    · exact Or.inl fun u => (hG (F u)).trans (hF u)
    · exact Or.inr ⟨w, fun u => (hG (F u)).trans (hF u)⟩
  · exact Or.inr ⟨w, fun u => hG (F u)⟩

theorem SetUniformBool_stable (pid : Nat) (name : String) (v : Bool) (p : Nat) (n : String) :
    (∀ u, SetUniformBool u pid name v p n = u p n) ∨
      ∃ w, ∀ u, SetUniformBool u pid name v p n = w := by
  unfold SetUniformBool
  by_cases h : p = pid ∧ n = name
  · exact Or.inr ⟨_, fun u => if_pos h⟩
  · exact Or.inl fun u => if_neg h

theorem SetUniformInt_stable (pid : Nat) (name : String) (v : Int) (p : Nat) (n : String) :
    (∀ u, SetUniformInt u pid name v p n = u p n) ∨
      ∃ w, ∀ u, SetUniformInt u pid name v p n = w := by
  unfold SetUniformInt
  by_cases h : p = pid ∧ n = name
  · exact Or.inr ⟨_, fun u => if_pos h⟩
  · exact Or.inl fun u => if_neg h

theorem SetUniformFloat_stable (pid : Nat) (name : String) (v : FloatBits) (p : Nat)
    (n : String) :
    (∀ u, SetUniformFloat u pid name v p n = u p n) ∨
      ∃ w, ∀ u, SetUniformFloat u pid name v p n = w := by
  unfold SetUniformFloat
  by_cases h : p = pid ∧ n = name
  · exact Or.inr ⟨_, fun u => if_pos h⟩
  · exact Or.inl fun u => if_neg h

theorem Upload_stable (s : Settings) (pid p : Nat) (n : String) :
    (∀ u, (s.Upload pid u).2 p n = u p n) ∨ ∃ w, ∀ u, (s.Upload pid u).2 p n = w := by
  have h1 := SetUniformBool_stable pid "u_uniform_subdiv" s.uniform_on p n
  have h2 := stable_comp _ _ p n h1 (SetUniformInt_stable pid "u_uniform_level" s.uniform_lvl p n)
  have h3 := stable_comp _ _ p n h2 (SetUniformFloat_stable pid "u_lod_factor" s.lod_factor p n)
  have h4 := stable_comp _ _ p n h3
    (SetUniformFloat_stable pid "u_target_edge_length" s.target_length p n)
  have h5 := stable_comp _ _ p n h4
    (SetUniformFloat_stable pid "u_displace_factor" s.displace_factor p n)
  have h6 := stable_comp _ _ p n h5 (SetUniformInt_stable pid "u_color_mode" s.color_mode p n)
  have h7 := stable_comp _ _ p n h6 (SetUniformBool_stable pid "u_render_MVP" s.MVP_on p n)
  have h8 := stable_comp _ _ p n h7 (SetUniformInt_stable pid "u_cpu_lod" s.cpu_lod p n)
  exact stable_comp _ _ p n h8 (SetUniformFloat_stable pid "u_itpl_alpha" s.itpl_alpha p n)

theorem UploadSettings_stable (s : Settings) (cp rp p : Nat) (n : String) :
    (∀ u, (UploadSettings s cp rp u).2 p n = u p n) ∨
      ∃ w, ∀ u, (UploadSettings s cp rp u).2 p n = w :=
  stable_comp (fun u => (s.Upload cp u).2) (fun u => (s.Upload rp u).2) p n
    (Upload_stable s cp p n) (Upload_stable s rp p n)

theorem Upload_cpu_lod (s : Settings) (pid : Nat) (u : Uniforms) :
    (s.Upload pid u).2 pid "u_cpu_lod" = some (UniformValue.int s.cpu_lod) := by
  simp [Settings.Upload, SetUniformInt, SetUniformFloat]

theorem Upload_other (s : Settings) (pid p : Nat) (n : String) (u : Uniforms) (h : p ≠ pid) :
    (s.Upload pid u).2 p n = u p n := by
  simp [Settings.Upload, SetUniformInt, SetUniformFloat, SetUniformBool, h]

theorem UploadSettings_cpu_lod (s : Settings) (cp rp : Nat) (u : Uniforms) :
    (UploadSettings s cp rp u).2 cp "u_cpu_lod" = some (UniformValue.int s.cpu_lod) ∧
    (UploadSettings s cp rp u).2 rp "u_cpu_lod" = some (UniformValue.int s.cpu_lod) := by
  refine ⟨?_, Upload_cpu_lod s rp _⟩
  by_cases h : cp = rp
  · subst h; exact Upload_cpu_lod s cp _
  · exact (Upload_other s rp cp _ _ h).trans (Upload_cpu_lod s cp u)

/-- C20: `UploadSettings` returns the settings object with every field as it
was, and a second `UploadSettings` right after the first leaves the uniform
state of every program as the first call left it; the call does write: both
programs then hold `settings.cpu_lod` under `u_cpu_lod`. -/
theorem UploadSettings_idempotent (s : Settings) (cp rp : Nat) (u : Uniforms) :
    (UploadSettings s cp rp u).1 = s ∧
    (UploadSettings (UploadSettings s cp rp u).1 cp rp (UploadSettings s cp rp u).2).2 =
      (UploadSettings s cp rp u).2 ∧
    (UploadSettings s cp rp u).2 cp "u_cpu_lod" = some (UniformValue.int s.cpu_lod) ∧
    (UploadSettings s cp rp u).2 rp "u_cpu_lod" = some (UniformValue.int s.cpu_lod) := by
  refine ⟨rfl, ?_, UploadSettings_cpu_lod s cp rp u⟩
  funext p n
  show (UploadSettings s cp rp (UploadSettings s cp rp u).2).2 p n = _
  rcases UploadSettings_stable s cp rp p n with h | ⟨w, h⟩
  · exact h _
  · exact (h _).trans (h u).symm

/-! ## The resolution passed to `UpdateLodFactor` -/

/-- C16 (the claim fails): after a resize to 1152 by 1000 with a GUI 352 wide the
render area is 800 by 1000; `resizeCallback` passes 800 to `UpdateLodFactor`,
while the maximum of width and height, which it passes to `UpdateScreenRes`, is
1000. -/
theorem resizeCallback_passes_width :
    (Main.resizeCallback
      (OpenGLApp.mk 352 1024 0 false (CameraManager.mk 1024 1024 (FloatBits.mk 0)))
      1152 1000).2 =
      [QuadtreeCall.UpdateScreenRes 1000, QuadtreeCall.UpdateLodFactor 800 (FloatBits.mk 0),
       QuadtreeCall.UploadSettings] ∧
    lodResolutions (Main.resizeCallback
      (OpenGLApp.mk 352 1024 0 false (CameraManager.mk 1024 1024 (FloatBits.mk 0)))
      1152 1000).2 = [800] ∧
    max (800 : Int) 1000 = 1000 := by
  decide

/-- C16 (amended): at every call site of `main.cpp` the resolution passed to
`UpdateLodFactor` is the render width of the camera at that moment: in `Init`,
in `resizeCallback`, for every widget of `RenderImgui` and in the automatic LOD
block of `Draw`; the sites named in the claim each make exactly one such call. -/
theorem lod_resolution_is_render_width (app : OpenGLApp) (mode : Nat) (cam1 : CameraManager)
    (new_width new_height : Int) (ev : GuiEvent) (uniform_on fast slow : Bool) :
    lodResolutions (Main.Init app mode cam1).2 = [cam1.render_width] ∧
    lodResolutions (Main.resizeCallback app new_width new_height).2 =
      [new_width - app.gui_width] ∧
    (Main.resizeCallback app new_width new_height).1.cam.render_width =
      new_width - app.gui_width ∧
    (∀ r ∈ lodResolutions (Main.RenderImgui app ev cam1).2,
      r = (Main.RenderImgui app ev cam1).1.cam.render_width) ∧
    lodResolutions (Main.RenderImgui app GuiEvent.fov cam1).2 = [cam1.render_width] ∧
    lodResolutions (Main.RenderImgui app GuiEvent.edgeLength cam1).2 =
      [app.cam.render_width] ∧
    lodResolutions (Main.RenderImgui app GuiEvent.cpuLod cam1).2 = [app.cam.render_width] ∧
    (∀ r ∈ lodResolutions (Main.Draw app uniform_on fast slow).2,
      r = app.cam.render_width) ∧
    lodResolutions (Main.Draw (OpenGLApp.mk app.gui_width app.gui_height app.mode true app.cam)
      false true slow).2 = [app.cam.render_width] := by
  refine ⟨rfl, rfl, rfl, ?_, rfl, rfl, rfl, ?_, rfl⟩
  · cases ev <;>
      simp [Main.RenderImgui, Main.updateRenderParams, lodResolutions]
  · unfold Main.Draw
    split_ifs <;> simp [lodResolutions]

/-! ## The calls of `new_triangle`: orientation and index range -/

theorem new_triangle_uint (e nc o : Nat) (ho : o < 4) :
    new_triangle e nc o = .ok (uintTriangleAt e nc o) := by
  interval_cases o <;> simp [new_triangle, uintTriangleAt]

theorem pushTriangle_uint (ind : List uvec3) (col row e nc o : Nat) (ho : o < 4) :
    pushTriangle (IndexState.mk ind col row e nc o) =
      .ok (IndexState.mk (ind ++ [uintTriangleAt e nc o]) col row e nc ((o + 1) % 4)) := by
  have e1 : (o + 1) % 4294967296 = o + 1 := Nat.mod_eq_of_lt (by omega)
  simp [pushTriangle, new_triangle_uint _ _ _ ho, u32, e1]

theorem u32_succ (x : Nat) : u32 (u32 x + 1) = u32 (x + 1) := by
  simp only [u32]
  omega

theorem colBody_uint (ind : List uvec3) (row r c : Nat) (hr : r < 2 ^ 31) (hc : c ≤ r) :
    colBody (IndexState.mk ind c row (u32 (triNum r + c)) (r + 1) (orientationAt r c)) =
      .ok (IndexState.mk (ind ++ (columnEmissions r c).map Emission.triangle) (c + 1) row
        (u32 (triNum r + (c + 1))) (r + 1) (orientationAt r (c + 1))) := by
  have ho := orientationAt_lt r c
  have e1 : (c + 1) % 4294967296 = c + 1 := Nat.mod_eq_of_lt (by omega)
  have e2 := u32_succ (triNum r + c)
  rcases Nat.eq_zero_or_pos c with h0 | h0
  · subst h0
    rw [colBody, pushTriangle_uint _ _ _ _ _ _ ho]
    simp only [gt_iff_lt, lt_self_iff_false, if_false, e2]
    simp [columnEmissions, Emission.triangle, orientationAt_succ, u32]
  · have hc0 : c ≠ 0 := by omega
    rw [colBody, pushTriangle_uint _ _ _ _ _ _ ho]
    simp only [gt_iff_lt, h0, if_true]
    rw [pushTriangle_uint _ _ _ _ _ _ (Nat.mod_lt _ (by norm_num))]
    simp only [e2]
    simp [columnEmissions, Emission.triangle, orientationAt_succ, u32, hc0, e1, add_assoc]


theorem colLoop_uint (row r : Nat) (hr : r < 2 ^ 31) :
    ∀ (m c fuel : Nat) (ind : List uvec3), c + m = r + 1 → m + 1 ≤ fuel →
      colLoop fuel (IndexState.mk ind c row (u32 (triNum r + c)) (r + 1) (orientationAt r c)) =
        some (.ok (IndexState.mk
          (ind ++ ((List.range' c m).flatMap (columnEmissions r)).map Emission.triangle)
          (r + 1) row (u32 (triNum r + (r + 1))) (r + 1) (orientationAt r (r + 1)))) := by
  intro m
  induction m with
  | zero =>
    intro c fuel ind hc hf
    obtain ⟨f, rfl⟩ : ∃ f, fuel = f + 1 := ⟨fuel - 1, by omega⟩
    have e : c = r + 1 := by omega
    subst e
    simp [colLoop]
  | succ m ih =>
    intro c fuel ind hc hf
    obtain ⟨f, rfl⟩ : ∃ f, fuel = f + 1 := ⟨fuel - 1, by omega⟩
    have hlt : c < r + 1 := by omega
    rw [colLoop]
    simp only [hlt, if_true]
    rw [colBody_uint ind row r c hr (by omega)]
    simp only
    rw [ih (c + 1) f _ (by omega) (by omega)]
    simp [List.range'_succ]

theorem rowLoop_uint (n : Nat) (hn : n ≤ 2 ^ 31) :
    ∀ (m r fuel : Nat) (ind : List uvec3) (o : Nat), r + m = n → 2 * n + 3 ≤ fuel + r →
      ∃ o1, rowLoop n fuel (IndexState.mk ind 0 r (u32 (triNum r)) (r + 1) o) =
        some (.ok (IndexState.mk
          (ind ++ ((List.range' r m).flatMap rowEmissions).map Emission.triangle)
          0 n (u32 (triNum n)) (n + 1) o1)) := by
  intro m
  induction m with
  | zero =>
    intro r fuel ind o hr hf
    obtain ⟨f, rfl⟩ : ∃ f, fuel = f + 1 := ⟨fuel - 1, by omega⟩
    have e : r = n := by omega
    subst e
    exact ⟨o, by simp [rowLoop]⟩
  | succ m ih =>
    intro r fuel ind o hr hf
    obtain ⟨f, rfl⟩ : ∃ f, fuel = f + 1 := ⟨fuel - 1, by omega⟩
    have hlt : r < n := by omega
    have h0 := colLoop_uint r r (by omega) (r + 1) 0 f ind (by omega) (by omega)
    rw [orientationAt_zero, Nat.add_zero] at h0
    have e1 : (r + 1 + 1) % 2 ^ 32 = r + 1 + 1 := Nat.mod_eq_of_lt (by omega)
    have e2 : (r + 1) % 2 ^ 32 = r + 1 := Nat.mod_eq_of_lt (by omega)
    obtain ⟨o1, h1⟩ := ih (r + 1) f
      (ind ++ ((List.range' 0 (r + 1)).flatMap (columnEmissions r)).map Emission.triangle)
      (orientationAt r (r + 1)) (by omega) (by omega)
    refine ⟨o1, ?_⟩
    rw [rowLoop]
    simp only [hlt, if_true]
    have e3 : (if r % 2 = 0 then 0 else 2) = startOrientation r := rfl
    rw [e3, h0]
    simp only [u32, e1, e2]
    simp only [u32] at h1
    rw [← triNum_succ, h1]
    simp [List.range'_succ, rowEmissions, List.range_eq_range']

theorem intToUint_shl1 (L : Nat) (hL : L ≤ 31) :
    ∃ n : Int, shl1 L = some n ∧ intToUint n = 2 ^ L := by
  rcases Nat.lt_or_ge L 31 with h | h
  · exact ⟨2 ^ L, shl1_of_lt h, intToUint_pow L (by omega)⟩
  · have e : L = 31 := by omega
    subst e
    exact ⟨-(2 ^ 31), by simp [shl1], by decide⟩

theorem getLeafIndices_uint (L : Nat) (hL : L ≤ 31) (fuel : Nat)
    (hf : 2 * 2 ^ L + 3 ≤ fuel) :
    getLeafIndices fuel L = some (.ok ((emissions (2 ^ L)).map Emission.triangle)) := by
  have hn : 2 ^ L ≤ 2 ^ 31 := Nat.pow_le_pow_right (by norm_num) hL
  obtain ⟨o1, h⟩ := rowLoop_uint (2 ^ L) hn (2 ^ L) 0 fuel [] 0 (by omega) (by omega)
  have e : u32 (triNum 0) = 0 := rfl
  rw [e] at h
  obtain ⟨n, h1, h2⟩ := intToUint_shl1 L hL
  simp only [getLeafIndices, h1, h2]
  rw [h]
  simp [emissions, List.range_eq_range']


theorem mem_columnEmissions (r c : Nat) (e : Emission) (h : e ∈ columnEmissions r c) :
    e.col = c ∧ e.elem = u32 (triNum r + c) ∧ e.num_col = r + 1 ∧
      (e.orientation = orientationAt r c ∨
        (0 < c ∧ e.orientation = (orientationAt r c + 1) % 4)) := by
  unfold columnEmissions at h
  split_ifs at h with hc
  · simp only [List.mem_singleton] at h
    subst h
    exact ⟨rfl, rfl, rfl, Or.inl rfl⟩
  · simp only [List.mem_cons, List.mem_singleton, List.mem_nil_iff, or_false] at h
    rcases h with h | h <;> subst h
    · exact ⟨rfl, rfl, rfl, Or.inl rfl⟩
    · exact ⟨rfl, rfl, rfl, Or.inr ⟨by omega, rfl⟩⟩

theorem mem_emissions (n : Nat) (e : Emission) :
    e ∈ emissions n ↔ ∃ r c, r < n ∧ c ≤ r ∧ e ∈ columnEmissions r c := by
  simp only [emissions, rowEmissions, List.mem_flatMap, List.mem_range]
  constructor
  · rintro ⟨r, hr, c, hc, h⟩
    exact ⟨r, c, hr, by omega, h⟩
  · rintro ⟨r, c, hr, hc, h⟩
    exact ⟨r, hr, c, by omega, h⟩

/-- At level 32 the shift `1 << level` has no defined value, and no run of
`getLeafIndices(32)` returns a list. -/
theorem getLeafIndices_level_32 :
    ¬ ∃ fuel tris, getLeafIndices fuel 32 = some (.ok tris) := by
  rintro ⟨fuel, tris, h⟩
  simp [getLeafIndices, shl1] at h

theorem emission_exact (n : Nat) (hn : n ≤ 2 ^ 16) (e : Emission) (h : e ∈ emissions n) :
    ((e.orientation = 1 ∨ e.orientation = 3) → 0 < e.col) ∧
    (e.orientation = 1 → 1 ≤ e.elem) ∧ 1 ≤ e.num_col ∧
    e.elem + e.num_col + 1 < 2 ^ 32 ∧ e.orientation < 4 := by
  obtain ⟨r, c, hr, hc, hm⟩ := (mem_emissions n e).mp h
  obtain ⟨h1, h2, h3, h4⟩ := mem_columnEmissions r c e hm
  have ht := triNum_lt (show r < 2 ^ 16 by omega)
  have he : e.elem = triNum r + c := by
    rw [h2]
    exact Nat.mod_eq_of_lt (by omega)
  have hcol : (e.orientation = 1 ∨ e.orientation = 3) → 0 < c := by
    intro ho
    rcases Nat.eq_zero_or_pos c with h0 | h0
    · subst h0
      rcases h4 with h4 | ⟨h4, _⟩
      · rw [orientationAt_zero] at h4
        rcases startOrientation_cases r with h' | h' <;> omega
      · omega
    · exact h0
  refine ⟨fun ho => by rw [h1]; exact hcol ho, fun ho => ?_, by omega, by omega, ?_⟩
  · have := hcol (Or.inl ho)
    omega
  · rcases h4 with h4 | ⟨_, h4⟩
    · rw [h4]; exact orientationAt_lt r c
    · rw [h4]; exact Nat.mod_lt _ (by norm_num)

theorem emission_triangle_exact (e : Emission) (ho : e.orientation < 4)
    (h1 : e.orientation = 1 → 1 ≤ e.elem) (hnc : 1 ≤ e.num_col)
    (hb : e.elem + e.num_col + 1 < 2 ^ 32) :
    e.triangle = triangleAt e.elem e.num_col e.orientation := by
  have a := new_triangle_uint e.elem e.num_col e.orientation ho
  rw [new_triangle_eq _ _ _ ho h1 hnc hb] at a
  exact (Except.ok.inj a).symm

/-- C22 (as stated, refuted): at level 17 the counter `elem` passes 2^32 in the
last row and wraps; at row 131071, column 65536 it is 0 while the orientation is
1, and `elem - 1` underflows: the triangle pushed there has the second index
4294967295. -/
theorem getLeafIndices_level_17_underflow :
    ∃ tris, getLeafIndices 262147 17 = some (.ok tris) ∧
      Emission.mk 65536 0 131072 1 ∈ emissions 131072 ∧
      new_triangle 0 131072 1 = .ok (uvec3.mk 0 4294967295 131072) ∧
      uvec3.mk 0 4294967295 131072 ∈ tris := by
  have hm : Emission.mk 65536 0 131072 1 ∈ emissions 131072 := by
    rw [mem_emissions]
    refine ⟨131071, 65536, by norm_num, by norm_num, ?_⟩
    have e1 : u32 (triNum 131071 + 65536) = 0 := by norm_num [u32, triNum]
    have e2 : orientationAt 131071 65536 = 1 := by norm_num [orientationAt, startOrientation]
    simp [columnEmissions, e1, e2]
  have h := getLeafIndices_uint 17 (by norm_num) 262147 (by norm_num)
  have e17 : 2 ^ 17 = 131072 := by norm_num
  rw [e17] at h
  refine ⟨_, h, hm, by simp [new_triangle, u32], ?_⟩
  rw [List.mem_map]
  exact ⟨_, hm, by simp [Emission.triangle, uintTriangleAt, u32]⟩

/-- C22 (amended): for every level L with 0 ≤ L ≤ 16, every vertex index emitted by
`getLeafIndices(L)` is strictly less than the number of vertices returned by
`getLeafVertices(L)`, and no index computation leaves the range of `uint`: the
orientation-1 and orientation-3 cases are evaluated only at a column > 0, `elem`
is at least 1 where `elem - 1` is computed, no sum reaches 2^32, and every
triangle pushed is the one computed without wrap-around. -/
theorem getLeafIndices_in_range (L fuel : Nat) (hL : L ≤ 16) (hf : 2 * 2 ^ L + 3 ≤ fuel) :
    ∃ vs tris, getLeafVertices fuel L = some vs ∧
      getLeafIndices fuel L = some (.ok tris) ∧
      tris = (emissions (2 ^ L)).map Emission.triangle ∧
      (∀ t ∈ tris, t.x < vs.length ∧ t.y < vs.length ∧ t.z < vs.length) ∧
      (∀ e ∈ emissions (2 ^ L),
        ((e.orientation = 1 ∨ e.orientation = 3) → 0 < e.col) ∧
        (e.orientation = 1 → 1 ≤ e.elem) ∧ 1 ≤ e.num_col ∧
        e.elem + e.num_col + 1 < 2 ^ 32 ∧
        e.triangle = triangleAt e.elem e.num_col e.orientation) := by
  have hn : 2 ^ L ≤ 2 ^ 16 := Nat.pow_le_pow_right (by norm_num) hL
  have h1 := getLeafIndices_uint L (by omega) fuel hf
  have h2 := getLeafIndices_eq_table L hL fuel hf
  have h3 : (emissions (2 ^ L)).map Emission.triangle = leafIndexTable L := by
    rw [h1] at h2
    exact Except.ok.inj (Option.some.inj h2)
  refine ⟨leafVertexTable L, _, getLeafVertices_eq_table L (by omega) fuel hf, h1, rfl, ?_, ?_⟩
  · intro t ht
    rw [h3] at ht
    obtain ⟨p0, p1, p2, a0, a1, a2, _⟩ := leaf_triangle_geometry L t ht
    exact ⟨(List.getElem?_eq_some.mp a0).1, (List.getElem?_eq_some.mp a1).1,
      (List.getElem?_eq_some.mp a2).1⟩
  · intro e he
    obtain ⟨b1, b2, b3, b4, b5⟩ := emission_exact _ hn e he
    exact ⟨b1, b2, b3, b4, emission_triangle_exact e b5 b2 b3 b4⟩

theorem getLeafIndices_in_range_witness :
    (1 : Nat) ≤ 16 ∧ 2 * 2 ^ 1 + 3 ≤ 7 ∧
    ∃ vs tris, getLeafVertices 7 1 = some vs ∧
      getLeafIndices 7 1 = some (.ok tris) ∧
      ∀ t ∈ tris, t.x < vs.length ∧ t.y < vs.length ∧ t.z < vs.length := by
  obtain ⟨vs, tris, h1, h2, _, h4, _⟩ := getLeafIndices_in_range 1 7 (by decide) (by decide)
  exact ⟨by decide, by decide, vs, tris, h1, h2, h4⟩

/-! ## The writes of the node initialisation loop -/

theorem loadNodesBuffers_quads_all (max_ssbo_size triangle_count q init_prev : Nat)
    (fresh : Nat → uvec4) (h1 : max_ssbo_size < 2 ^ 31) (h2 : 4 * q ≤ max_ssbo_size / 8 / 16) :
    ∃ b, loadNodesBuffers max_ssbo_size QUADS triangle_count q init_prev fresh = some b ∧
      b.max_node_count_ = max_ssbo_size / 8 / 16 ∧
      b.init_node_count_ = 2 * q ∧
      ∀ c, c < 2 * q → b.nodes_array[2 * c]? = some (uvec4.mk 0 1 (4 * c) 0) ∧
        b.nodes_array[2 * c + 1]? = some (uvec4.mk 0 1 (4 * c) 1) := by
  have e : 2 * q % 2 ^ 32 = 2 * q := Nat.mod_eq_of_lt (by omega)
  have ht : 2 * q < 2 ^ 31 := by omega
  obtain ⟨arr1, h3, _, h5⟩ := quad_loop (2 * q) ((List.range (max_ssbo_size / 8 / 16)).map fresh)
    (by simp only [List.length_map, List.length_range]; omega) (by omega)
  have hq : QUADS ≠ TRIANGLES := by decide
  refine ⟨NodeBuffers.mk (max_ssbo_size / 8 / 16) (2 * q) arr1 [arr1, arr1, arr1], ?_, rfl, rfl,
    h5⟩
  simp only [loadNodesBuffers, hq, if_false, if_true, u32, e, loopBound, ht, h3,
    Option.map_some']

/-- C23 (the code at the failing input): with polygon type QUADS and one quad,
`init_node_count_` is 2 and the loop, run on an array filled with (7,7,7,7), has
also written the entries 2 and 3; with 400000 quads `init_node_count_` is 800000,
within the capacity 1048576 that a block size of 2^27 gives, and the loop writes
past the allocated array. -/
theorem loadNodesBuffers_quads_writes_past_count :
    (∃ b, loadNodesBuffers 134217728 QUADS 0 1 0 (fun _ => uvec4.mk 7 7 7 7) = some b ∧
      b.init_node_count_ = 2 ∧
      b.nodes_array[2]? = some (uvec4.mk 0 1 4 0) ∧
      b.nodes_array[3]? = some (uvec4.mk 0 1 4 1)) ∧
    (∃ b, loadNodesBuffers 134217728 QUADS 0 0 0 (fun _ => uvec4.mk 7 7 7 7) = some b ∧
      b.max_node_count_ = 1048576) ∧
    2 * 400000 ≤ 1048576 ∧
    loadNodesBuffers 134217728 QUADS 0 400000 0 (fun _ => uvec4.mk 7 7 7 7) = none := by
  refine ⟨?_, ?_, by norm_num, ?_⟩
  · obtain ⟨b, h1, _, h3, h4⟩ := loadNodesBuffers_quads_all 134217728 0 1 0
      (fun _ => uvec4.mk 7 7 7 7) (by norm_num) (by norm_num)
    exact ⟨b, h1, h3, (h4 1 (by norm_num)).1, (h4 1 (by norm_num)).2⟩
  · obtain ⟨b, h1, h2, _⟩ := loadNodesBuffers_quads_all 134217728 0 0 0
      (fun _ => uvec4.mk 7 7 7 7) (by norm_num) (by norm_num)
    exact ⟨b, h1, by rw [h2]⟩
  · exact loadNodesBuffers_quads_overflow 134217728 0 400000 0 (fun _ => uvec4.mk 7 7 7 7)
      (by norm_num) (by norm_num) (by norm_num)

/-- C10 (the code at the failing input): a block size of 2^27 bytes gives a node
array of 1048576 entries; for 300000 quads the initial population of 600000 nodes
fits, yet the loop, which runs `ctr` up to `2 * quad_count` and writes two
entries per round, writes past the array: the call has no defined result, and so
does not set `init_node_count_` to 600000 with the two nodes of every quad in
place. -/
theorem loadNodesBuffers_quads_within_capacity :
    (∃ b, loadNodesBuffers 134217728 QUADS 0 0 0 (fun _ => uvec4.mk 0 0 0 0) = some b ∧
      b.max_node_count_ = 1048576) ∧
    2 * 300000 ≤ 1048576 ∧
    loadNodesBuffers 134217728 QUADS 0 300000 0 (fun _ => uvec4.mk 0 0 0 0) = none ∧
    ¬ ∃ b, loadNodesBuffers 134217728 QUADS 0 300000 0 (fun _ => uvec4.mk 0 0 0 0) = some b ∧
        b.init_node_count_ = 2 * 300000 ∧
        ∀ c, c < 300000 → b.nodes_array[2 * c]? = some (uvec4.mk 0 1 (4 * c) 0) ∧
          b.nodes_array[2 * c + 1]? = some (uvec4.mk 0 1 (4 * c) 1) := by
  have h := loadNodesBuffers_quads_overflow 134217728 0 300000 0
    (fun _ => uvec4.mk 0 0 0 0) (by norm_num) (by norm_num) (by norm_num)
  refine ⟨?_, by norm_num, h, ?_⟩
  · obtain ⟨b, h1, h2, _⟩ := loadNodesBuffers_quads_all 134217728 0 0 0
      (fun _ => uvec4.mk 0 0 0 0) (by norm_num) (by norm_num)
    exact ⟨b, h1, by rw [h2]⟩
  · rintro ⟨b, hb, _⟩
    rw [h] at hb
    cases hb

/-! ## `getLeafIndices` and the capacity of the vector -/

end BinTree
